import Mathlib

/-!
# earthboundkid/gateway: request builder and response recorder

A shallow embedding of `request.go` (`wraperr`, `mergeValues`, `NewRequest`) and of
the pieces of the Go standard library it calls (`net/textproto`, `net/url`,
`encoding/base64`, `net/http`, `strconv`), followed by the properties proved about
them.

Conventions of the embedding:

* a Go `string` / `[]byte` is a list of bytes, each byte a natural number below 256
  (`GoString`); string constants of the source are written `str "..."`;
* a Go `map[string]T` is an association list with pairwise distinct keys
  (`GoMap T`); `range` visits the entries in the order of the list, which stands
  for the unspecified iteration order of Go;
* a Go function returning `(T, error)` returns `Except GoError T`.
-/

namespace Gateway

/-! ## Strings and maps -/

/-- A Go string: a sequence of bytes. -/
abbrev GoString := List Nat

/-- The bytes of an ASCII string constant of the source. -/
def str (s : String) : GoString := s.data.map Char.toNat

deriving instance DecidableEq for Except

/-- A Go `map[string]T`. -/
abbrev GoMap (T : Type) := AList (fun _ : GoString => T)

/-- The map index expression `m[k]` in its two-valued form `v, ok := m[k]`. -/
def GoMap.get {T : Type} (m : GoMap T) (k : GoString) : Option T := AList.lookup k m

/-- The map assignment `m[k] = v`. -/
def GoMap.set {T : Type} (m : GoMap T) (k : GoString) (v : T) : GoMap T := AList.insert k v m

/-- A map literal, or a decoded JSON object: later duplicates of a key are dropped. -/
def GoMap.ofList {T : Type} (l : List (GoString × T)) : GoMap T :=
  List.toAList (l.map fun p => (⟨p.1, p.2⟩ : Sigma fun _ : GoString => T))

/-! ## request.go: mergeValues -/

/-- Source `mergeValues` (request.go): every entry of `single` becomes a one-element
list, then every entry of `multi` overwrites what is stored under its key. -/
def mergeValues (single : GoMap GoString) (multi : GoMap (List GoString)) :
    GoMap (List GoString) :=
  let m : GoMap (List GoString) := ∅
  let m := single.foldl (fun m k v => m.set k [v]) m
  -- Let multi trump single if both are set
  multi.foldl (fun m k v => m.set k v) m

/-! ## Go errors -/

/-- The error values that `NewRequest` and the library functions it calls can return. -/
inductive GoError where
  /-- `errors.New(msg)`. -/
  | errorString (msg : GoString)
  /-- `url.EscapeError(s)`. -/
  | escapeError (s : GoString)
  /-- `url.InvalidHostError(s)`. -/
  | invalidHostError (s : GoString)
  /-- `fmt.Errorf("invalid port %q after host", port)` of net/url. -/
  | invalidPort (port : GoString)
  /-- `&url.Error{Op: op, URL: url, Err: err}`. -/
  | urlError (op url : GoString) (err : GoError)
  /-- `base64.CorruptInputError(n)`. -/
  | corruptInputError (n : Nat)
  /-- `fmt.Errorf("net/http: invalid method %q", method)`. -/
  | invalidMethod (method : GoString)
  /-- `fmt.Errorf("%s: %w", msg, err)`, the only form `wraperr` builds. -/
  | wrapped (msg : GoString) (err : GoError)
  deriving DecidableEq, Repr

/-- Source `wraperr` (request.go): `nil` stays `nil`, any other error is wrapped as
`fmt.Errorf("%s: %w", msg, err)`. The argument is `none` for Go's `nil` error. -/
def wraperr (err : Option GoError) (msg : GoString) : Option GoError :=
  match err with
  | none => none
  | some e => some (GoError.wrapped msg e)

/-- `errors.Unwrap`: the error a `%w` verb or a `url.Error` wraps. -/
def GoError.Unwrap : GoError → Option GoError
  | .wrapped _ e => some e
  | .urlError _ _ e => some e
  | _ => none

/-- `strconv.Itoa` on a non-negative integer. -/
def Itoa (n : Nat) : GoString := (Nat.toDigits 10 n).map Char.toNat

/-- The method `Error()`. `strconv.Quote`, which the `%q` verb applies, is not
modelled and is taken as the parameter `quote`. -/
def GoError.Error (quote : GoString → GoString) : GoError → GoString
  | .errorString msg => msg
  | .escapeError s => str "invalid URL escape " ++ quote s
  | .invalidHostError s => str "invalid character " ++ quote s ++ str " in host name"
  | .invalidPort port => str "invalid port " ++ quote port ++ str " after host"
  | .urlError op url err => op ++ str " " ++ quote url ++ str ": " ++ err.Error quote
  | .corruptInputError n => str "illegal base64 data at input byte " ++ Itoa n
  | .invalidMethod method => str "net/http: invalid method " ++ quote method
  | .wrapped msg err => msg ++ str ": " ++ err.Error quote

/-! ## Package strings -/

/-- `strings.HasPrefix`. -/
def HasPrefix (s p : GoString) : Bool := p.isPrefixOf s

/-- `strings.HasSuffix`. -/
def HasSuffix (s p : GoString) : Bool := p.reverse.isPrefixOf s.reverse

/-- `strings.Cut(s, sep)` for a one-byte separator: the text before and after the
first `sep`, and whether `sep` was found. -/
def Cut (s : GoString) (sep : Nat) : GoString × GoString × Bool :=
  match s with
  | [] => ([], [], false)
  | c :: rest =>
    if c = sep then ([], rest, true)
    else
      let r := Cut rest sep
      (c :: r.1, r.2.1, r.2.2)

/-- `strings.Index(s, sep)`, `none` standing for -1. -/
def Index (s sep : GoString) : Option Nat :=
  match s with
  | [] => if sep = [] then some 0 else none
  | c :: rest =>
    if sep.isPrefixOf (c :: rest) then some 0
    else (Index rest sep).map (· + 1)

/-- `strings.LastIndex(s, sep)` for a one-byte separator, `none` standing for -1. -/
def LastIndexByte (s : GoString) (sep : Nat) : Option Nat :=
  match s with
  | [] => none
  | c :: rest =>
    match LastIndexByte rest sep with
    | some i => some (i + 1)
    | none => if c = sep then some 0 else none

/-- `strings.ToLower` on one byte; the strings it is applied to are ASCII. -/
def toLowerByte (c : Nat) : Nat := if 65 ≤ c ∧ c ≤ 90 then c + 32 else c

/-- `strings.ToLower` on an ASCII string. -/
def ToLower (s : GoString) : GoString := s.map toLowerByte

/-! ## net/textproto and http.Header -/

/-- `httpguts.IsTokenRune` / `textproto.validHeaderFieldByte`: the `tchar` class of
RFC 7230: letters, digits and ``!#$%&'*+-.^_`|~``. -/
def isTokenByte (c : Nat) : Bool :=
  (97 ≤ c ∧ c ≤ 122) ∨ (65 ≤ c ∧ c ≤ 90) ∨ (48 ≤ c ∧ c ≤ 57) ∨
  c = 33 ∨ c = 35 ∨ c = 36 ∨ c = 37 ∨ c = 38 ∨ c = 39 ∨ c = 42 ∨ c = 43 ∨
  c = 45 ∨ c = 46 ∨ c = 94 ∨ c = 95 ∨ c = 96 ∨ c = 124 ∨ c = 126

/-- The rewriting loop of `textproto.canonicalMIMEHeaderKey`: upper case for the
first letter and for a letter after `-`, lower case for the others. -/
def canonicalLoop (upper : Bool) : GoString → GoString
  | [] => []
  | c :: rest =>
    if upper ∧ 97 ≤ c ∧ c ≤ 122 then (c - 32) :: canonicalLoop (c - 32 = 45) rest
    else if ¬ upper ∧ 65 ≤ c ∧ c ≤ 90 then (c + 32) :: canonicalLoop (c + 32 = 45) rest
    else c :: canonicalLoop (c = 45) rest

/-- `textproto.CanonicalMIMEHeaderKey`: a key holding a byte that is not a header
field byte (a space included) is returned unchanged. -/
def CanonicalMIMEHeaderKey (s : GoString) : GoString :=
  if s.all isTokenByte then canonicalLoop true s else s

/-- The type `http.Header`, a `map[string][]string`. -/
abbrev Header := GoMap (List GoString)

/-- `http.Header.Get`: the first value stored under the canonical form of `key`,
`""` when there is none. The stored keys are not canonicalised. -/
def Header.Get (h : Header) (key : GoString) : GoString :=
  match h.get (CanonicalMIMEHeaderKey key) with
  | some (v :: _) => v
  | _ => []

/-- `http.Header.Set`: replaces the values under the canonical form of `key`. -/
def Header.Set (h : Header) (key value : GoString) : Header :=
  h.set (CanonicalMIMEHeaderKey key) [value]

/-- `http.Header.Add`: appends to the values under the canonical form of `key`. -/
def Header.Add (h : Header) (key value : GoString) : Header :=
  let key := CanonicalMIMEHeaderKey key
  h.set key ((h.get key).getD [] ++ [value])

/-- `http.Header.Values`: all values under the canonical form of `key`. -/
def Header.Values (h : Header) (key : GoString) : List GoString :=
  (h.get (CanonicalMIMEHeaderKey key)).getD []

/-! ## net/url (Go standard library) -/

/-- The escaping modes of net/url. -/
inductive encoding where
  | encodePath
  | encodePathSegment
  | encodeHost
  | encodeZone
  | encodeUserPassword
  | encodeQueryComponent
  | encodeFragment
  deriving DecidableEq, Repr

/-- ASCII letters and digits. -/
def isAlnum (c : Nat) : Bool :=
  (97 ≤ c ∧ c ≤ 122) ∨ (65 ≤ c ∧ c ≤ 90) ∨ (48 ≤ c ∧ c ≤ 57)

/-- `url.shouldEscape`. Byte values: `!` 33, `"` 34, `$` 36, `&` 38, quote 39, `(` 40,
`)` 41, `*` 42, `+` 43, `,` 44, `-` 45, `.` 46, `/` 47, `:` 58, `;` 59, `<` 60, `=` 61,
`>` 62, `?` 63, `@` 64, `[` 91, `]` 93, `_` 95, `~` 126. -/
def shouldEscape (c : Nat) (mode : encoding) : Bool :=
  -- §2.3 Unreserved characters (alphanum)
  if isAlnum c then false
  -- §3.2.2 Host allows sub-delims, `:`, `[`, `]`, `<`, `>` and `"`
  else if (mode = .encodeHost ∨ mode = .encodeZone) ∧
      c ∈ [33, 36, 38, 39, 40, 41, 42, 43, 44, 59, 61, 58, 91, 93, 60, 62, 34] then false
  -- §2.3 Unreserved characters (mark)
  else if c ∈ [45, 95, 46, 126] then false
  -- §2.2 Reserved characters (reserved)
  else if c ∈ [36, 38, 43, 44, 47, 58, 59, 61, 63, 64] then
    match mode with
    | .encodePath => c = 63
    | .encodePathSegment => c = 47 ∨ c = 59 ∨ c = 44 ∨ c = 63
    | .encodeUserPassword => c = 64 ∨ c = 47 ∨ c = 63 ∨ c = 58
    | .encodeQueryComponent => true
    | .encodeFragment => false
    | _ => true
  else if mode = .encodeFragment ∧ c ∈ [33, 40, 41, 42] then false
  -- Everything else must be escaped.
  else true

/-- The table `upperhex = "0123456789ABCDEF"`. -/
def upperhex (n : Nat) : Nat := if n < 10 then 48 + n else 55 + n

/-- `url.ishex`. -/
def ishex (c : Nat) : Bool :=
  (48 ≤ c ∧ c ≤ 57) ∨ (97 ≤ c ∧ c ≤ 102) ∨ (65 ≤ c ∧ c ≤ 70)

/-- `url.unhex`. -/
def unhex (c : Nat) : Nat :=
  if 48 ≤ c ∧ c ≤ 57 then c - 48
  else if 97 ≤ c ∧ c ≤ 102 then c - 97 + 10
  else if 65 ≤ c ∧ c ≤ 70 then c - 65 + 10
  else 0

/-- What the writing loop of `url.escape` emits for one byte: `+` for a space in a
query component, `%XX` for a byte to escape, the byte itself otherwise. -/
def escapeByte (mode : encoding) (c : Nat) : GoString :=
  if c = 32 ∧ mode = .encodeQueryComponent then [43]
  else if shouldEscape c mode then [37, upperhex (c / 16), upperhex (c % 16)]
  else [c]

/-- `url.escape`. -/
def escape : GoString → encoding → GoString
  | [], _ => []
  | c :: rest, mode => escapeByte mode c ++ escape rest mode

/-- `url.unescape`: the validation pass and the decoding pass in one traversal; the
error is that of the first offending position, as in the source. -/
def unescape : GoString → encoding → Except GoError GoString
  | [], _ => .ok []
  | c :: rest, mode =>
    if c = 37 then
      match rest with
      | a :: b :: rest2 =>
        if ¬ (ishex a ∧ ishex b) then .error (.escapeError [37, a, b])
        -- in the host component %-encoding can only be used for non-ASCII bytes,
        -- except %25 in IPv6 scoped-address literals
        else if mode = .encodeHost ∧ unhex a < 8 ∧ [37, a, b] ≠ [37, 50, 53] then
          .error (.escapeError [37, a, b])
        else if mode = .encodeZone ∧ [37, a, b] ≠ [37, 50, 53] ∧ unhex a * 16 + unhex b ≠ 32 ∧
            shouldEscape (unhex a * 16 + unhex b) .encodeHost then
          .error (.escapeError [37, a, b])
        else
          match unescape rest2 mode with
          | .error e => .error e
          | .ok t => .ok ((unhex a * 16 + unhex b) :: t)
      | _ => .error (.escapeError (37 :: rest))
    else if c = 43 then
      match unescape rest mode with
      | .error e => .error e
      | .ok t => .ok ((if mode = .encodeQueryComponent then 32 else 43) :: t)
    else if (mode = .encodeHost ∨ mode = .encodeZone) ∧ c < 128 ∧ shouldEscape c .encodeHost then
      .error (.invalidHostError [c])
    else
      match unescape rest mode with
      | .error e => .error e
      | .ok t => .ok (c :: t)

/-- `url.QueryEscape`. -/
def QueryEscape (s : GoString) : GoString := escape s .encodeQueryComponent

/-- `url.QueryUnescape`. -/
def QueryUnescape (s : GoString) : Except GoError GoString := unescape s .encodeQueryComponent

/-- `url.validEncoded`. -/
def validEncoded (s : GoString) (mode : encoding) : Bool :=
  s.all fun c =>
    if c ∈ [33, 36, 38, 39, 40, 41, 42, 43, 44, 59, 61, 58, 64] then true
    else if c = 91 ∨ c = 93 then true
    else if c = 37 then true
    else ! shouldEscape c mode

/-- `url.Userinfo`. -/
structure Userinfo where
  username : GoString
  password : GoString
  passwordSet : Bool
  deriving DecidableEq, Repr

/-- `url.URL`. -/
structure URL where
  Scheme : GoString := []
  Opaque : GoString := []
  User : Option Userinfo := none
  Host : GoString := []
  Path : GoString := []
  RawPath : GoString := []
  OmitHost : Bool := false
  ForceQuery : Bool := false
  RawQuery : GoString := []
  Fragment : GoString := []
  RawFragment : GoString := []
  deriving DecidableEq, Repr

/-- `(*URL).setPath`. -/
def URL.setPath (u : URL) (p : GoString) : Except GoError URL :=
  match unescape p .encodePath with
  | .error e => .error e
  | .ok path =>
    if p = escape path .encodePath then .ok { u with Path := path, RawPath := [] }
    else .ok { u with Path := path, RawPath := p }

/-- `(*URL).EscapedPath`. -/
def URL.EscapedPath (u : URL) : GoString :=
  if u.RawPath ≠ [] ∧ validEncoded u.RawPath .encodePath ∧
      unescape u.RawPath .encodePath = .ok u.Path then u.RawPath
  else if u.Path = [42] then [42]
  else escape u.Path .encodePath

/-- `(*URL).setFragment`. -/
def URL.setFragment (u : URL) (f : GoString) : Except GoError URL :=
  match unescape f .encodeFragment with
  | .error e => .error e
  | .ok frag =>
    if f = escape frag .encodeFragment then .ok { u with Fragment := frag, RawFragment := [] }
    else .ok { u with Fragment := frag, RawFragment := f }

/-- `(*URL).EscapedFragment`. -/
def URL.EscapedFragment (u : URL) : GoString :=
  if u.RawFragment ≠ [] ∧ validEncoded u.RawFragment .encodeFragment ∧
      unescape u.RawFragment .encodeFragment = .ok u.Fragment then u.RawFragment
  else escape u.Fragment .encodeFragment

/-- `url.stringContainsCTLByte`. -/
def stringContainsCTLByte (s : GoString) : Bool := s.any fun b => b < 32 ∨ b = 127

/-- The loop of `url.getScheme`; `i` is the index of the first byte of `s` in `rawURL`. -/
def getSchemeLoop (rawURL : GoString) : Nat → GoString → Except GoError (GoString × GoString)
  | _, [] => .ok ([], rawURL)
  | i, c :: rest =>
    if (97 ≤ c ∧ c ≤ 122) ∨ (65 ≤ c ∧ c ≤ 90) then getSchemeLoop rawURL (i + 1) rest
    else if (48 ≤ c ∧ c ≤ 57) ∨ c = 43 ∨ c = 45 ∨ c = 46 then
      if i = 0 then .ok ([], rawURL) else getSchemeLoop rawURL (i + 1) rest
    else if c = 58 then
      if i = 0 then .error (.errorString (str "missing protocol scheme"))
      else .ok (rawURL.take i, rest)
    -- an invalid character, so there is no valid scheme
    else .ok ([], rawURL)

/-- `url.getScheme`: the scheme and the text after its colon. -/
def getScheme (rawURL : GoString) : Except GoError (GoString × GoString) :=
  getSchemeLoop rawURL 0 rawURL

/-- `url.validOptionalPort`. -/
def validOptionalPort (port : GoString) : Bool :=
  match port with
  | [] => true
  | c :: rest => c = 58 ∧ rest.all fun b => 48 ≤ b ∧ b ≤ 57

/-- `url.validUserinfo`. -/
def validUserinfo (s : GoString) : Bool :=
  s.all fun r => isAlnum r ∨
    r ∈ [45, 46, 95, 58, 126, 33, 36, 38, 39, 40, 41, 42, 43, 44, 59, 61, 37, 64]

/-- `url.parseHost`. -/
def parseHost (host : GoString) : Except GoError GoString :=
  if HasPrefix host [91] then
    -- an IP-literal, as "[fe80::1]", "[fe80::1%25en0]", "[fe80::1]:80"
    match LastIndexByte host 93 with
    | none => .error (.errorString (str "missing ']' in host"))
    | some i =>
      let colonPort := host.drop (i + 1)
      if ¬ validOptionalPort colonPort then .error (.invalidPort colonPort)
      else
        match Index (host.take i) (str "%25") with
        | some zone =>
          match unescape (host.take zone) .encodeHost with
          | .error e => .error e
          | .ok host1 =>
            match unescape ((host.take i).drop zone) .encodeZone with
            | .error e => .error e
            | .ok host2 =>
              match unescape (host.drop i) .encodeHost with
              | .error e => .error e
              | .ok host3 => .ok (host1 ++ host2 ++ host3)
        | none => unescape host .encodeHost
  else
    match LastIndexByte host 58 with
    | some i =>
      if ¬ validOptionalPort (host.drop i) then .error (.invalidPort (host.drop i))
      else unescape host .encodeHost
    | none => unescape host .encodeHost

/-- `url.parseAuthority`. -/
def parseAuthority (authority : GoString) : Except GoError (Option Userinfo × GoString) :=
  match LastIndexByte authority 64 with
  | none =>
    match parseHost authority with
    | .error e => .error e
    | .ok host => .ok (none, host)
  | some i =>
    match parseHost (authority.drop (i + 1)) with
    | .error e => .error e
    | .ok host =>
      let userinfo := authority.take i
      if ¬ validUserinfo userinfo then .error (.errorString (str "net/url: invalid userinfo"))
      else if 58 ∉ userinfo then
        match unescape userinfo .encodeUserPassword with
        | .error e => .error e
        | .ok username => .ok (some ⟨username, [], false⟩, host)
      else
        match unescape (Cut userinfo 58).1 .encodeUserPassword with
        | .error e => .error e
        | .ok username =>
          match unescape (Cut userinfo 58).2.1 .encodeUserPassword with
          | .error e => .error e
          | .ok password => .ok (some ⟨username, password, true⟩, host)

/-- The part of `url.parse` after the scheme and the query have been split off: the
authority, if any, and the path. -/
def parseAuthorityPath (url : URL) (rest : GoString) (viaRequest : Bool) : Except GoError URL :=
  if (url.Scheme ≠ [] ∨ (¬ viaRequest ∧ ¬ HasPrefix rest (str "///"))) ∧
      HasPrefix rest (str "//") then
    let authority := rest.drop 2
    match Index authority [47] with
    | some i =>
      match parseAuthority (authority.take i) with
      | .error e => .error e
      | .ok (user, host) => URL.setPath { url with User := user, Host := host } (authority.drop i)
    | none =>
      match parseAuthority authority with
      | .error e => .error e
      | .ok (user, host) => URL.setPath { url with User := user, Host := host } []
  else if url.Scheme ≠ [] ∧ HasPrefix rest [47] then
    -- OmitHost is set to true when rawURL has an empty host (authority)
    URL.setPath { url with OmitHost := true } rest
  else URL.setPath url rest

/-- `url.parse`: parses a URL without fragment. -/
def parse (rawURL : GoString) (viaRequest : Bool) : Except GoError URL :=
  if stringContainsCTLByte rawURL then
    .error (.errorString (str "net/url: invalid control character in URL"))
  else if rawURL = [] ∧ viaRequest then .error (.errorString (str "empty url"))
  else if rawURL = [42] then .ok { Path := [42] }
  else
    match getScheme rawURL with
    | .error e => .error e
    | .ok (scheme, rest) =>
      let url : URL :=
        if HasSuffix rest [63] ∧ rest.count 63 = 1 then
          { Scheme := ToLower scheme, ForceQuery := true }
        else { Scheme := ToLower scheme, RawQuery := (Cut rest 63).2.1 }
      let rest := if HasSuffix rest [63] ∧ rest.count 63 = 1 then rest.dropLast
                  else (Cut rest 63).1
      if ¬ HasPrefix rest [47] then
        if url.Scheme ≠ [] then
          -- rootless paths are considered opaque
          .ok { url with Opaque := rest }
        else if viaRequest then .error (.errorString (str "invalid URI for request"))
        else if 58 ∈ (Cut rest 47).1 then
          .error (.errorString (str "first path segment in URL cannot contain colon"))
        else parseAuthorityPath url rest viaRequest
      else parseAuthorityPath url rest viaRequest

/-- `url.Parse`: cuts off the fragment, parses the rest, then sets the fragment. -/
def Parse (rawURL : GoString) : Except GoError URL :=
  match parse (Cut rawURL 35).1 false with
  | .error err => .error (.urlError (str "parse") (Cut rawURL 35).1 err)
  | .ok url =>
    if (Cut rawURL 35).2.1 = [] then .ok url
    else
      match url.setFragment (Cut rawURL 35).2.1 with
      | .error err => .error (.urlError (str "parse") rawURL err)
      | .ok url => .ok url

/-- `(*Userinfo).String`. -/
def Userinfo.String (u : Userinfo) : GoString :=
  if u.passwordSet then
    escape u.username .encodeUserPassword ++ [58] ++ escape u.password .encodeUserPassword
  else escape u.username .encodeUserPassword

/-- What `(*URL).String` writes before the path when `Opaque` is empty: `//`, the
user information and the host. -/
def URL.authorityString (u : URL) : GoString :=
  if u.Scheme ≠ [] ∨ u.Host ≠ [] ∨ u.User ≠ none then
    if u.OmitHost ∧ u.Host = [] ∧ u.User = none then []
    else
      (if u.Host ≠ [] ∨ u.Path ≠ [] ∨ u.User ≠ none then str "//" else []) ++
      (match u.User with
       | some ui => ui.String ++ [64]
       | none => []) ++
      (if u.Host ≠ [] then escape u.Host .encodeHost else [])
  else []

/-- `(*URL).String`. -/
def URL.String (u : URL) : GoString :=
  let scheme := if u.Scheme ≠ [] then u.Scheme ++ [58] else []
  let body :=
    if u.Opaque ≠ [] then scheme ++ u.Opaque
    else
      let buf := scheme ++ u.authorityString
      let path := u.EscapedPath
      let buf := if path ≠ [] ∧ path.head? ≠ some 47 ∧ u.Host ≠ [] then buf ++ [47] else buf
      -- a first segment with a colon would be mistaken for a scheme name
      let buf := if buf = [] ∧ 58 ∈ (Cut path 47).1 then str "./" else buf
      buf ++ path
  let query := if u.ForceQuery ∨ u.RawQuery ≠ [] then 63 :: u.RawQuery else []
  let fragment := if u.Fragment ≠ [] then 35 :: u.EscapedFragment else []
  body ++ query ++ fragment

/-- `(*URL).RequestURI`: the encoded `path?query` or `opaque?query` string. -/
def URL.RequestURI (u : URL) : GoString :=
  let result :=
    if u.Opaque = [] then
      if u.EscapedPath = [] then [47] else u.EscapedPath
    else if HasPrefix u.Opaque (str "//") then u.Scheme ++ [58] ++ u.Opaque
    else u.Opaque
  if u.ForceQuery ∨ u.RawQuery ≠ [] then result ++ [63] ++ u.RawQuery else result

/-- The successive pieces a loop of `strings.Cut(remaining, sep)` cuts off `s`, the
last one (after which nothing was found) included. -/
def splitByte (sep : Nat) : GoString → List GoString
  | [] => [[]]
  | c :: rest =>
    if c = sep then [] :: splitByte sep rest
    else
      match splitByte sep rest with
      | [] => [[c]]
      | e :: es => (c :: e) :: es

/-- The successive values of `elem` in the `strings.Cut(remaining, "/")` loop of
`url.resolvePath`. -/
def splitSlash (s : GoString) : List GoString := splitByte 47 s

/-- One turn of the loop of `url.resolvePath` on the builder `dst` and the flag
`first`. -/
def resolveStep (st : GoString × Bool) (elem : GoString) : GoString × Bool :=
  match st with
  | (dst, first) =>
    if elem = [46] then (dst, false)
    else if elem = [46, 46] then
      -- ignore the leading '/' already written
      match LastIndexByte (dst.drop 1) 47 with
      | none => ([47], true)
      | some index => (47 :: (dst.drop 1).take index, first)
    else
      match first with
      | true => (dst ++ elem, false)
      | false => (dst ++ [47] ++ elem, false)

/-- `url.resolvePath`: applies the algorithm of RFC 3986 §5.2.2–5.2.4 to `base` and
`ref`. -/
def resolvePath (base ref : GoString) : GoString :=
  let full :=
    match ref with
    | [] => base
    | c :: _ =>
      if c ≠ 47 then
        match LastIndexByte base 47 with
        | some i => base.take (i + 1) ++ ref
        | none => ref
      else ref
  if full = [] then []
  else
    let elems := splitSlash full
    let dst := (elems.foldl resolveStep ([47], true)).1
    let dst := if elems.getLast? = some [46] ∨ elems.getLast? = some [46, 46] then dst ++ [47]
               else dst
    -- an initial '/' was written, but two are not wanted
    match dst with
    | _ :: 47 :: r => 47 :: r
    | _ => dst

/-- The assignment `url.setPath(p)` of `ResolveReference`, whose error is ignored. -/
def URL.setPathIgnoringError (u : URL) (p : GoString) : URL :=
  match u.setPath p with
  | .ok url => url
  | .error _ => u

/-- `(*URL).ResolveReference`. -/
def URL.ResolveReference (u ref : URL) : URL :=
  let url : URL := if ref.Scheme = [] then { ref with Scheme := u.Scheme } else ref
  if ref.Scheme ≠ [] ∨ ref.Host ≠ [] ∨ ref.User ≠ none then
    -- the "absoluteURI" or "net_path" cases
    url.setPathIgnoringError (resolvePath ref.EscapedPath [])
  else if ref.Opaque ≠ [] then { url with User := none, Host := [], Path := [] }
  else
    let url : URL :=
      if ref.Path = [] ∧ ¬ ref.ForceQuery ∧ ref.RawQuery = [] then
        if ref.Fragment = [] then
          { url with RawQuery := u.RawQuery, Fragment := u.Fragment, RawFragment := u.RawFragment }
        else { url with RawQuery := u.RawQuery }
      else url
    if ref.Path = [] ∧ u.Opaque ≠ [] then
      { url with Opaque := u.Opaque, User := none, Host := [], Path := [] }
    else
      -- the "abs_path" or "rel_path" cases
      URL.setPathIgnoringError { url with Host := u.Host, User := u.User }
        (resolvePath u.EscapedPath ref.EscapedPath)

/-- `(*URL).Parse`: parses `ref` in the context of the receiver. -/
def URL.Parse (u : URL) (ref : GoString) : Except GoError URL :=
  match Gateway.Parse ref with
  | .error err => .error err
  | .ok refURL => .ok (u.ResolveReference refURL)

/-- Go's `<=` on strings: bytewise lexicographic order. -/
def strLe : GoString → GoString → Bool
  | [], _ => true
  | _ :: _, [] => false
  | a :: s, b :: t => a < b ∨ (a = b ∧ strLe s t)

/-- `sort.Strings`. -/
def sortStrings (keys : List GoString) : List GoString :=
  keys.insertionSort fun a b => strLe a b

/-- The type `url.Values`, a `map[string][]string`. -/
abbrev Values := GoMap (List GoString)

/-- The inner loop of `url.Values.Encode`: appends `key=value` for every value of one
key to `buf`, with `&` before it when `buf` is not empty. -/
def encodeValues (keyEscaped : GoString) (buf : GoString) : List GoString → GoString
  | [] => buf
  | v :: vs =>
    match buf with
    | [] => encodeValues keyEscaped (keyEscaped ++ [61] ++ QueryEscape v) vs
    | _ :: _ => encodeValues keyEscaped (buf ++ [38] ++ keyEscaped ++ [61] ++ QueryEscape v) vs

/-- `url.Values.Encode`: the values in "URL encoded" form ("bar=baz&foo=quux"), sorted
by key. -/
def Values.Encode (v : Values) : GoString :=
  (sortStrings v.keys).foldl
    (fun buf k => encodeValues (QueryEscape k) buf ((v.get k).getD [])) []

/-- One turn of the loop of `url.parseQuery` on the piece cut off before the next `&`;
the state is the map being filled and the first error met. -/
def parseQueryStep (st : Values × Option GoError) (key : GoString) : Values × Option GoError :=
  match st with
  | (m, err) =>
    if 59 ∈ key then (m, some (.errorString (str "invalid semicolon separator in query")))
    else if key = [] then (m, err)
    else
      match QueryUnescape (Cut key 61).1 with
      | .error err1 => (m, if err = none then some err1 else err)
      | .ok k =>
        match QueryUnescape (Cut key 61).2.1 with
        | .error err1 => (m, if err = none then some err1 else err)
        | .ok value => (m.set k ((m.get k).getD [] ++ [value]), err)

/-- `url.ParseQuery`: the map of the values of a URL-encoded query and the first
decoding error met, if any. An empty piece, which the source either skips or does not
reach, changes nothing. -/
def ParseQuery (query : GoString) : Values × Option GoError :=
  (splitByte 38 query).foldl parseQueryStep (∅, none)

/-! ## encoding/base64 (Go standard library), `StdEncoding` -/

/-- The alphabet `encodeStd`: `A`–`Z`, `a`–`z`, `0`–`9`, `+`, `/`. -/
def encodeStd (n : Nat) : Nat :=
  if n < 26 then 65 + n
  else if n < 52 then 97 + (n - 26)
  else if n < 62 then 48 + (n - 52)
  else if n = 62 then 43
  else 47

/-- The table `decodeMap` of `StdEncoding`: the index of a byte in the alphabet, 0xff
for a byte outside it. -/
def decodeMap (c : Nat) : Nat :=
  if 65 ≤ c ∧ c ≤ 90 then c - 65
  else if 97 ≤ c ∧ c ≤ 122 then c - 97 + 26
  else if 48 ≤ c ∧ c ≤ 57 then c - 48 + 52
  else if c = 43 then 62
  else if c = 47 then 63
  else 255

/-- `base64.StdEncoding.EncodeToString`. -/
def EncodeToString : GoString → GoString
  | [] => []
  | [a] =>
    let val := a <<< 16
    [encodeStd (val >>> 18 &&& 63), encodeStd (val >>> 12 &&& 63), 61, 61]
  | [a, b] =>
    let val := a <<< 16 ||| b <<< 8
    [encodeStd (val >>> 18 &&& 63), encodeStd (val >>> 12 &&& 63),
      encodeStd (val >>> 6 &&& 63), 61]
  | a :: b :: c :: rest =>
    -- convert 3x 8bit source bytes into 4 bytes
    let val := a <<< 16 ||| b <<< 8 ||| c
    encodeStd (val >>> 18 &&& 63) :: encodeStd (val >>> 12 &&& 63) ::
      encodeStd (val >>> 6 &&& 63) :: encodeStd (val &&& 63) :: EncodeToString rest

/-- The end of `decodeQuantum`: the first `dlen - 1` bytes of the 24-bit value made of
the 6-bit digits in `dbuf` (missing digits count as 0). -/
def quantumBytes (dbuf : List Nat) : GoString :=
  let val := dbuf.getD 0 0 <<< 18 ||| dbuf.getD 1 0 <<< 12 ||| dbuf.getD 2 0 <<< 6 ||| dbuf.getD 3 0
  [val >>> 16 % 256, val >>> 8 % 256, val % 256].take (dbuf.length - 1)

/-- Skips `\r` and `\n`: the remaining input and the number of bytes skipped. -/
def skipNewlines : GoString → GoString × Nat
  | [] => ([], 0)
  | c :: rest =>
    if c = 10 ∨ c = 13 then ((skipNewlines rest).1, (skipNewlines rest).2 + 1)
    else (c :: rest, 0)

/-- The padding branch of `decodeQuantum`, entered after a `=` has been read at offset
`si - 1` with `dbuf` holding the digits read so far: checks the rest of the padding and
that only newlines follow. `n` is the length of the whole input. -/
def decodePadding (n : Nat) (rest : GoString) (si : Nat) (dbuf : List Nat) :
    Except GoError GoString :=
  match dbuf with
  | [] | [_] => .error (.corruptInputError (si - 1))
  | [_, _] =>
    -- "==" is expected, the first "=" is already consumed
    match skipNewlines rest with
    | ([], _) => .error (.corruptInputError n)
    | (c :: rest2, k) =>
      if c ≠ 61 then .error (.corruptInputError (si + k - 1))
      else
        match skipNewlines rest2 with
        | ([], _) => .ok (quantumBytes dbuf)
        | (_ :: _, k2) => .error (.corruptInputError (si + k + 1 + k2))
  | _ =>
    match skipNewlines rest with
    | ([], _) => .ok (quantumBytes dbuf)
    | (_ :: _, k) => .error (.corruptInputError (si + k))

/-- The loop of `(*Encoding).Decode` with `decodeQuantum` inlined: `src` is the input
from offset `si` on, `dbuf` the digits of the quantum being read, `n` the length of the
whole input. -/
def decodeLoop (n : Nat) : GoString → Nat → List Nat → Except GoError GoString
  | [], si, dbuf =>
    match dbuf with
    | [] => .ok []
    | _ :: _ => .error (.corruptInputError (si - dbuf.length))
  | c :: rest, si, dbuf =>
    if decodeMap c ≠ 255 then
      match dbuf with
      | [d0, d1, d2] =>
        match decodeLoop n rest (si + 1) [] with
        | .error e => .error e
        | .ok t => .ok (quantumBytes [d0, d1, d2, decodeMap c] ++ t)
      | _ => decodeLoop n rest (si + 1) (dbuf ++ [decodeMap c])
    else if c = 10 ∨ c = 13 then decodeLoop n rest (si + 1) dbuf
    else if c ≠ 61 then .error (.corruptInputError si)
    else decodePadding n rest (si + 1) dbuf

/-- `base64.StdEncoding.DecodeString`. -/
def DecodeString (s : GoString) : Except GoError GoString := decodeLoop s.length s 0 []

/-! ## The Lambda event and the invocation context -/

/-- `events.APIGatewayRequestIdentity`, the field the source reads. -/
structure APIGatewayRequestIdentity where
  SourceIP : GoString := []
  deriving DecidableEq

/-- `events.APIGatewayProxyRequestContext`, the fields the source reads. -/
structure APIGatewayProxyRequestContext where
  RequestID : GoString := []
  Stage : GoString := []
  Identity : APIGatewayRequestIdentity := {}
  deriving DecidableEq

/-- `events.APIGatewayProxyRequest`, the fields the source reads. -/
structure APIGatewayProxyRequest where
  HTTPMethod : GoString := []
  Path : GoString := []
  Headers : GoMap GoString := ∅
  MultiValueHeaders : GoMap (List GoString) := ∅
  QueryStringParameters : GoMap GoString := ∅
  MultiValueQueryStringParameters : GoMap (List GoString) := ∅
  RequestContext : APIGatewayProxyRequestContext := {}
  Body : GoString := []
  IsBase64Encoded : Bool := false
  deriving DecidableEq

/-- The `context.Context` handed to `NewRequest`, reduced to the values the source
reads or stores: the fallback host, the value under the key `"x-amzn-trace-id"` as the
verb `%v` prints it, and the event `newContext` attaches. -/
structure Context where
  host : GoString := []
  traceID : Option GoString := none
  event : Option APIGatewayProxyRequest := none
  deriving DecidableEq

/-- Modelled from the spec: `setHost` (context.go is not among the sources): the
fallback host "is carried through the per-invocation context object". -/
def setHost (ctx : Context) (host : GoString) : Context := { ctx with host := host }

/-- Modelled from the spec: `getHost` (context.go is not among the sources): the
fallback host the context carries, `""` when none was set. -/
def getHost (ctx : Context) : GoString := ctx.host

/-- Modelled from the spec: `newContext` (context.go is not among the sources):
"attach the event and ambient context to the request's associated context object". -/
def newContext (ctx : Context) (e : APIGatewayProxyRequest) : Context :=
  { ctx with event := some e }

/-! ## net/http (Go standard library) -/

/-- `http.Request`, the fields `NewRequest` sets. `Body` is the byte sequence the body
stream reads until EOF. -/
structure Request where
  Method : GoString
  URL : URL
  Header : Header
  Body : GoString
  ContentLength : Nat
  Host : GoString
  RequestURI : GoString := []
  RemoteAddr : GoString := []
  ctx : Context := {}
  deriving DecidableEq

/-- `http.validMethod`: a non-empty token. -/
def validMethod (method : GoString) : Bool := method ≠ [] ∧ method.all isTokenByte

/-- `http.hasPort`: whether the string includes a port. -/
def hasPort (s : GoString) : Bool :=
  match LastIndexByte s 58, LastIndexByte s 93 with
  | some i, some j => j < i
  | some _, none => true
  | none, _ => false

/-- `http.removeEmptyPort`: strips the empty port in ":port". -/
def removeEmptyPort (host : GoString) : GoString :=
  if hasPort host ∧ HasSuffix host [58] then host.dropLast else host

/-- `http.NewRequest(method, url, strings.NewReader(body))`, called with the
background context. -/
def httpNewRequest (method url body : GoString) : Except GoError Request :=
  -- "" means "GET"
  let method := if method = [] then str "GET" else method
  if ¬ validMethod method then .error (.invalidMethod method)
  else
    match Gateway.Parse url with
    | .error err => .error err
    | .ok u =>
      -- the host's colon:port should be normalized
      let u := { u with Host := removeEmptyPort u.Host }
      .ok { Method := method, URL := u, Header := ∅, Body := body,
            ContentLength := body.length, Host := u.Host }

/-! ## request.go: NewRequest -/

/-- The URL `u` of `NewRequest` (request.go) as it stands when the request is created:
the event path resolved against the base URL made of the `X-Forwarded-Proto` header, the
host and the path `/`, with the encoded merged query as `RawQuery`. -/
def requestURL (ctx : Context) (e : APIGatewayProxyRequest) : Except GoError URL :=
  let header : Header := mergeValues e.Headers e.MultiValueHeaders
  let host := header.Get (str "Host")
  let host := if host = [] then getHost ctx else host
  let hostURL : URL :=
    { Scheme := header.Get (str "X-Forwarded-Proto"), Host := host, Path := str "/" }
  -- path
  match hostURL.Parse e.Path with
  | .error err => .error err
  | .ok u =>
    let query : Values :=
      mergeValues e.QueryStringParameters e.MultiValueQueryStringParameters
    .ok { u with RawQuery := query.Encode }

/-- The `body` of `NewRequest` (request.go): the event body, base64-decoded when the
event says it is encoded. -/
def requestBody (e : APIGatewayProxyRequest) : Except GoError GoString :=
  if e.IsBase64Encoded then DecodeString e.Body else .ok e.Body

/-- The statements of `NewRequest` (request.go) after `http.NewRequest` has returned
`req`: request URI, remote address, header fields, content length, custom fields,
context values and trace id. -/
def finishRequest (ctx : Context) (e : APIGatewayProxyRequest) (u : URL) (body : GoString)
    (req : Request) : Request :=
  let header : Header := mergeValues e.Headers e.MultiValueHeaders
  -- manually set RequestURI because NewRequest is for clients and req.RequestURI is for servers
  let req := { req with RequestURI := u.RequestURI }
  -- remote addr
  let req := { req with RemoteAddr := e.RequestContext.Identity.SourceIP }
  -- header fields
  let req := { req with Header := header }
  -- content-length
  let req :=
    if req.Header.Get (str "Content-Length") = [] ∧ body ≠ [] then
      { req with Header := req.Header.Set (str "Content-Length") (Itoa body.length) }
    else req
  -- custom fields
  let req := { req with Header := req.Header.Set (str "X-Request-Id") e.RequestContext.RequestID }
  let req := { req with Header := req.Header.Set (str "X-Stage") e.RequestContext.Stage }
  -- custom context values
  let req := { req with ctx := newContext ctx e }
  -- xray support
  match ctx.traceID with
  | some traceID => { req with Header := req.Header.Set (str "X-Amzn-Trace-Id") traceID }
  | none => req

/-- Source `NewRequest` (request.go): a new `http.Request` from the given Lambda event.
The result is Go's pair `(*http.Request, error)`, `none` standing for `nil`. -/
def NewRequest (ctx : Context) (e : APIGatewayProxyRequest) : Option Request × Option GoError :=
  match requestURL ctx e with
  | .error err => (none, wraperr (some err) (str "parsing path"))
  | .ok u =>
    -- base64 encoded body
    match requestBody e with
    | .error err => (none, wraperr (some err) (str "decoding base64 body"))
    | .ok body =>
      -- new request
      match httpNewRequest e.HTTPMethod u.String body with
      | .error err => (none, wraperr (some err) (str "creating request"))
      | .ok req => (some (finishRequest ctx e u body req), none)

/-! ## The response recorder

`response.go` is not among the sources; its tests (`response_test.go`) are. The
recorder is modelled from the specification, section 4.2. -/

/-- `events.APIGatewayProxyResponse`. -/
structure APIGatewayProxyResponse where
  StatusCode : Nat := 0
  Headers : GoMap GoString := ∅
  MultiValueHeaders : GoMap (List GoString) := ∅
  Body : GoString := []
  IsBase64Encoded : Bool := false
  deriving DecidableEq

/-- `strings.TrimSpace` on ASCII white space, at the front. -/
def trimLeft : GoString → GoString
  | [] => []
  | c :: rest => if c = 32 ∨ (9 ≤ c ∧ c ≤ 13) then trimLeft rest else c :: rest

/-- `strings.TrimSpace` on ASCII white space. -/
def TrimSpace (s : GoString) : GoString := (trimLeft (trimLeft s).reverse).reverse

/-- Modelled from the spec: the MIME type of a `Content-Type` value "ignoring parameters
and case" (`isTextMime` of response.go is not among the sources): the text before the
first `;`, without surrounding white space, in lower case. -/
def mediaType (kind : GoString) : GoString := TrimSpace (ToLower (Cut kind 59).1)

/-- Modelled from the spec: `isTextMime` (response.go is not among the sources): the
MIME type "matches a known-text set: values starting with `text/`, or equal to
`application/json`, or equal to `application/xml`, or ending in `+xml`". -/
def isTextMime (kind : GoString) : Bool :=
  HasPrefix (mediaType kind) (str "text/") ∨ mediaType kind = str "application/json" ∨
    mediaType kind = str "application/xml" ∨ HasSuffix (mediaType kind) (str "+xml")

/-- Modelled from the spec: the response recorder "ResponseBuffer" (response.go is not
among the sources): the header multimap, the explicitly set status if any, whether the
first write has frozen the status, and the accumulated body bytes. -/
structure ResponseWriter where
  header : Header := ∅
  status : Option Nat := none
  wroteHeader : Bool := false
  buf : GoString := []
  deriving DecidableEq

/-- Modelled from the spec: `NewResponse` (response.go is not among the sources): a
fresh recorder. -/
def NewResponse : ResponseWriter := {}

/-- Modelled from the spec: `setStatus(code)`, Go's `WriteHeader` (response.go is not
among the sources): "sets status if not already implicitly finalized; calling after the
first write is a no-op". -/
def ResponseWriter.WriteHeader (w : ResponseWriter) (status : Nat) : ResponseWriter :=
  if w.wroteHeader then w else { w with status := some status }

/-- Modelled from the spec: `write(bytes)` (response.go is not among the sources):
"appends to the internal body accumulator; always succeeds"; the first write commits
the status. -/
def ResponseWriter.Write (w : ResponseWriter) (b : GoString) : ResponseWriter :=
  { w with wroteHeader := true, buf := w.buf ++ b }

/-- Modelled from the spec: the header multimap at finalization (response.go is not
among the sources): a default `Content-Type: text/plain; charset=utf8` is applied "only
if the handler never set one". -/
def ResponseWriter.finalHeader (w : ResponseWriter) : Header :=
  if w.header.get (str "Content-Type") = none then
    w.header.Set (str "Content-Type") (str "text/plain; charset=utf8")
  else w.header

/-- Modelled from the spec: the encoding decision (response.go is not among the
sources): the "body is treated as binary unless both (a) the `Content-Type` header's
MIME type matches the known-text set and (b) the `Content-Encoding` header is absent". -/
def isBinary (h : Header) : Bool :=
  ¬ (isTextMime (h.Get (str "Content-Type")) ∧ h.get (str "Content-Encoding") = none)

/-- Modelled from the spec: the single-value header map (response.go is not among the
sources): "one representative value per key — last value written for that key". -/
def singleValueHeaders (h : Header) : GoMap GoString :=
  h.foldl (fun m k vs =>
    match vs.getLast? with
    | some v => m.set k v
    | none => m) ∅

/-- Modelled from the spec: `finalize()`, Go's `End` (response.go is not among the
sources): status "explicitly set status, or 200 if never set", the body as text or in
base64 after the encoding decision, and both header maps. -/
def ResponseWriter.End (w : ResponseWriter) : APIGatewayProxyResponse :=
  { StatusCode := w.status.getD 200,
    Headers := singleValueHeaders w.finalHeader,
    MultiValueHeaders := w.finalHeader,
    Body := if isBinary w.finalHeader then EncodeToString w.buf else w.buf,
    IsBase64Encoded := isBinary w.finalHeader }

/-! ## gateway.go: ListenAndServe -/

/-- `http.Handler`. `ServeHTTP(w, r)` works on the recorder `w` it is handed and on the
state of the program around it, of type `σ`; both are passed through. The request is the
pointer it is in Go, `none` standing for `nil`. -/
structure Handler (σ : Type) where
  ServeHTTP : ResponseWriter → Option Request → σ → ResponseWriter × σ

/-- Source `ListenAndServe` (gateway.go): the function it hands to `lambda.Start`, which
the Lambda runtime calls with a context and an event for every invocation
(`ListenAndServe` itself never returns). `DefaultServeMux` stands for
`http.DefaultServeMux`, which replaces a `nil` handler, and `s` for the state of the
program when the function is called; the result is the returned pair and the state
afterwards. -/
def ListenAndServe.func {σ : Type} (DefaultServeMux : Handler σ) (host : GoString)
    (h : Option (Handler σ)) (ctx : Context) (e : APIGatewayProxyRequest) (s : σ) :
    (APIGatewayProxyResponse × Option GoError) × σ :=
  let h :=
    match h with
    | none => DefaultServeMux
    | some h => h
  let ctx := setHost ctx host
  match NewRequest ctx e with
  | (_, some err) => (({}, some err), s)
  | (r, none) =>
    let w := NewResponse
    match h.ServeHTTP w r s with
    | (w, s) => ((w.End, none), s)

/-! ## Events of the test suite (request_test.go) and further sample events -/

/-- The event of `TestNewRequest_header`. -/
def headerEvent : APIGatewayProxyRequest :=
  { HTTPMethod := str "POST",
    Path := str "/pets",
    Body := str "\x7b \"name\": \"Tobi\" \x7d",
    Headers := GoMap.ofList [(str "Content-Type", str "application/json"),
      (str "X-Foo", str "bar"), (str "Host", str "example.com")],
    RequestContext := { RequestID := str "1234", Stage := str "prod" } }

/-- The event of `TestNewRequest_host`: no `Host` header. -/
def hostEvent : APIGatewayProxyRequest :=
  { HTTPMethod := str "POST",
    Path := str "/pets",
    Body := str "\x7b \"name\": \"Tobi\" \x7d",
    Headers := GoMap.ofList [(str "Content-Type", str "application/json"),
      (str "X-Foo", str "bar")],
    RequestContext := { RequestID := str "1234", Stage := str "prod" } }

/-- The event of `TestNewRequest_bodyBinary`. -/
def bodyBinaryEvent : APIGatewayProxyRequest :=
  { HTTPMethod := str "POST", Path := str "/pets", Body := str "aGVsbG8gd29ybGQK",
    IsBase64Encoded := true }

/-- The event of `TestNewRequest_queryString`. -/
def queryStringEvent : APIGatewayProxyRequest :=
  { HTTPMethod := str "GET", Path := str "/pets",
    QueryStringParameters := GoMap.ofList [(str "order", str "desc"),
      (str "fields", str "name,species")] }

/-- The event of `TestNewRequest_multiValueQueryString`. -/
def multiValueQueryStringEvent : APIGatewayProxyRequest :=
  { HTTPMethod := str "GET", Path := str "/pets",
    MultiValueQueryStringParameters := GoMap.ofList [
      (str "multi_fields", [str "name", str "species"]),
      (str "multi_arr[]", [str "arr1", str "arr2"])],
    QueryStringParameters := GoMap.ofList [(str "order", str "desc"),
      (str "fields", str "name,species")] }

/-- The event of `TestNewRequest_path`. -/
def pathEvent : APIGatewayProxyRequest := { Path := str "/pets/luna" }

/-- An event that supplies a `Content-Length` header with an empty value next to a
body of five bytes. -/
def emptyLengthEvent : APIGatewayProxyRequest :=
  { HTTPMethod := str "POST", Path := str "/pets", Body := str "hello",
    Headers := GoMap.ofList [(str "Content-Length", str "")] }

/-- An event that supplies a `Content-Length` header of its own. -/
def suppliedLengthEvent : APIGatewayProxyRequest :=
  { HTTPMethod := str "POST", Path := str "/pets", Body := str "hello",
    Headers := GoMap.ofList [(str "Content-Length", str "42")] }

/-- An event whose header names are spelled in lower case, as HTTP/2 clients send
them. -/
def lowerCaseEvent : APIGatewayProxyRequest :=
  { HTTPMethod := str "GET", Path := str "/pets",
    Headers := GoMap.ofList [(str "x-foo", str "bar")] }

/-- An event whose path carries an authority of its own. -/
def authorityPathEvent : APIGatewayProxyRequest :=
  { HTTPMethod := str "GET", Path := str "//other.example/pets",
    Headers := GoMap.ofList [(str "Host", str "example.com")] }

/-- An event whose path ends in a bare `?`. -/
def forceQueryEvent : APIGatewayProxyRequest := { HTTPMethod := str "GET", Path := str "/pets?" }

/-- The recorder of `TestResponseWriter_Write_text` for `application/json`, before
`End`. -/
def textRecorder : ResponseWriter :=
  ResponseWriter.Write
    { header := Header.Set ∅ (str "Content-Type") (str "application/json") }
    (str "hello world\n")

/-- The recorder of `TestResponseWriter_Write_binary`, before `End`. -/
def binaryRecorder : ResponseWriter :=
  ResponseWriter.Write { header := Header.Set ∅ (str "Content-Type") (str "image/png") }
    (str "data")

/-- The recorder of `TestResponseWriter_Write_gzip`, before `End`. -/
def gzipRecorder : ResponseWriter :=
  ResponseWriter.Write
    { header :=
        Header.Set (Header.Set ∅ (str "Content-Type") (str "text/plain"))
          (str "Content-Encoding") (str "gzip") }
    (str "data")

/-- An event whose `Host` header ends in an empty port. -/
def emptyPortEvent : APIGatewayProxyRequest :=
  { HTTPMethod := str "GET", Path := str "/pets",
    Headers := GoMap.ofList [(str "Host", str "example.com:")] }

/-- An event whose `X-Forwarded-Proto` header is not a scheme name. -/
def protoEvent : APIGatewayProxyRequest :=
  { HTTPMethod := str "GET", Path := str "/pets",
    Headers := GoMap.ofList [(str "X-Forwarded-Proto", str "a?b")] }

/-- An event without host whose path resolves to a path that starts with `//`. -/
def dotPathEvent : APIGatewayProxyRequest := { HTTPMethod := str "GET", Path := str "/.//x" }

/-- An event whose own headers carry `X-Request-Id` and `X-Stage`, the latter with two
values in the multi-value map. -/
def ownIdEvent : APIGatewayProxyRequest :=
  { HTTPMethod := str "GET", Path := str "/pets",
    Headers := GoMap.ofList [(str "X-Request-Id", str "mine"), (str "X-Stage", str "dev")],
    MultiValueHeaders := GoMap.ofList [(str "X-Stage", [str "a", str "b"])],
    RequestContext := { RequestID := str "1234", Stage := str "prod" } }

/-- The event of `TestNewRequest_method`. -/
def methodEvent : APIGatewayProxyRequest :=
  { HTTPMethod := str "DELETE", Path := str "/pets/luna" }

/-- The event of `TestNewRequest_multiHeader`. -/
def multiHeaderEvent : APIGatewayProxyRequest :=
  { HTTPMethod := str "POST",
    Path := str "/pets",
    Body := str "\x7b \"name\": \"Tobi\" \x7d",
    MultiValueHeaders := GoMap.ofList [(str "X-APEX", [str "apex1", str "apex2"]),
      (str "X-APEX-2", [str "apex-1", str "apex-2"])],
    Headers := GoMap.ofList [(str "Content-Type", str "application/json"),
      (str "X-Foo", str "bar"), (str "Host", str "example.com")],
    RequestContext := { RequestID := str "1234", Stage := str "prod" } }

/-- An event whose path carries a query of its own, next to the query parameters of
`TestNewRequest_queryString`. -/
def pathQueryEvent : APIGatewayProxyRequest :=
  { HTTPMethod := str "GET", Path := str "/pets?x=1",
    QueryStringParameters := GoMap.ofList [(str "order", str "desc"),
      (str "fields", str "name,species")] }

/-- An event whose body is flagged as base64 and is not: `NewRequest` fails on it. -/
def badBodyEvent : APIGatewayProxyRequest :=
  { HTTPMethod := str "POST", Path := str "/pets", Body := str "!!!", IsBase64Encoded := true }

/-- A sample handler: it answers with the request target as `text/plain`, and counts its
calls in the state. -/
def echoHandler : Handler Nat :=
  { ServeHTTP := fun w r n =>
      (ResponseWriter.Write
        { w with header := w.header.Set (str "Content-Type") (str "text/plain") }
        (match r with
         | some r => r.RequestURI
         | none => []),
       n + 1) }

/-- The adapter with the sample handler on the event of `TestNewRequest_path`. -/
def echoPathRun : (APIGatewayProxyResponse × Option GoError) × Nat :=
  ListenAndServe.func echoHandler (str "example.com") (some echoHandler) {} pathEvent 0

/-- The adapter with a `nil` handler on the same event, the sample handler standing for
`http.DefaultServeMux`. -/
def echoNilRun : (APIGatewayProxyResponse × Option GoError) × Nat :=
  ListenAndServe.func echoHandler (str "example.com") none {} pathEvent 0

/-- The adapter with the sample handler on the event with the corrupt body. -/
def echoBadBodyRun : (APIGatewayProxyResponse × Option GoError) × Nat :=
  ListenAndServe.func echoHandler (str "example.com") (some echoHandler) {} badBodyEvent 0

/-- The recorder of `TestResponseWriter_Write_text` for `text/plain; charset=utf-8`,
with its header `Double-Header` set and then added to, before `End`. -/
def doubleHeaderRecorder : ResponseWriter :=
  ResponseWriter.Write
    { NewResponse with
      header :=
        Header.Add
          (Header.Set (Header.Set NewResponse.header (str "Content-Type")
            (str "text/plain; charset=utf-8")) (str "Double-Header") (str "1"))
          (str "double-header") (str "2") }
    (str "hello world\n")

/-- An event whose own header `x-request-id` is spelled in lower case. -/
def lowerIdEvent : APIGatewayProxyRequest :=
  { HTTPMethod := str "GET", Path := str "/pets",
    Headers := GoMap.ofList [(str "x-request-id", str "mine")],
    RequestContext := { RequestID := str "1234", Stage := str "prod" } }

/-- An event whose host header is spelled `host`, in lower case. -/
def lowerHostEvent : APIGatewayProxyRequest :=
  { HTTPMethod := str "GET", Path := str "/pets",
    Headers := GoMap.ofList [(str "host", str "example.com")] }

/-- An event with a `Host` header, the query parameter `order=desc` and an
`X-Forwarded-Proto` header that is not a scheme name. -/
def protoQueryEvent : APIGatewayProxyRequest :=
  { HTTPMethod := str "GET", Path := str "/pets",
    Headers := GoMap.ofList [(str "X-Forwarded-Proto", str "a?b"),
      (str "Host", str "example.com")],
    QueryStringParameters := GoMap.ofList [(str "order", str "desc")] }

/-! ## Notions used to state the properties -/

/-- The host as the specification words it: "host = header-supplied `Host` value if
present and non-empty; otherwise a process-configured fallback host". The header value
is the first one stored under `Host` in the merged header map. -/
def specHost (ctx : Context) (e : APIGatewayProxyRequest) : GoString :=
  match GoMap.get (mergeValues e.Headers e.MultiValueHeaders) (str "Host") with
  | some (v :: _) => if v = [] then getHost ctx else v
  | _ => getHost ctx

/-- The path+query form of a URL as the specification is read: the escaped path,
followed by `?` and the raw query when the query is not empty. -/
def specRequestURI (u : URL) : GoString :=
  u.EscapedPath ++ (if u.RawQuery ≠ [] then 63 :: u.RawQuery else [])

/-- A scheme name of RFC 3986: a letter, then letters, digits, `+`, `-` and `.`. -/
def isSchemeName (s : GoString) : Bool :=
  match s with
  | [] => false
  | c :: rest =>
    ((97 ≤ c ∧ c ≤ 122) ∨ (65 ≤ c ∧ c ≤ 90)) ∧
    rest.all fun c => (97 ≤ c ∧ c ≤ 122) ∨ (65 ≤ c ∧ c ≤ 90) ∨ (48 ≤ c ∧ c ≤ 57) ∨
      c = 43 ∨ c = 45 ∨ c = 46

/-- A byte string: every element is below 256. -/
def isBytes (s : GoString) : Prop := ∀ x ∈ s, x < 256

instance (s : GoString) : Decidable (isBytes s) := by
  unfold isBytes
  infer_instance

/-- A digit of the table `upperhex`. -/
def isUpperHexDigit (x : Nat) : Prop := (48 ≤ x ∧ x ≤ 57) ∨ (65 ≤ x ∧ x ≤ 70)

/-- The canonical encoding of a multi-value map as the specification words it: one
escaped `key=value` pair per value, keys in ascending order and, within a key, values in
their order, joined by `&`. -/
def specEncode (v : Values) : GoString :=
  [38].intercalate
    ((sortStrings v.keys).flatMap fun k =>
      ((v.get k).getD []).map fun val => QueryEscape k ++ [61] ++ QueryEscape val)

/-- The events whose built URL `u` is read back unchanged in path and query when
`http.NewRequest` parses its text: the event path, parsed as a URL reference, has no
scheme, no host, no user information and an escaped path that is empty or starts with
`/`; the `X-Forwarded-Proto` header is absent, empty or a scheme name; and the host is
non-empty, or `X-Forwarded-Proto` is non-empty, or the escaped path of `u` does not
start with `//`. -/
def plainEvent (ctx : Context) (e : APIGatewayProxyRequest) (u : URL) : Prop :=
  (∃ ref : URL, Gateway.Parse e.Path = .ok ref ∧ ref.Scheme = [] ∧ ref.Host = [] ∧
    ref.User = none ∧ (ref.EscapedPath = [] ∨ HasPrefix ref.EscapedPath [47] = true)) ∧
  (Header.Get (mergeValues e.Headers e.MultiValueHeaders) (str "X-Forwarded-Proto") = [] ∨
    isSchemeName (Header.Get (mergeValues e.Headers e.MultiValueHeaders)
      (str "X-Forwarded-Proto")) = true) ∧
  (specHost ctx e ≠ [] ∨
    Header.Get (mergeValues e.Headers e.MultiValueHeaders) (str "X-Forwarded-Proto") ≠ [] ∨
    HasPrefix u.EscapedPath (str "//") = false)

/-- A handler instrumented to record its calls: the state is extended by the list of the
arguments of the calls of `ServeHTTP` made so far, the latest last. -/
def Handler.logged {σ : Type} (h : Handler σ) :
    Handler (σ × List (ResponseWriter × Option Request)) :=
  { ServeHTTP := fun w r s =>
      ((h.ServeHTTP w r s.1).1, ((h.ServeHTTP w r s.1).2, s.2 ++ [(w, r)])) }

/-- A call a handler makes on the recorder to set the status or to write. -/
inductive Call where
  /-- `w.WriteHeader(status)`. -/
  | WriteHeader (status : Nat)
  /-- `w.Write(b)`. -/
  | Write (b : GoString)
  deriving DecidableEq

/-- Whether the call is a `WriteHeader`. -/
def Call.isWriteHeader : Call → Bool
  | .WriteHeader _ => true
  | .Write _ => false

/-- Whether the call is a `Write`. -/
def Call.isWrite : Call → Bool
  | .WriteHeader _ => false
  | .Write _ => true

/-- The bytes a call writes. -/
def Call.written : Call → GoString
  | .WriteHeader _ => []
  | .Write b => b

/-- The recorder after a call. -/
def ResponseWriter.call (w : ResponseWriter) : Call → ResponseWriter
  | .WriteHeader status => w.WriteHeader status
  | .Write b => w.Write b

/-- The recorder after a sequence of calls. -/
def ResponseWriter.calls (w : ResponseWriter) (cs : List Call) : ResponseWriter :=
  cs.foldl ResponseWriter.call w

/-! ## Properties of `mergeValues` -/

/-- Storing the image under `f` of every entry of a list with distinct keys: the stored
value under `k` is the image of the entry of `k`, or what was there before. -/
theorem lookup_foldl_insert {T U : Type} (f : T → U)
    (l : List (Sigma fun _ : GoString => T)) (hl : l.NodupKeys)
    (m : GoMap U) (k : GoString) :
    AList.lookup k (l.foldl (fun r a => GoMap.set r a.1 (f a.2)) m) =
      match List.dlookup k l with
      | some v => some (f v)
      | none => AList.lookup k m := by
  induction l generalizing m with
  | nil => simp
  | cons a l ih =>
    obtain ⟨a1, a2⟩ := a
    rw [List.nodupKeys_cons] at hl
    rw [List.foldl_cons, ih hl.2]
    by_cases hk : k = a1
    · subst hk
      have hnone : List.dlookup k l = none := by
        rw [List.dlookup_eq_none]; exact hl.1
      simp [hnone, GoMap.set, AList.lookup_insert]
    · rw [List.dlookup_cons_ne l (a := k) ⟨a1, a2⟩ hk]
      simp [GoMap.set, AList.lookup_insert_ne hk]

/-- The entry of `mergeValues single multi` under `k`. -/
theorem mergeValues_get (single : GoMap GoString) (multi : GoMap (List GoString))
    (k : GoString) :
    (mergeValues single multi).get k =
      match multi.get k with
      | some vs => some vs
      | none => (single.get k).map fun v => [v] := by
  unfold mergeValues GoMap.get AList.foldl
  have h1 := lookup_foldl_insert (fun vs : List GoString => vs) multi.entries multi.nodupKeys
  have h2 := lookup_foldl_insert (fun v : GoString => [v]) single.entries single.nodupKeys
  simp only [] at h1 h2 ⊢
  rw [h1, h2]
  simp only [AList.lookup, AList.empty_entries, List.dlookup_nil]
  cases List.dlookup k multi.entries <;> cases List.dlookup k single.entries <;> rfl

/-- C1. For all maps `H`, `M` and every key `k`: `mergeValues H M` has an entry for `k`
exactly when `H` or `M` has one; the entry is `M[k]` itself when `M` has the key (also
when `M[k]` is the empty list, and whatever `H` holds), and the one-element list
`[H[k]]` when only `H` has it. -/
theorem mergeValues_multi_trumps_single (H : GoMap GoString) (M : GoMap (List GoString))
    (k : GoString) :
    (((mergeValues H M).get k).isSome = ((H.get k).isSome || (M.get k).isSome)) ∧
    (mergeValues H M).get k =
      (match M.get k with
       | some vs => some vs
       | none =>
         match H.get k with
         | some v => some [v]
         | none => none) := by
  rw [mergeValues_get]
  cases M.get k <;> cases H.get k <;> simp

/-! ## How `NewRequest` succeeds and fails -/

/-- `NewRequest` unfolded: the first failing step gives the wrapped error and no request,
three successful steps give the finished request and no error. -/
theorem NewRequest_eq (ctx : Context) (e : APIGatewayProxyRequest) :
    NewRequest ctx e =
      match requestURL ctx e with
      | .error err => (none, some (.wrapped (str "parsing path") err))
      | .ok u =>
        match requestBody e with
        | .error err => (none, some (.wrapped (str "decoding base64 body") err))
        | .ok body =>
          match httpNewRequest e.HTTPMethod u.String body with
          | .error err => (none, some (.wrapped (str "creating request") err))
          | .ok req => (some (finishRequest ctx e u body req), none) := by
  unfold NewRequest wraperr
  rfl

/-- A call of `NewRequest` that returns no error went through its three steps. -/
theorem NewRequest_ok (ctx : Context) (e : APIGatewayProxyRequest)
    (h : (NewRequest ctx e).2 = none) :
    ∃ u body req, requestURL ctx e = .ok u ∧ requestBody e = .ok body ∧
      httpNewRequest e.HTTPMethod u.String body = .ok req ∧
      NewRequest ctx e = (some (finishRequest ctx e u body req), none) := by
  rw [NewRequest_eq] at h ⊢
  cases hu : requestURL ctx e with
  | error err => simp [hu] at h
  | ok u =>
    cases hb : requestBody e with
    | error err => simp [hu, hb] at h
    | ok body =>
      cases hr : httpNewRequest e.HTTPMethod u.String body with
      | error err => simp [hu, hb, hr] at h
      | ok req => exact ⟨u, body, req, rfl, rfl, hr, by simp [hr]⟩

/-! ## The header of the built request -/

theorem canonical_contentLength :
    CanonicalMIMEHeaderKey (str "Content-Length") = str "Content-Length" := by decide

theorem canonical_requestId :
    CanonicalMIMEHeaderKey (str "X-Request-Id") = str "X-Request-Id" := by decide

theorem canonical_stage : CanonicalMIMEHeaderKey (str "X-Stage") = str "X-Stage" := by decide

theorem canonical_traceId :
    CanonicalMIMEHeaderKey (str "X-Amzn-Trace-Id") = str "X-Amzn-Trace-Id" := by decide

/-- The entry `h[k]` after `h.Set(key, value)`. -/
theorem Header.get_Set (h : Header) (key value k : GoString) :
    GoMap.get (h.Set key value) k =
      if k = CanonicalMIMEHeaderKey key then some [value] else GoMap.get h k := by
  unfold Header.Set GoMap.get GoMap.set
  by_cases hk : k = CanonicalMIMEHeaderKey key
  · subst hk; simp [AList.lookup_insert]
  · simp [hk, AList.lookup_insert_ne hk]

/-- The header map of the built request, entry by entry: the merged header map of the
event, overwritten under `Content-Length` when that header reads as empty and the body
is not, under `X-Request-Id` and `X-Stage` always, and under `X-Amzn-Trace-Id` when
the context carries a trace id. -/
theorem finishRequest_header_get (ctx : Context) (e : APIGatewayProxyRequest) (u : URL)
    (body : GoString) (req : Request) (k : GoString) :
    GoMap.get (finishRequest ctx e u body req).Header k =
      if k = str "X-Amzn-Trace-Id" ∧ ctx.traceID ≠ none then ctx.traceID.map fun t => [t]
      else if k = str "X-Stage" then some [e.RequestContext.Stage]
      else if k = str "X-Request-Id" then some [e.RequestContext.RequestID]
      else if k = str "Content-Length" ∧
          Header.Get (mergeValues e.Headers e.MultiValueHeaders) (str "Content-Length") = [] ∧
          body ≠ [] then some [Itoa body.length]
      else GoMap.get (mergeValues e.Headers e.MultiValueHeaders) k := by
  unfold finishRequest
  cases ht : ctx.traceID with
  | none =>
    by_cases hc : Header.Get (mergeValues e.Headers e.MultiValueHeaders) (str "Content-Length") = [] ∧
        body ≠ []
    · simp [hc, Header.get_Set, canonical_contentLength, canonical_requestId, canonical_stage]
    · simp only [hc, Header.get_Set, canonical_contentLength, canonical_requestId,
        canonical_stage]
      simp
  | some t =>
    by_cases hc : Header.Get (mergeValues e.Headers e.MultiValueHeaders) (str "Content-Length") = [] ∧
        body ≠ []
    · simp [hc, Header.get_Set, canonical_contentLength, canonical_requestId, canonical_stage,
        canonical_traceId]
    · simp only [hc, Header.get_Set, canonical_contentLength, canonical_requestId,
        canonical_stage, canonical_traceId]
      simp

/-- `Header.Get` in terms of the stored entry. -/
theorem Header.Get_of_get (h : Header) (k : GoString) (vs : List GoString)
    (hk : GoMap.get h (CanonicalMIMEHeaderKey k) = some vs) : h.Get k = vs.headD [] := by
  unfold Header.Get
  rw [hk]
  cases vs <;> rfl

/-- `Header.Get` reads `""` for a key that is not stored. -/
theorem Header.Get_of_get_none (h : Header) (k : GoString)
    (hk : GoMap.get h (CanonicalMIMEHeaderKey k) = none) : h.Get k = [] := by
  unfold Header.Get
  rw [hk]

/-- C3. For every event on which `NewRequest` succeeds, that carries no `Content-Length`
header in either header map and whose decoded body `body` is not empty: the built
request stores under `Content-Length` exactly one value, the decimal representation of
the number of bytes of the decoded body, and `Header.Get` returns it. -/
theorem contentLength_from_body (ctx : Context) (e : APIGatewayProxyRequest) (body : GoString)
    (hok : (NewRequest ctx e).2 = none)
    (hH : e.Headers.get (str "Content-Length") = none)
    (hM : e.MultiValueHeaders.get (str "Content-Length") = none)
    (hbody : requestBody e = .ok body) (hne : body ≠ []) :
    ∃ r, NewRequest ctx e = (some r, none) ∧
      GoMap.get r.Header (str "Content-Length") = some [Itoa body.length] ∧
      r.Header.Get (str "Content-Length") = Itoa body.length := by
  obtain ⟨u, body2, req, _, hb, _, hr⟩ := NewRequest_ok ctx e hok
  rw [hbody] at hb
  cases hb
  have hmerged : GoMap.get (mergeValues e.Headers e.MultiValueHeaders) (str "Content-Length") =
      none := by
    rw [mergeValues_get, hM, hH]; rfl
  have hget : Header.Get (mergeValues e.Headers e.MultiValueHeaders) (str "Content-Length") =
      [] := by
    apply Header.Get_of_get_none
    rw [canonical_contentLength]; exact hmerged
  have hentry : GoMap.get (finishRequest ctx e u body req).Header (str "Content-Length") =
      some [Itoa body.length] := by
    rw [finishRequest_header_get]
    have h1 : str "Content-Length" ≠ str "X-Amzn-Trace-Id" := by decide
    have h2 : str "Content-Length" ≠ str "X-Stage" := by decide
    have h3 : str "Content-Length" ≠ str "X-Request-Id" := by decide
    simp [h1, h2, h3, hget, hne]
  refine ⟨_, hr, hentry, ?_⟩
  rw [Header.Get_of_get _ _ [Itoa body.length] (by rw [canonical_contentLength]; exact hentry)]
  rfl

/-- Witness of C3: the event of `TestNewRequest_header`, whose body of 18 bytes gives
`Content-Length: 18`. -/
theorem contentLength_from_body_witness :
    (NewRequest (setHost {} (str "xxx")) headerEvent).2 = none ∧
    headerEvent.Headers.get (str "Content-Length") = none ∧
    headerEvent.MultiValueHeaders.get (str "Content-Length") = none ∧
    requestBody headerEvent = .ok (str "\x7b \"name\": \"Tobi\" \x7d") ∧
    Itoa (str "\x7b \"name\": \"Tobi\" \x7d").length = str "18" ∧
    ∃ r, NewRequest (setHost {} (str "xxx")) headerEvent = (some r, none) ∧
      GoMap.get r.Header (str "Content-Length") =
        some [Itoa (str "\x7b \"name\": \"Tobi\" \x7d").length] ∧
      r.Header.Get (str "Content-Length") = Itoa (str "\x7b \"name\": \"Tobi\" \x7d").length :=
  ⟨by decide!, by decide!, by decide!, by decide!, by decide!,
    contentLength_from_body (setHost {} (str "xxx")) headerEvent
      (str "\x7b \"name\": \"Tobi\" \x7d") (by decide!) (by decide!) (by decide!) (by decide!)
      (by decide!)⟩

/-- Counterexample to C10 as stated: the event supplies `Content-Length` with the empty
value next to a body of five bytes, `NewRequest` succeeds, and the built request carries
`Content-Length: 5`, not what the event supplied. -/
theorem contentLength_supplied_counterexample :
    emptyLengthEvent.Headers.get (str "Content-Length") = some [] ∧
    GoMap.get (mergeValues emptyLengthEvent.Headers emptyLengthEvent.MultiValueHeaders)
      (str "Content-Length") = some [[]] ∧
    (NewRequest {} emptyLengthEvent).2 = none ∧
    (NewRequest {} emptyLengthEvent).1.map
      (fun r => GoMap.get r.Header (str "Content-Length")) = some (some [str "5"]) := by
  decide!

/-- C10, amended. For every event on which `NewRequest` succeeds, with decoded body
`body`: if the `Content-Length` header of the event reads as non-empty (its first value
in the merged header map is not the empty string), or if the decoded body is empty, the
built request stores under `Content-Length` exactly the merged entry of the event; in
particular it stores nothing there when the event supplies no `Content-Length` and the
body is empty. -/
theorem contentLength_kept (ctx : Context) (e : APIGatewayProxyRequest) (body : GoString)
    (hok : (NewRequest ctx e).2 = none) (hbody : requestBody e = .ok body)
    (h : Header.Get (mergeValues e.Headers e.MultiValueHeaders) (str "Content-Length") ≠ [] ∨
      body = []) :
    ∃ r, NewRequest ctx e = (some r, none) ∧
      GoMap.get r.Header (str "Content-Length") =
        GoMap.get (mergeValues e.Headers e.MultiValueHeaders) (str "Content-Length") ∧
      (e.Headers.get (str "Content-Length") = none →
        e.MultiValueHeaders.get (str "Content-Length") = none →
        GoMap.get r.Header (str "Content-Length") = none) := by
  obtain ⟨u, body2, req, _, hb, _, hr⟩ := NewRequest_ok ctx e hok
  rw [hbody] at hb
  cases hb
  have hentry : GoMap.get (finishRequest ctx e u body req).Header (str "Content-Length") =
      GoMap.get (mergeValues e.Headers e.MultiValueHeaders) (str "Content-Length") := by
    rw [finishRequest_header_get]
    have h1 : str "Content-Length" ≠ str "X-Amzn-Trace-Id" := by decide
    have h2 : str "Content-Length" ≠ str "X-Stage" := by decide
    have h3 : str "Content-Length" ≠ str "X-Request-Id" := by decide
    rcases h with h | h
    · simp [h1, h2, h3, h]
    · simp [h1, h2, h3, h]
  refine ⟨_, hr, hentry, ?_⟩
  intro hH hM
  rw [hentry, mergeValues_get, hM, hH]
  rfl

/-- Witness of C10, amended: an event that supplies `Content-Length: 42` keeps it. -/
theorem contentLength_kept_witness :
    (NewRequest {} suppliedLengthEvent).2 = none ∧
    requestBody suppliedLengthEvent = .ok (str "hello") ∧
    (Header.Get (mergeValues suppliedLengthEvent.Headers suppliedLengthEvent.MultiValueHeaders)
        (str "Content-Length") ≠ [] ∨ str "hello" = []) ∧
    GoMap.get (mergeValues suppliedLengthEvent.Headers suppliedLengthEvent.MultiValueHeaders)
      (str "Content-Length") = some [str "42"] ∧
    ∃ r, NewRequest {} suppliedLengthEvent = (some r, none) ∧
      GoMap.get r.Header (str "Content-Length") =
        GoMap.get (mergeValues suppliedLengthEvent.Headers
          suppliedLengthEvent.MultiValueHeaders) (str "Content-Length") ∧
      (suppliedLengthEvent.Headers.get (str "Content-Length") = none →
        suppliedLengthEvent.MultiValueHeaders.get (str "Content-Length") = none →
        GoMap.get r.Header (str "Content-Length") = none) :=
  ⟨by decide!, by decide!, by decide!, by decide!,
    contentLength_kept {} suppliedLengthEvent (str "hello") (by decide!) (by decide!)
      (by decide!)⟩

/-- The rewriting loop of the canonical form does not depend on the letter case of its
input. -/
theorem canonicalLoop_ToLower (upper : Bool) (s : GoString) :
    canonicalLoop upper (ToLower s) = canonicalLoop upper s := by
  induction s generalizing upper with
  | nil => rfl
  | cons c s ih =>
    simp only [ToLower, List.map_cons] at ih ⊢
    unfold canonicalLoop
    by_cases hc : 65 ≤ c ∧ c ≤ 90
    · have h1 : toLowerByte c = c + 32 := by simp [toLowerByte, hc]
      rw [h1]
      cases upper
      · have h2 : ¬ (65 ≤ c + 32 ∧ c + 32 ≤ 90) := by omega
        simp [hc, h2, ih]
        omega
      · have h3 : 97 ≤ c + 32 ∧ c + 32 ≤ 122 := by omega
        have h4 : ¬ (97 ≤ c ∧ c ≤ 122) := by omega
        simp [h3, h4, ih]
    · have h1 : toLowerByte c = c := by simp [toLowerByte, hc]
      rw [h1]
      split
      · rw [ih]
      · split
        · rw [ih]
        · rw [ih]

/-- Being a header field byte does not depend on the letter case. -/
theorem isTokenByte_toLowerByte (c : Nat) : isTokenByte (toLowerByte c) = isTokenByte c := by
  unfold toLowerByte
  split
  · rename_i h
    have h1 : isTokenByte c = true := by simp [isTokenByte]; omega
    have h2 : isTokenByte (c + 32) = true := by simp [isTokenByte]; omega
    rw [h1, h2]
  · rfl

/-- Two spellings of a header name made of header field bytes that differ only in
letter case have the same canonical form. -/
theorem CanonicalMIMEHeaderKey_eq_of_ToLower_eq (s t : GoString)
    (hs : s.all isTokenByte = true) (h : ToLower s = ToLower t) :
    CanonicalMIMEHeaderKey s = CanonicalMIMEHeaderKey t := by
  have hall : ∀ u : GoString, (ToLower u).all isTokenByte = u.all isTokenByte := by
    intro u
    induction u with
    | nil => rfl
    | cons c u ih =>
      simp only [ToLower, List.map_cons, List.all_cons] at ih ⊢
      rw [ih, isTokenByte_toLowerByte]
  have ht : t.all isTokenByte = true := by rw [← hall t, ← h, hall s, hs]
  unfold CanonicalMIMEHeaderKey
  rw [hs, ht]
  simp only [if_true]
  rw [← canonicalLoop_ToLower true s, ← canonicalLoop_ToLower true t, h]

/-- Counterexample to C9 as stated: the event spells a header `x-foo`; the merged header
map holds `bar` under that name, `NewRequest` succeeds, and `Header.Get` on the built
request returns the empty string for `x-foo` as for `X-Foo`. -/
theorem header_get_counterexample :
    GoMap.get (mergeValues lowerCaseEvent.Headers lowerCaseEvent.MultiValueHeaders)
      (str "x-foo") = some [str "bar"] ∧
    (NewRequest {} lowerCaseEvent).2 = none ∧
    (NewRequest {} lowerCaseEvent).1.map (fun r => r.Header.Get (str "x-foo")) = some [] ∧
    (NewRequest {} lowerCaseEvent).1.map (fun r => r.Header.Get (str "X-Foo")) = some [] := by
  decide!

/-- C9, amended. For every event on which `NewRequest` succeeds, every name `k` stored
in the merged header map with the values `vs`, other than the four names the builder
sets, and every spelling `k'` whose canonical form is `k`: `Header.Get(k')` on the built
request returns the first value of `vs` (the empty string when `vs` is empty). The
lookup ignores the letter case of the name asked for, not of the name the event
stored. -/
theorem header_get_canonical (ctx : Context) (e : APIGatewayProxyRequest)
    (k k' : GoString) (vs : List GoString)
    (hok : (NewRequest ctx e).2 = none)
    (hk : GoMap.get (mergeValues e.Headers e.MultiValueHeaders) k = some vs)
    (hk' : CanonicalMIMEHeaderKey k' = k)
    (h1 : k ≠ str "Content-Length") (h2 : k ≠ str "X-Request-Id")
    (h3 : k ≠ str "X-Stage") (h4 : k ≠ str "X-Amzn-Trace-Id") :
    ∃ r, NewRequest ctx e = (some r, none) ∧ r.Header.Get k' = vs.headD [] := by
  obtain ⟨u, body, req, _, _, _, hr⟩ := NewRequest_ok ctx e hok
  refine ⟨_, hr, ?_⟩
  apply Header.Get_of_get
  rw [hk', finishRequest_header_get]
  simp [h1, h2, h3, h4, hk]

/-- Witness of C9, amended: the event of `TestNewRequest_header`, asked for `x-foo`. -/
theorem header_get_canonical_witness :
    (NewRequest (setHost {} (str "xxx")) headerEvent).2 = none ∧
    GoMap.get (mergeValues headerEvent.Headers headerEvent.MultiValueHeaders) (str "X-Foo") =
      some [str "bar"] ∧
    CanonicalMIMEHeaderKey (str "x-foo") = str "X-Foo" ∧
    ∃ r, NewRequest (setHost {} (str "xxx")) headerEvent = (some r, none) ∧
      r.Header.Get (str "x-foo") = [str "bar"].headD [] :=
  ⟨by decide!, by decide!, by decide!,
    header_get_canonical (setHost {} (str "xxx")) headerEvent (str "X-Foo") (str "x-foo")
      [str "bar"] (by decide!) (by decide!) (by decide!) (by decide!) (by decide!)
      (by decide!) (by decide!)⟩

/-! ## Errors of `NewRequest` -/

/-- `http.NewRequest` fails or succeeds whatever the body. -/
theorem httpNewRequest_error_body (method url body body2 : GoString) :
    (∃ err, httpNewRequest method url body = .error err) ↔
      (∃ err, httpNewRequest method url body2 = .error err) := by
  unfold httpNewRequest
  simp only []
  generalize (if method = [] then str "GET" else method) = m
  by_cases hv : validMethod m = true <;> cases Gateway.Parse url <;> simp [hv]

/-- C5. `NewRequest` returns an error exactly when resolving the path, decoding a body
flagged as base64, or creating the request fails; it then returns no request, and the
error is the one of the first failing step, wrapped: `errors.Unwrap` gives the
underlying error and the message is "parsing path", "decoding base64 body" or
"creating request", then ": ", then the underlying message. An event whose
`IsBase64Encoded` is unset fails or succeeds whatever its body. -/
theorem NewRequest_error_steps (quote : GoString → GoString) (ctx : Context)
    (e : APIGatewayProxyRequest) :
    ((NewRequest ctx e).2 ≠ none ↔
      ((∃ err, requestURL ctx e = .error err) ∨
        (e.IsBase64Encoded = true ∧ ∃ err, DecodeString e.Body = .error err) ∨
        (∃ u body err, requestURL ctx e = .ok u ∧ requestBody e = .ok body ∧
          httpNewRequest e.HTTPMethod u.String body = .error err))) ∧
    ((NewRequest ctx e).2 ≠ none → (NewRequest ctx e).1 = none) ∧
    ((NewRequest ctx e).2 = none → (NewRequest ctx e).1 ≠ none) ∧
    (∀ err, requestURL ctx e = .error err →
      NewRequest ctx e = (none, some (.wrapped (str "parsing path") err))) ∧
    (∀ u err, requestURL ctx e = .ok u → requestBody e = .error err →
      NewRequest ctx e = (none, some (.wrapped (str "decoding base64 body") err))) ∧
    (∀ u body err, requestURL ctx e = .ok u → requestBody e = .ok body →
      httpNewRequest e.HTTPMethod u.String body = .error err →
      NewRequest ctx e = (none, some (.wrapped (str "creating request") err))) ∧
    (∀ msg err, (GoError.wrapped msg err).Error quote = msg ++ str ": " ++ err.Error quote ∧
      (GoError.wrapped msg err).Unwrap = some err) ∧
    (e.IsBase64Encoded = false → ∀ b,
      ((NewRequest ctx { e with Body := b }).2 = none ↔ (NewRequest ctx e).2 = none)) := by
  refine ⟨?_, ?_, ?_, ?_, ?_, ?_, ?_, ?_⟩
  · rw [NewRequest_eq]
    cases hu : requestURL ctx e with
    | error err => simp
    | ok u =>
      cases hb : requestBody e with
      | error err =>
        have hflag : e.IsBase64Encoded = true ∧ DecodeString e.Body = .error err := by
          unfold requestBody at hb
          by_cases hf : e.IsBase64Encoded = true
          · rw [if_pos hf] at hb; exact ⟨hf, hb⟩
          · rw [if_neg hf] at hb; cases hb
        simp [hflag.1, hflag.2]
      | ok body =>
        have hflag : ¬ (e.IsBase64Encoded = true ∧ ∃ err, DecodeString e.Body = .error err) := by
          rintro ⟨hf, err, hd⟩
          unfold requestBody at hb
          rw [if_pos hf, hd] at hb
          cases hb
        cases hr : httpNewRequest e.HTTPMethod u.String body with
        | error err => simp [hr]
        | ok req => simp [hr, hflag]
  · rw [NewRequest_eq]
    cases requestURL ctx e with
    | error err => simp
    | ok u =>
      cases requestBody e with
      | error err => simp
      | ok body => cases hr : httpNewRequest e.HTTPMethod u.String body <;> simp [hr]
  · rw [NewRequest_eq]
    cases requestURL ctx e with
    | error err => simp
    | ok u =>
      cases requestBody e with
      | error err => simp
      | ok body => cases hr : httpNewRequest e.HTTPMethod u.String body <;> simp [hr]
  · intro err h
    rw [NewRequest_eq, h]
  · intro u err h1 h2
    rw [NewRequest_eq, h1, h2]
  · intro u body err h1 h2 h3
    rw [NewRequest_eq, h1, h2]
    simp only [h3]
  · intro msg err
    exact ⟨rfl, rfl⟩
  · intro hf b
    have hurl : requestURL ctx { e with Body := b } = requestURL ctx e := rfl
    have hb1 : requestBody { e with Body := b } = .ok b := by
      unfold requestBody; simp [hf]
    have hb2 : requestBody e = .ok e.Body := by
      unfold requestBody; simp [hf]
    rw [NewRequest_eq, NewRequest_eq, hurl, hb1, hb2]
    cases requestURL ctx e with
    | error err => simp
    | ok u =>
      have hx := httpNewRequest_error_body e.HTTPMethod u.String b e.Body
      cases h1 : httpNewRequest e.HTTPMethod u.String b with
      | error err1 =>
        obtain ⟨err2, h2⟩ := hx.mp ⟨err1, h1⟩
        simp [h1, h2]
      | ok r1 =>
        cases h2 : httpNewRequest e.HTTPMethod u.String e.Body with
        | error err2 =>
          obtain ⟨err1, h3⟩ := hx.mpr ⟨err2, h2⟩
          rw [h1] at h3; cases h3
        | ok r2 => simp [h1, h2]

/-! ## base64: decoding what was encoded -/

/-- A bitwise or of a multiple of `2^i` and a number below `2^i` is their sum. -/
theorem lor_eq_add (x y i : Nat) (hx : x % 2 ^ i = 0) (hy : y < 2 ^ i) : x ||| y = x + y := by
  have h := Nat.mul_add_lt_is_or hy (x / 2 ^ i)
  have hx2 : 2 ^ i * (x / 2 ^ i) = x := by
    have := Nat.div_add_mod x (2 ^ i)
    omega
  rw [hx2] at h
  exact h.symm

/-- The six low bits of a number. -/
theorem and_63 (x : Nat) : x &&& 63 = x % 64 := Nat.and_pow_two_sub_one_eq_mod x 6

/-- The alphabet and the decoding table are inverse to each other. -/
theorem decodeMap_encodeStd (x : Nat) (hx : x < 64) : decodeMap (encodeStd x) = x := by
  unfold decodeMap encodeStd
  split_ifs <;> omega

/-- A byte of the alphabet is not rejected by the decoding table. -/
theorem decodeMap_encodeStd_ne (x : Nat) (hx : x < 64) : decodeMap (encodeStd x) ≠ 255 := by
  rw [decodeMap_encodeStd x hx]; omega

/-- The decoder reads a byte of the alphabet into the quantum, when the quantum holds
fewer than three digits. -/
theorem decodeLoop_digit (n c : Nat) (rest : GoString) (si : Nat) (dbuf : List Nat)
    (hc : decodeMap c ≠ 255) (hd : dbuf.length < 3) :
    decodeLoop n (c :: rest) si dbuf = decodeLoop n rest (si + 1) (dbuf ++ [decodeMap c]) := by
  match dbuf, hd with
  | [], _ => simp [decodeLoop, hc]
  | [_], _ => simp [decodeLoop, hc]
  | [_, _], _ => simp [decodeLoop, hc]
  | _ :: _ :: _ :: _, hd => simp at hd; omega

/-- The decoder completes a quantum with its fourth digit. -/
theorem decodeLoop_fourth (n c : Nat) (rest : GoString) (si d0 d1 d2 : Nat)
    (hc : decodeMap c ≠ 255) :
    decodeLoop n (c :: rest) si [d0, d1, d2] =
      match decodeLoop n rest (si + 1) [] with
      | .error e => .error e
      | .ok t => .ok (quantumBytes [d0, d1, d2, decodeMap c] ++ t) := by
  rw [decodeLoop]
  simp only [hc, ne_eq, not_false_eq_true, if_true]

/-- The 24-bit value of three bytes. -/
theorem pack_bytes (a b c : Nat) (hb : b < 256) (hc : c < 256) :
    a <<< 16 ||| b <<< 8 ||| c = a * 65536 + b * 256 + c := by
  rw [Nat.shiftLeft_eq, Nat.shiftLeft_eq]
  rw [lor_eq_add (a * 2 ^ 16) (b * 2 ^ 8) 16 (by omega) (by omega)]
  rw [lor_eq_add (a * 2 ^ 16 + b * 2 ^ 8) c 8 (by omega) (by omega)]

/-- The 24-bit value of four 6-bit digits. -/
theorem pack_digits (x0 x1 x2 x3 : Nat) (h1 : x1 < 64) (h2 : x2 < 64) (h3 : x3 < 64) :
    x0 <<< 18 ||| x1 <<< 12 ||| x2 <<< 6 ||| x3 = x0 * 262144 + x1 * 4096 + x2 * 64 + x3 := by
  rw [Nat.shiftLeft_eq, Nat.shiftLeft_eq, Nat.shiftLeft_eq]
  rw [lor_eq_add (x0 * 2 ^ 18) (x1 * 2 ^ 12) 18 (by omega) (by omega)]
  rw [lor_eq_add (x0 * 2 ^ 18 + x1 * 2 ^ 12) (x2 * 2 ^ 6) 12 (by omega) (by omega)]
  rw [lor_eq_add (x0 * 2 ^ 18 + x1 * 2 ^ 12 + x2 * 2 ^ 6) x3 6 (by omega) (by omega)]

/-- The bytes a quantum of digits decodes to, in arithmetic form. -/
theorem quantumBytes_eq (x0 x1 x2 x3 : Nat) (h1 : x1 < 64) (h2 : x2 < 64) (h3 : x3 < 64)
    (l : List Nat) (hl : l = [x0, x1, x2, x3] ∨ (l = [x0, x1, x2] ∧ x3 = 0) ∨
      (l = [x0, x1] ∧ x2 = 0 ∧ x3 = 0)) :
    quantumBytes l =
      [(x0 * 262144 + x1 * 4096 + x2 * 64 + x3) / 65536 % 256,
        (x0 * 262144 + x1 * 4096 + x2 * 64 + x3) / 256 % 256,
        (x0 * 262144 + x1 * 4096 + x2 * 64 + x3) % 256].take (l.length - 1) := by
  have hp := pack_digits x0 x1 x2 x3 h1 h2 h3
  unfold quantumBytes
  rcases hl with hl | ⟨hl, h⟩ | ⟨hl, h, h'⟩
  · subst hl
    simp only [List.getD_cons_zero, List.getD_cons_succ, hp, Nat.shiftRight_eq_div_pow]
  · subst hl; subst h
    simp only [List.getD_cons_zero, List.getD_cons_succ, List.getD_nil, hp,
      Nat.shiftRight_eq_div_pow]
  · subst hl; subst h; subst h'
    simp only [List.getD_cons_zero, List.getD_cons_succ, List.getD_nil, hp,
      Nat.shiftRight_eq_div_pow]

/-- Four digits made from three bytes give the three bytes back. -/
theorem quantumBytes_full (a b c : Nat) (ha : a < 256) (hb : b < 256) (hc : c < 256) :
    quantumBytes [(a <<< 16 ||| b <<< 8 ||| c) >>> 18 &&& 63,
      (a <<< 16 ||| b <<< 8 ||| c) >>> 12 &&& 63,
      (a <<< 16 ||| b <<< 8 ||| c) >>> 6 &&& 63,
      (a <<< 16 ||| b <<< 8 ||| c) &&& 63] = [a, b, c] := by
  rw [pack_bytes a b c hb hc]
  simp only [and_63, Nat.shiftRight_eq_div_pow]
  rw [quantumBytes_eq _ _ _ _ (Nat.mod_lt _ (by omega)) (Nat.mod_lt _ (by omega))
    (Nat.mod_lt _ (by omega)) _ (Or.inl rfl)]
  simp only [List.length_cons, List.length_nil]
  norm_num
  refine ⟨?_, ?_, ?_⟩ <;> omega

/-- The decoder accepts `==` after two digits. -/
theorem decodeLoop_pad2 (n si x0 x1 : Nat) :
    decodeLoop n [61, 61] si [x0, x1] = .ok (quantumBytes [x0, x1]) := by
  have h : skipNewlines [] = ([], 0) := rfl
  simp [decodeLoop, decodeMap, decodePadding, skipNewlines, h]

/-- The decoder accepts `=` after three digits. -/
theorem decodeLoop_pad1 (n si x0 x1 x2 : Nat) :
    decodeLoop n [61] si [x0, x1, x2] = .ok (quantumBytes [x0, x1, x2]) := by
  have h : skipNewlines [] = ([], 0) := rfl
  simp [decodeLoop, decodeMap, decodePadding, h]

/-- `DecodeString` undoes `EncodeToString`, at any offset of the input. -/
theorem decodeLoop_EncodeToString (b : GoString) (hb : ∀ x ∈ b, x < 256) (n si : Nat) :
    decodeLoop n (EncodeToString b) si [] = .ok b := by
  induction b using EncodeToString.induct generalizing si with
  | case1 => simp [EncodeToString, decodeLoop]
  | case2 a =>
    have ha : a < 256 := hb a (by simp)
    simp only [EncodeToString, and_63, Nat.shiftRight_eq_div_pow, Nat.shiftLeft_eq]
    rw [decodeLoop_digit _ _ _ _ _ (decodeMap_encodeStd_ne _ (Nat.mod_lt _ (by omega)))
      (by simp)]
    rw [decodeLoop_digit _ _ _ _ _ (decodeMap_encodeStd_ne _ (Nat.mod_lt _ (by omega)))
      (by simp)]
    rw [decodeMap_encodeStd _ (Nat.mod_lt _ (by omega)),
      decodeMap_encodeStd _ (Nat.mod_lt _ (by omega))]
    simp only [List.nil_append, List.cons_append, decodeLoop_pad2]
    rw [quantumBytes_eq _ _ 0 0 (Nat.mod_lt _ (by omega)) (by omega) (by omega) _
      (Or.inr (Or.inr ⟨rfl, rfl, rfl⟩))]
    simp only [List.length_cons, List.length_nil]
    norm_num
    omega
  | case3 a b =>
    have ha : a < 256 := hb a (by simp)
    have hb2 : b < 256 := hb b (by simp)
    simp only [EncodeToString, and_63, Nat.shiftRight_eq_div_pow]
    rw [Nat.shiftLeft_eq, Nat.shiftLeft_eq,
      lor_eq_add (a * 2 ^ 16) (b * 2 ^ 8) 16 (by omega) (by omega)]
    rw [decodeLoop_digit _ _ _ _ _ (decodeMap_encodeStd_ne _ (Nat.mod_lt _ (by omega)))
      (by simp)]
    rw [decodeLoop_digit _ _ _ _ _ (decodeMap_encodeStd_ne _ (Nat.mod_lt _ (by omega)))
      (by simp)]
    rw [decodeLoop_digit _ _ _ _ _ (decodeMap_encodeStd_ne _ (Nat.mod_lt _ (by omega)))
      (by simp)]
    rw [decodeMap_encodeStd _ (Nat.mod_lt _ (by omega)),
      decodeMap_encodeStd _ (Nat.mod_lt _ (by omega)),
      decodeMap_encodeStd _ (Nat.mod_lt _ (by omega))]
    simp only [List.nil_append, List.cons_append, decodeLoop_pad1]
    rw [quantumBytes_eq _ _ _ 0 (Nat.mod_lt _ (by omega)) (Nat.mod_lt _ (by omega)) (by omega) _
      (Or.inr (Or.inl ⟨rfl, rfl⟩))]
    simp only [List.length_cons, List.length_nil]
    norm_num
    constructor <;> omega
  | case4 a b c rest ih =>
    have ha : a < 256 := hb a (by simp)
    have hb2 : b < 256 := hb b (by simp)
    have hc : c < 256 := hb c (by simp)
    have hrest : ∀ x ∈ rest, x < 256 := fun x hx => hb x (by simp [hx])
    simp only [EncodeToString]
    have h63 : ∀ x : Nat, x &&& 63 < 64 := fun x => by rw [and_63]; omega
    rw [decodeLoop_digit _ _ _ _ _ (decodeMap_encodeStd_ne _ (h63 _)) (by simp)]
    rw [decodeLoop_digit _ _ _ _ _ (decodeMap_encodeStd_ne _ (h63 _)) (by simp)]
    rw [decodeLoop_digit _ _ _ _ _ (decodeMap_encodeStd_ne _ (h63 _)) (by simp)]
    simp only [List.nil_append, List.cons_append]
    rw [decodeLoop_fourth _ _ _ _ _ _ _ (decodeMap_encodeStd_ne _ (h63 _))]
    rw [ih hrest]
    simp only [decodeMap_encodeStd _ (h63 _)]
    rw [quantumBytes_full a b c ha hb2 hc]
    rfl

/-- Decoding the standard base64 encoding of a byte string gives the byte string. -/
theorem DecodeString_EncodeToString (b : GoString) (hb : ∀ x ∈ b, x < 256) :
    DecodeString (EncodeToString b) = .ok b :=
  decodeLoop_EncodeToString b hb _ 0
/-! ## The fields of the built request other than the header -/

/-- The statements after `http.NewRequest` leave method, URL, body and host as they
are, and set `RequestURI` and `RemoteAddr`. -/
theorem finishRequest_fields (ctx : Context) (e : APIGatewayProxyRequest) (u : URL)
    (body : GoString) (req : Request) :
    (finishRequest ctx e u body req).Body = req.Body ∧
    (finishRequest ctx e u body req).Host = req.Host ∧
    (finishRequest ctx e u body req).Method = req.Method ∧
    (finishRequest ctx e u body req).URL = req.URL ∧
    (finishRequest ctx e u body req).RequestURI = u.RequestURI ∧
    (finishRequest ctx e u body req).RemoteAddr = e.RequestContext.Identity.SourceIP := by
  unfold finishRequest
  cases ctx.traceID <;> simp only [] <;> split <;> simp

/-- What `http.NewRequest` returns when it succeeds. -/
theorem httpNewRequest_ok (method url body : GoString) (req : Request)
    (h : httpNewRequest method url body = .ok req) :
    ∃ u, Gateway.Parse url = .ok u ∧
      validMethod (if method = [] then str "GET" else method) = true ∧
      req.Method = (if method = [] then str "GET" else method) ∧
      req.URL = { u with Host := removeEmptyPort u.Host } ∧
      req.Host = removeEmptyPort u.Host ∧ req.Body = body := by
  unfold httpNewRequest at h
  simp only [] at h
  by_cases hv : validMethod (if method = [] then str "GET" else method) = true
  · cases hp : Gateway.Parse url with
    | error err => simp [hv, hp] at h
    | ok u =>
      simp [hv, hp] at h
      subst h
      exact ⟨u, rfl, hv, rfl, rfl, rfl, rfl⟩
  · simp [hv] at h

/-- `http.NewRequest` succeeds whatever the body, when it succeeds for one body. -/
theorem httpNewRequest_ok_body (method url body body2 : GoString) (req : Request)
    (h : httpNewRequest method url body = .ok req) :
    ∃ req2, httpNewRequest method url body2 = .ok req2 := by
  cases h2 : httpNewRequest method url body2 with
  | ok req2 => exact ⟨req2, rfl⟩
  | error err =>
    obtain ⟨err1, h1⟩ := (httpNewRequest_error_body method url body2 body).mp ⟨err, h2⟩
    rw [h] at h1; cases h1

/-- C4. Body round trip. For every byte string `b` and every event that is valid apart
from its body (`NewRequest` succeeds on it with an empty, unencoded body): with
`IsBase64Encoded` set and `Body` the standard base64 encoding of `b`, `NewRequest`
succeeds and the body stream of the request reads exactly `b`; with `IsBase64Encoded`
unset and `Body` equal to `b` (the empty string included), `NewRequest` succeeds and the
body stream reads exactly `b`. -/
theorem body_round_trip (ctx : Context) (e : APIGatewayProxyRequest) (b : GoString)
    (hb : ∀ x ∈ b, x < 256)
    (hvalid : (NewRequest ctx { e with Body := [], IsBase64Encoded := false }).2 = none) :
    (∃ r, NewRequest ctx { e with Body := EncodeToString b, IsBase64Encoded := true } =
        (some r, none) ∧ r.Body = b) ∧
    (∃ r, NewRequest ctx { e with Body := b, IsBase64Encoded := false } = (some r, none) ∧
        r.Body = b) := by
  obtain ⟨u, body0, req0, hu, _, hr0, _⟩ := NewRequest_ok ctx _ hvalid
  obtain ⟨req, hr⟩ := httpNewRequest_ok_body _ _ _ b _ hr0
  obtain ⟨_, _, _, _, _, _, hbody⟩ := httpNewRequest_ok _ _ _ _ hr
  have hfin : ∀ e2, (finishRequest ctx e2 u b req).Body = b := fun e2 => by
    rw [(finishRequest_fields ctx e2 u b req).1, hbody]
  constructor
  · refine ⟨finishRequest ctx { e with Body := EncodeToString b, IsBase64Encoded := true } u b
      req, ?_, hfin _⟩
    rw [NewRequest_eq]
    have h1 : requestURL ctx { e with Body := EncodeToString b, IsBase64Encoded := true } =
        .ok u := hu
    have h2 : requestBody { e with Body := EncodeToString b, IsBase64Encoded := true } =
        .ok b := by
      unfold requestBody
      simp [DecodeString_EncodeToString b hb]
    rw [h1, h2]
    simp only []
    rw [show httpNewRequest
      ({ e with Body := EncodeToString b, IsBase64Encoded := true } :
        APIGatewayProxyRequest).HTTPMethod u.String b = .ok req from hr]
  · refine ⟨finishRequest ctx { e with Body := b, IsBase64Encoded := false } u b req, ?_,
      hfin _⟩
    rw [NewRequest_eq]
    have h1 : requestURL ctx { e with Body := b, IsBase64Encoded := false } = .ok u := hu
    have h2 : requestBody { e with Body := b, IsBase64Encoded := false } = .ok b := by
      unfold requestBody
      simp
    rw [h1, h2]
    simp only []
    rw [show httpNewRequest
      ({ e with Body := b, IsBase64Encoded := false } : APIGatewayProxyRequest).HTTPMethod
        u.String b = .ok req from hr]

/-- Witness of C4: the event of `TestNewRequest_bodyBinary`; its body
`aGVsbG8gd29ybGQK` is the encoding of "hello world\n". -/
theorem body_round_trip_witness :
    (∀ x ∈ str "hello world\n", x < 256) ∧
    (NewRequest {} { bodyBinaryEvent with Body := [], IsBase64Encoded := false }).2 = none ∧
    EncodeToString (str "hello world\n") = str "aGVsbG8gd29ybGQK" ∧
    (∃ r, NewRequest {}
        { bodyBinaryEvent with
          Body := EncodeToString (str "hello world\n"), IsBase64Encoded := true } =
          (some r, none) ∧ r.Body = str "hello world\n") ∧
    (∃ r, NewRequest {}
        { bodyBinaryEvent with Body := str "hello world\n", IsBase64Encoded := false } =
          (some r, none) ∧ r.Body = str "hello world\n") :=
  ⟨by decide!, by decide!, by decide!,
    body_round_trip {} bodyBinaryEvent (str "hello world\n") (by decide!) (by decide!)⟩

/-! ## The response recorder: the encoding decision -/

/-- Writing appends to the accumulated body and leaves the header map alone. -/
theorem foldl_Write (chunks : List GoString) (w : ResponseWriter) :
    (chunks.foldl ResponseWriter.Write w).buf = w.buf ++ chunks.flatten ∧
    (chunks.foldl ResponseWriter.Write w).header = w.header := by
  induction chunks generalizing w with
  | nil => simp
  | cons c cs ih =>
    rw [List.foldl_cons, (ih _).1, (ih _).2]
    simp [ResponseWriter.Write]

/-- C7. Encoding decision of the response recorder, for every header map `h` and every
sequence `chunks` of written byte slices. Let `mt` be the media type of the response's
`Content-Type` (the default `text/plain; charset=utf8` when `h` has none), without
parameters and in lower case. `End()` returns `IsBase64Encoded = false` and the written
bytes as `Body` exactly when `mt` starts with `text/`, or is `application/json` or
`application/xml`, or ends in `+xml`, and `h` has no `Content-Encoding`; in every other
case it returns `IsBase64Encoded = true` and the standard base64 encoding of the written
bytes as `Body`. -/
theorem End_encoding_decision (h : Header) (chunks : List GoString) :
    let w := chunks.foldl ResponseWriter.Write { header := h }
    let mt := mediaType (Header.Get w.finalHeader (str "Content-Type"))
    let text := (HasPrefix mt (str "text/") = true ∨ mt = str "application/json" ∨
      mt = str "application/xml" ∨ HasSuffix mt (str "+xml") = true) ∧
      GoMap.get h (str "Content-Encoding") = none
    (w.End.IsBase64Encoded = false ↔ text) ∧
    (text → w.End.IsBase64Encoded = false ∧ w.End.Body = chunks.flatten) ∧
    (¬ text → w.End.IsBase64Encoded = true ∧ w.End.Body = EncodeToString chunks.flatten) := by
  intro w mt text
  have hbuf : w.buf = chunks.flatten := by
    have := (foldl_Write chunks { header := h }).1
    simpa using this
  have hhdr : w.header = h := (foldl_Write chunks { header := h }).2
  have hce : GoMap.get w.finalHeader (str "Content-Encoding") =
      GoMap.get h (str "Content-Encoding") := by
    unfold ResponseWriter.finalHeader
    rw [hhdr]
    split
    · rw [Header.get_Set]
      have hne : str "Content-Encoding" ≠ CanonicalMIMEHeaderKey (str "Content-Type") := by
        decide
      simp [hne]
    · rfl
  have hbin : isBinary w.finalHeader = true ↔ ¬ text := by
    unfold isBinary isTextMime
    rw [hce]
    simp only [text, mt, decide_eq_true_eq, Bool.decide_or, Bool.or_eq_true,
      Bool.decide_eq_true]
  have hflag : w.End.IsBase64Encoded = isBinary w.finalHeader := rfl
  have hbody : w.End.Body =
      if isBinary w.finalHeader then EncodeToString w.buf else w.buf := rfl
  refine ⟨?_, ?_, ?_⟩
  · rw [hflag]
    constructor
    · intro hf
      by_contra hn
      rw [hbin.mpr hn] at hf
      cases hf
    · intro ht
      cases hb : isBinary w.finalHeader with
      | false => rfl
      | true => exact absurd ht (hbin.mp hb)
  · intro ht
    have hb : isBinary w.finalHeader = false := by
      cases hb : isBinary w.finalHeader with
      | false => rfl
      | true => exact absurd ht (hbin.mp hb)
    rw [hflag, hbody, hb, hbuf]
    simp
  · intro hn
    have hb : isBinary w.finalHeader = true := hbin.mpr hn
    rw [hflag, hbody, hb, hbuf]
    simp

/-- The encoding decision on the cases of response_test.go: `application/json` gives
text, `image/png` with the bytes "data" gives `ZGF0YQ==`, and `text/plain` with
`Content-Encoding: gzip` gives base64. -/
theorem End_encoding_examples :
    textRecorder.End.IsBase64Encoded = false ∧
    textRecorder.End.Body = str "hello world\n" ∧
    binaryRecorder.End.IsBase64Encoded = true ∧
    binaryRecorder.End.Body = str "ZGF0YQ==" ∧
    gzipRecorder.End.IsBase64Encoded = true ∧
    gzipRecorder.End.Body = str "ZGF0YQ==" := by
  decide!

/-! ## Lemmas on the string functions -/

theorem Cut_of_not_mem (a b : GoString) (sep : Nat) (h : sep ∉ a) :
    Cut (a ++ sep :: b) sep = (a, b, true) := by
  induction a with
  | nil => simp [Cut]
  | cons c a ih =>
    have hc : c ≠ sep := fun hc => h (by simp [hc])
    have ha : sep ∉ a := fun ha => h (by simp [ha])
    simp [Cut, hc, ih ha]

theorem Cut_none (a : GoString) (sep : Nat) (h : sep ∉ a) : Cut a sep = (a, [], false) := by
  induction a with
  | nil => simp [Cut]
  | cons c a ih =>
    have hc : c ≠ sep := fun hc => h (by simp [hc])
    have ha : sep ∉ a := fun ha => h (by simp [ha])
    simp [Cut, hc, ih ha]

theorem Index_byte_of_not_mem (a b : GoString) (sep : Nat) (h : sep ∉ a) :
    Index (a ++ sep :: b) [sep] = some a.length := by
  induction a with
  | nil => simp [Index, List.isPrefixOf]
  | cons c a ih =>
    have hc : sep ≠ c := fun hc => h (by simp [hc])
    have ha : sep ∉ a := fun ha => h (by simp [ha])
    simp [Index, List.isPrefixOf, hc, ih ha]

theorem Index_byte_none (a : GoString) (sep : Nat) (h : sep ∉ a) : Index a [sep] = none := by
  induction a with
  | nil => simp [Index]
  | cons c a ih =>
    have hc : sep ≠ c := fun hc => h (by simp [hc])
    have ha : sep ∉ a := fun ha => h (by simp [ha])
    simp [Index, List.isPrefixOf, hc, ih ha]

theorem LastIndexByte_none (s : GoString) (sep : Nat) (h : sep ∉ s) :
    LastIndexByte s sep = none := by
  induction s with
  | nil => rfl
  | cons c s ih =>
    have hc : c ≠ sep := fun hc => h (by simp [hc])
    have hs : sep ∉ s := fun hs => h (by simp [hs])
    simp [LastIndexByte, hc, ih hs]

/-- The byte at the index `LastIndexByte` returns. -/
theorem LastIndexByte_some (s : GoString) (sep i : Nat) (h : LastIndexByte s sep = some i) :
    ∃ t, s.drop i = sep :: t := by
  induction s generalizing i with
  | nil => simp [LastIndexByte] at h
  | cons c s ih =>
    unfold LastIndexByte at h
    cases hl : LastIndexByte s sep with
    | some j =>
      rw [hl] at h
      simp at h
      subst h
      obtain ⟨t, ht⟩ := ih j hl
      exact ⟨t, by simpa using ht⟩
    | none =>
      rw [hl] at h
      by_cases hc : c = sep
      · simp [hc] at h
        subst h
        exact ⟨s, by simp [hc]⟩
      · simp [hc] at h

/-- The text at the index `Index` returns starts with the pattern. -/
theorem Index_some (s sep : GoString) (i : Nat) (h : Index s sep = some i) :
    ∃ t, s.drop i = sep ++ t := by
  induction s generalizing i with
  | nil =>
    unfold Index at h
    by_cases hs : sep = []
    · simp [hs] at h; subst h; exact ⟨[], by simp [hs]⟩
    · simp [hs] at h
  | cons c s ih =>
    unfold Index at h
    by_cases hp : sep.isPrefixOf (c :: s) = true
    · simp [hp] at h
      subst h
      obtain ⟨t, ht⟩ := List.isPrefixOf_iff_prefix.mp hp
      exact ⟨t, by simpa using ht.symm⟩
    · simp [hp] at h
      obtain ⟨j, hj, hij⟩ := h
      subst hij
      obtain ⟨t, ht⟩ := ih j hj
      exact ⟨t, by simpa using ht⟩
/-! ## Lemmas on escaping -/

theorem upperhex_spec (n : Nat) (hn : n < 16) :
    isUpperHexDigit (upperhex n) ∧ ishex (upperhex n) = true ∧ unhex (upperhex n) = n := by
  unfold isUpperHexDigit upperhex ishex unhex
  by_cases h : n < 10
  · simp only [h, if_true]
    refine ⟨by omega, by simp; omega, ?_⟩
    rw [if_pos (by omega)]; omega
  · simp only [h, if_false]
    refine ⟨by omega, by simp; omega, ?_⟩
    rw [if_neg (by omega), if_neg (by omega), if_pos (by omega)]; omega

/-- A digit of `upperhex` is a decimal digit or at least `A`. -/
theorem upperhex_range (n : Nat) : (48 ≤ upperhex n ∧ upperhex n ≤ 57) ∨ 65 ≤ upperhex n := by
  unfold upperhex
  split <;> omega

theorem shouldEscape_percent (m : encoding) : shouldEscape 37 m = true := by
  cases m <;> decide

theorem escape_append (s t : GoString) (m : encoding) :
    escape (s ++ t) m = escape s m ++ escape t m := by
  induction s with
  | nil => simp [escape]
  | cons c s ih => simp [escape, ih]

/-- The bytes `escape` writes: `%`, digits of `upperhex`, `+` for a space of a query
component, and the bytes of the input that need no escaping. -/
theorem mem_escape (s : GoString) (m : encoding) (x : Nat) (hx : x ∈ escape s m) :
    x = 37 ∨ ((48 ≤ x ∧ x ≤ 57) ∨ 65 ≤ x) ∨ (x = 43 ∧ m = .encodeQueryComponent) ∨
      (x ∈ s ∧ shouldEscape x m = false) := by
  induction s with
  | nil => simp [escape] at hx
  | cons c s ih =>
    simp only [escape, List.mem_append] at hx
    rcases hx with hx | hx
    · unfold escapeByte at hx
      split at hx
      · rename_i h
        simp at hx
        exact Or.inr (Or.inr (Or.inl ⟨hx, h.2⟩))
      · split at hx
        · simp at hx
          rcases hx with hx | hx | hx
          · exact Or.inl hx
          · exact Or.inr (Or.inl (hx ▸ upperhex_range _))
          · exact Or.inr (Or.inl (hx ▸ upperhex_range _))
        · rename_i h
          simp at hx
          subst hx
          exact Or.inr (Or.inr (Or.inr ⟨by simp, by simpa using h⟩))
    · rcases ih hx with h | h | h | h
      · exact Or.inl h
      · exact Or.inr (Or.inl h)
      · exact Or.inr (Or.inr (Or.inl h))
      · exact Or.inr (Or.inr (Or.inr ⟨by simp [h.1], h.2⟩))

/-- A byte below `A` that is neither a digit, `%` nor `+` and that the mode escapes does
not occur in what `escape` writes. -/
theorem not_mem_escape (s : GoString) (m : encoding) (x : Nat) (h1 : x < 65)
    (h2 : ¬ (48 ≤ x ∧ x ≤ 57)) (h3 : x ≠ 37) (h4 : x ≠ 43) (h5 : shouldEscape x m = true) :
    x ∉ escape s m := by
  intro hx
  rcases mem_escape s m x hx with h | h | h | h
  · exact h3 h
  · omega
  · exact h4 h.1
  · rw [h5] at h; cases h.2

/-- What `escape` writes for a byte string consists of bytes. -/
theorem isBytes_escape (s : GoString) (m : encoding) (hs : isBytes s) :
    isBytes (escape s m) := by
  induction s with
  | nil => intro x hx; simp [escape] at hx
  | cons c s ih =>
    have hc : c < 256 := hs c (by simp)
    have hs2 : isBytes s := fun x hx => hs x (by simp [hx])
    intro x hx
    simp only [escape, List.mem_append] at hx
    rcases hx with hx | hx
    · unfold escapeByte at hx
      split at hx
      · simp at hx; omega
      · split at hx
        · simp at hx
          have h1 := (upperhex_spec (c / 16) (by omega)).1
          have h2 := (upperhex_spec (c % 16) (by omega)).1
          unfold isUpperHexDigit at h1 h2
          rcases hx with hx | hx | hx <;> omega
        · simp at hx; omega
    · exact ih hs2 x hx
theorem unescape_nil (m : encoding) : unescape [] m = .ok [] := by
  rw [unescape]

theorem unescape_cons_pct (a b : Nat) (rest : GoString) (m : encoding) :
    unescape (37 :: a :: b :: rest) m =
      if ¬ (ishex a ∧ ishex b) then .error (.escapeError [37, a, b])
      else if m = .encodeHost ∧ unhex a < 8 ∧ [37, a, b] ≠ [37, 50, 53] then
        .error (.escapeError [37, a, b])
      else if m = .encodeZone ∧ [37, a, b] ≠ [37, 50, 53] ∧ unhex a * 16 + unhex b ≠ 32 ∧
          shouldEscape (unhex a * 16 + unhex b) .encodeHost then
        .error (.escapeError [37, a, b])
      else
        match unescape rest m with
        | .error e => .error e
        | .ok t => .ok ((unhex a * 16 + unhex b) :: t) := by
  rw [unescape]
  simp only [if_true]

theorem unescape_cons_plus (rest : GoString) (m : encoding) :
    unescape (43 :: rest) m =
      match unescape rest m with
      | .error e => .error e
      | .ok t => .ok ((if m = .encodeQueryComponent then 32 else 43) :: t) := by
  conv_lhs => rw [unescape.eq_def]
  simp only [show (43 : Nat) ≠ 37 by omega, if_false, if_true]

theorem unescape_cons_plain (c : Nat) (rest : GoString) (m : encoding) (h37 : c ≠ 37)
    (h43 : c ≠ 43) :
    unescape (c :: rest) m =
      if (m = .encodeHost ∨ m = .encodeZone) ∧ c < 128 ∧ shouldEscape c .encodeHost then
        .error (.invalidHostError [c])
      else
        match unescape rest m with
        | .error e => .error e
        | .ok t => .ok (c :: t) := by
  conv_lhs => rw [unescape.eq_def]
  simp only [h37, h43, if_false]
/-- Unescaping what `escape` wrote for a byte string gives the byte string back, whenever
it succeeds; the two modes are both the query mode or both another one. -/
theorem unescape_escape (s : GoString) (m m2 : encoding) (hs : isBytes s)
    (hq : m = .encodeQueryComponent ↔ m2 = .encodeQueryComponent) (t : GoString)
    (h : unescape (escape s m) m2 = .ok t) : t = s := by
  induction s generalizing t with
  | nil =>
    simp [escape, unescape] at h
    exact h
  | cons c s ih =>
    have hc : c < 256 := hs c (by simp)
    have hs2 : isBytes s := fun x hx => hs x (by simp [hx])
    simp only [escape] at h
    unfold escapeByte at h
    split at h
    · -- a space of a query component
      rename_i hsp
      have hm2 : m2 = .encodeQueryComponent := hq.mp hsp.2
      simp only [List.singleton_append, unescape_cons_plus] at h
      cases hr : unescape (escape s m) m2 with
      | error e => simp [hr] at h
      | ok t2 =>
        rw [hr] at h
        simp [hm2] at h
        rw [← h, ih hs2 t2 hr, hsp.1]
    · split at h
      · -- an escaped byte
        have h1 := upperhex_spec (c / 16) (by omega)
        have h2 := upperhex_spec (c % 16) (by omega)
        simp only [List.cons_append, List.nil_append, unescape_cons_pct] at h
        simp only [if_true, h1.2.1, h2.2.1, h1.2.2, h2.2.2, and_self, not_true_eq_false,
          if_false] at h
        split at h
        · cases h
        · split at h
          · cases h
          · cases hr : unescape (escape s m) m2 with
            | error e => simp [hr] at h
            | ok t2 =>
              simp [hr] at h
              rw [← h, ih hs2 t2 hr]
              congr 1
              omega
      · -- a byte left as it is
        rename_i hsp hesc
        have hc37 : c ≠ 37 := by
          intro h37
          rw [h37, shouldEscape_percent] at hesc
          exact hesc rfl
        simp only [List.singleton_append] at h
        by_cases hc43 : c = 43
        · have hm : m ≠ .encodeQueryComponent := by
            intro hm
            rw [hc43, hm] at hesc
            exact hesc (by decide)
          have hm2 : m2 ≠ .encodeQueryComponent := fun h2 => hm (hq.mpr h2)
          simp only [hc43, unescape_cons_plus] at h
          cases hr : unescape (escape s m) m2 with
          | error e => simp [hr] at h
          | ok t2 =>
            simp [hr, hm2] at h
            rw [← h, ih hs2 t2 hr, hc43]
        · rw [unescape_cons_plain _ _ _ hc37 hc43] at h
          split at h
          · cases h
          · cases hr : unescape (escape s m) m2 with
            | error e => simp [hr] at h
            | ok t2 =>
              simp [hr] at h
              rw [← h, ih hs2 t2 hr]

/-- In the query mode, unescaping what `escape` wrote for a byte string succeeds. -/
theorem QueryUnescape_QueryEscape (s : GoString) (hs : isBytes s) :
    QueryUnescape (QueryEscape s) = .ok s := by
  unfold QueryUnescape QueryEscape
  induction s with
  | nil => simp [escape, unescape]
  | cons c s ih =>
    have hc : c < 256 := hs c (by simp)
    have hs2 : isBytes s := fun x hx => hs x (by simp [hx])
    simp only [escape]
    unfold escapeByte
    split
    · rename_i hsp
      simp only [List.singleton_append, unescape_cons_plus]
      simp [ih hs2, hsp.1]
    · split
      · have h1 := upperhex_spec (c / 16) (by omega)
        have h2 := upperhex_spec (c % 16) (by omega)
        simp only [List.cons_append, List.nil_append, unescape_cons_pct]
        simp only [if_true, h1.2.1, h2.2.1, h1.2.2, h2.2.2, and_self, not_true_eq_false,
          if_false, ih hs2]
        simp
        omega
      · rename_i hsp hesc
        have hc37 : c ≠ 37 := by
          intro h37
          rw [h37, shouldEscape_percent] at hesc
          exact hesc rfl
        have hc43 : c ≠ 43 := by
          intro h43
          rw [h43] at hesc
          exact hesc (by decide)
        simp only [List.singleton_append]
        rw [unescape_cons_plain _ _ _ hc37 hc43]
        simp [ih hs2]

/-! ## The encoded query -/

/-- The `key=value` pairs `Values.Encode` writes for the keys `keys` of `v`. -/
theorem encode_pairs_nonempty (v : Values) (keys : List GoString) :
    ∀ p ∈ keys.flatMap (fun k =>
      ((v.get k).getD []).map fun val => QueryEscape k ++ [61] ++ QueryEscape val), p ≠ [] := by
  intro p hp
  simp only [List.mem_flatMap, List.mem_map] at hp
  obtain ⟨k, _, val, _, rfl⟩ := hp
  simp

/-- Joining with `&`, one more piece at the end. -/
theorem intercalate_concat (l : List GoString) (p : GoString) (hl : l ≠ []) :
    [38].intercalate (l ++ [p]) = [38].intercalate l ++ [38] ++ p := by
  induction l with
  | nil => exact absurd rfl hl
  | cons a l ih =>
    cases l with
    | nil => simp [List.intercalate]
    | cons b l =>
      have := ih (by simp)
      simp only [List.intercalate, List.cons_append, List.intersperse_cons_cons,
        List.flatten_cons] at this ⊢
      rw [this]
      simp

/-- A join of non-empty pieces is empty only when there is no piece. -/
theorem intercalate_eq_nil (l : List GoString) (hl : ∀ p ∈ l, p ≠ []) :
    [38].intercalate l = [] ↔ l = [] := by
  cases l with
  | nil => simp [List.intercalate]
  | cons a l =>
    have ha : a ≠ [] := hl a (by simp)
    cases l with
    | nil => simp [List.intercalate, ha]
    | cons b l => simp [List.intercalate, ha]

/-- The inner loop of `Values.Encode` appends the pairs of one key to the join. -/
theorem encodeValues_eq (keyEscaped : GoString) (vs : List GoString) (l : List GoString)
    (hl : ∀ p ∈ l, p ≠ []) :
    encodeValues keyEscaped ([38].intercalate l) vs =
      [38].intercalate (l ++ vs.map fun val => keyEscaped ++ [61] ++ QueryEscape val) := by
  induction vs generalizing l with
  | nil => simp [encodeValues]
  | cons val vs ih =>
    have hl2 : ∀ p ∈ l ++ [keyEscaped ++ [61] ++ QueryEscape val], p ≠ [] := by
      intro p hp
      simp only [List.mem_append, List.mem_singleton] at hp
      rcases hp with hp | hp
      · exact hl p hp
      · subst hp; simp
    have hstep : encodeValues keyEscaped ([38].intercalate l) (val :: vs) =
        encodeValues keyEscaped
          ([38].intercalate (l ++ [keyEscaped ++ [61] ++ QueryEscape val])) vs := by
      by_cases hnil : l = []
      · subst hnil
        simp [encodeValues, List.intercalate]
      · have hne : [38].intercalate l ≠ [] := fun h => hnil ((intercalate_eq_nil l hl).mp h)
        rw [intercalate_concat l _ hnil]
        cases hb : [38].intercalate l with
        | nil => exact absurd hb hne
        | cons x xs => simp [encodeValues]
    rw [hstep, ih _ hl2]
    simp

/-- C6, first part: `Values.Encode` is the canonical encoding. -/
theorem Encode_eq_specEncode (v : Values) : Values.Encode v = specEncode v := by
  unfold Values.Encode specEncode
  have key : ∀ (keys : List GoString) (l : List GoString), (∀ p ∈ l, p ≠ []) →
      keys.foldl (fun buf k => encodeValues (QueryEscape k) buf ((v.get k).getD []))
        ([38].intercalate l) =
      [38].intercalate (l ++ keys.flatMap fun k =>
        ((v.get k).getD []).map fun val => QueryEscape k ++ [61] ++ QueryEscape val) := by
    intro keys
    induction keys with
    | nil => intro l _; simp
    | cons k keys ih =>
      intro l hl
      rw [List.foldl_cons, encodeValues_eq _ _ l hl]
      rw [ih]
      · simp
      · intro p hp
        simp only [List.mem_append, List.mem_map] at hp
        rcases hp with hp | ⟨val, _, rfl⟩
        · exact hl p hp
        · simp
  have := key (sortStrings v.keys) [] (by simp)
  simpa [List.intercalate] using this

/-! ## The order of the keys -/

theorem strLe_total (a b : GoString) : strLe a b = true ∨ strLe b a = true := by
  induction a generalizing b with
  | nil => left; cases b <;> rfl
  | cons x a ih =>
    cases b with
    | nil => right; rfl
    | cons y b =>
      simp only [strLe, Bool.decide_or, Bool.decide_and, Bool.or_eq_true, Bool.and_eq_true,
        decide_eq_true_eq, Bool.decide_eq_true]
      rcases Nat.lt_trichotomy x y with h | h | h
      · left; left; exact h
      · rcases ih b with h2 | h2
        · left; right; exact ⟨h, h2⟩
        · right; right; exact ⟨h.symm, h2⟩
      · right; left; exact h

theorem strLe_trans (a b c : GoString) (h1 : strLe a b = true) (h2 : strLe b c = true) :
    strLe a c = true := by
  induction a generalizing b c with
  | nil => cases c <;> rfl
  | cons x a ih =>
    cases b with
    | nil => simp [strLe] at h1
    | cons y b =>
      cases c with
      | nil => simp [strLe] at h2
      | cons z c =>
        simp only [strLe, Bool.decide_or, Bool.decide_and, Bool.or_eq_true, Bool.and_eq_true,
          decide_eq_true_eq, Bool.decide_eq_true] at h1 h2 ⊢
        rcases h1 with h1 | ⟨h1, h1'⟩
        · rcases h2 with h2 | ⟨h2, _⟩
          · left; omega
          · left; omega
        · rcases h2 with h2 | ⟨h2, h2'⟩
          · left; omega
          · right; exact ⟨by omega, ih b c h1' h2'⟩

theorem strLe_antisymm (a b : GoString) (h1 : strLe a b = true) (h2 : strLe b a = true) :
    a = b := by
  induction a generalizing b with
  | nil =>
    cases b with
    | nil => rfl
    | cons y b => simp [strLe] at h2
  | cons x a ih =>
    cases b with
    | nil => simp [strLe] at h1
    | cons y b =>
      simp only [strLe, Bool.decide_or, Bool.decide_and, Bool.or_eq_true, Bool.and_eq_true,
        decide_eq_true_eq, Bool.decide_eq_true] at h1 h2
      rcases h1 with h1 | ⟨h1, h1'⟩
      · rcases h2 with h2 | ⟨h2, _⟩ <;> omega
      · rcases h2 with h2 | ⟨_, h2'⟩
        · omega
        · rw [h1, ih b h1' h2']

/-- `sort.Strings` returns the strings in ascending order. -/
theorem sortStrings_sorted (l : List GoString) :
    (sortStrings l).Sorted (fun a b => strLe a b = true) := by
  haveI : IsTotal GoString (fun a b => strLe a b = true) := ⟨strLe_total⟩
  haveI : IsTrans GoString (fun a b => strLe a b = true) := ⟨strLe_trans⟩
  exact List.sorted_insertionSort (fun a b => strLe a b = true) l

/-- `sort.Strings` permutes its input. -/
theorem sortStrings_perm (l : List GoString) : (sortStrings l).Perm l :=
  List.perm_insertionSort (fun a b => strLe a b = true) l

/-- `sort.Strings` does not depend on the order of its input. -/
theorem sortStrings_eq_of_perm (l1 l2 : List GoString) (h : l1.Perm l2) :
    sortStrings l1 = sortStrings l2 := by
  haveI : IsAntisymm GoString (fun a b => strLe a b = true) := ⟨strLe_antisymm⟩
  exact List.eq_of_perm_of_sorted
    ((sortStrings_perm l1).trans (h.trans (sortStrings_perm l2).symm))
    (sortStrings_sorted l1) (sortStrings_sorted l2)

/-- Two maps with the same entries, in whatever order, have the same encoding. -/
theorem Encode_eq_of_get_eq (v1 v2 : Values) (h : ∀ k, v1.get k = v2.get k) :
    Values.Encode v1 = Values.Encode v2 := by
  have hkeys : v1.keys.Perm v2.keys := by
    rw [List.perm_ext_iff_of_nodup v1.keys_nodup v2.keys_nodup]
    intro k
    rw [← AList.mem_keys, ← AList.mem_keys, ← AList.lookup_isSome, ← AList.lookup_isSome]
    have := h k
    unfold GoMap.get at this
    rw [this]
  unfold Values.Encode
  rw [sortStrings_eq_of_perm _ _ hkeys]
  congr 1
  funext buf k
  rw [h k]

/-! ## Decoding the encoded query -/

theorem splitByte_of_not_mem (sep : Nat) (a : GoString) (h : sep ∉ a) :
    splitByte sep a = [a] := by
  induction a with
  | nil => rfl
  | cons c a ih =>
    have hc : c ≠ sep := fun hc => h (by simp [hc])
    have ha : sep ∉ a := fun ha => h (by simp [ha])
    simp [splitByte, hc, ih ha]

theorem splitByte_append (sep : Nat) (a t : GoString) (h : sep ∉ a) :
    splitByte sep (a ++ sep :: t) = a :: splitByte sep t := by
  induction a with
  | nil => simp [splitByte]
  | cons c a ih =>
    have hc : c ≠ sep := fun hc => h (by simp [hc])
    have ha : sep ∉ a := fun ha => h (by simp [ha])
    simp [splitByte, hc, ih ha]

/-- Cutting a join at its separators gives the pieces back. -/
theorem splitByte_intercalate (sep : Nat) (l : List GoString) (hl : l ≠ [])
    (hsep : ∀ p ∈ l, sep ∉ p) : splitByte sep ([sep].intercalate l) = l := by
  induction l with
  | nil => exact absurd rfl hl
  | cons a l ih =>
    have ha : sep ∉ a := hsep a (by simp)
    cases l with
    | nil => simpa [List.intercalate] using splitByte_of_not_mem sep a ha
    | cons b l =>
      have hrest := ih (by simp) (fun p hp => hsep p (by simp [hp]))
      have hform : [sep].intercalate (a :: b :: l) = a ++ sep :: [sep].intercalate (b :: l) := by
        simp [List.intercalate]
      rw [hform, splitByte_append sep a _ ha, hrest]

/-- The bytes `&`, `;` and `=` do not occur in what `QueryEscape` writes. -/
theorem QueryEscape_free (s : GoString) :
    38 ∉ QueryEscape s ∧ 59 ∉ QueryEscape s ∧ 61 ∉ QueryEscape s ∧ 35 ∉ QueryEscape s ∧
      63 ∉ QueryEscape s := by
  unfold QueryEscape
  refine ⟨?_, ?_, ?_, ?_, ?_⟩ <;>
    exact not_mem_escape s _ _ (by omega) (by omega) (by omega) (by omega) (by decide)

/-- One turn of the loop of `url.ParseQuery` on an encoded pair. -/
theorem parseQueryStep_pair (m : Values) (k val : GoString) (hk : isBytes k)
    (hval : isBytes val) :
    parseQueryStep (m, none) (QueryEscape k ++ [61] ++ QueryEscape val) =
      (m.set k ((m.get k).getD [] ++ [val]), none) := by
  have hk' := QueryEscape_free k
  have hv' := QueryEscape_free val
  have h59 : 59 ∉ QueryEscape k ++ [61] ++ QueryEscape val := by
    simp [hk'.2.1, hv'.2.1]
  have hne : QueryEscape k ++ [61] ++ QueryEscape val ≠ [] := by simp
  have hcut : Cut (QueryEscape k ++ [61] ++ QueryEscape val) 61 =
      (QueryEscape k, QueryEscape val, true) := by
    rw [List.append_assoc]
    exact Cut_of_not_mem _ _ 61 hk'.2.2.1
  unfold parseQueryStep
  simp only [h59, hne, if_false, hcut, QueryUnescape_QueryEscape k hk,
    QueryUnescape_QueryEscape val hval]

/-- The loop of `url.ParseQuery` on encoded pairs appends every value under its key. -/
theorem foldl_parseQueryStep (kvs : List (GoString × GoString)) (m : Values)
    (hb : ∀ kv ∈ kvs, isBytes kv.1 ∧ isBytes kv.2) :
    (kvs.map fun kv => QueryEscape kv.1 ++ [61] ++ QueryEscape kv.2).foldl parseQueryStep
        (m, none) =
      (kvs.foldl (fun m kv => m.set kv.1 ((m.get kv.1).getD [] ++ [kv.2])) m, none) := by
  induction kvs generalizing m with
  | nil => rfl
  | cons kv kvs ih =>
    have h1 := hb kv (by simp)
    simp only [List.map_cons, List.foldl_cons]
    rw [parseQueryStep_pair m kv.1 kv.2 h1.1 h1.2]
    exact ih _ (fun kv2 h2 => hb kv2 (by simp [h2]))

/-- The values stored under `k` after appending every value of a list of pairs under its
key. -/
theorem foldl_append_get (kvs : List (GoString × GoString)) (m : Values) (k : GoString) :
    ((kvs.foldl (fun m kv => m.set kv.1 ((m.get kv.1).getD [] ++ [kv.2])) m).get k).getD [] =
      (m.get k).getD [] ++ (kvs.filter fun kv => kv.1 = k).map Prod.snd := by
  induction kvs generalizing m with
  | nil => simp
  | cons kv kvs ih =>
    rw [List.foldl_cons, ih]
    by_cases hk : kv.1 = k
    · subst hk
      simp [GoMap.get, GoMap.set, AList.lookup_insert]
    · have hk2 : k ≠ kv.1 := fun h => hk h.symm
      simp [GoMap.get, GoMap.set, AList.lookup_insert_ne hk2, hk]
/-- Among the pairs made of every key with each of its values, those of the key `k`. -/
theorem filter_pairs (f : GoString → List GoString) (keys : List GoString)
    (hkeys : keys.Nodup) (k : GoString) :
    (((keys.flatMap fun k2 => (f k2).map fun val => (k2, val)).filter
      fun kv => kv.1 = k).map Prod.snd) = if k ∈ keys then f k else [] := by
  induction keys with
  | nil => simp
  | cons k2 keys ih =>
    rw [List.nodup_cons] at hkeys
    rw [List.flatMap_cons, List.filter_append, List.map_append, ih hkeys.2]
    by_cases hk : k2 = k
    · subst hk
      have h1 : ((f k2).map fun val => (k2, val)).filter (fun kv => kv.1 = k2) =
          (f k2).map fun val => (k2, val) := by
        rw [List.filter_eq_self]
        intro kv hkv
        simp only [List.mem_map] at hkv
        obtain ⟨val, _, rfl⟩ := hkv
        simp
      rw [h1]
      simp [hkeys.1, Function.comp_def]
    · have h1 : ((f k2).map fun val => (k2, val)).filter (fun kv => kv.1 = k) = [] := by
        rw [List.filter_eq_nil_iff]
        intro kv hkv
        simp only [List.mem_map] at hkv
        obtain ⟨val, _, rfl⟩ := hkv
        simp [hk]
      have hk2 : k ≠ k2 := fun h => hk h.symm
      rw [h1]
      simp [hk2]

/-- C6, last part: decoding the encoding of a map of byte strings gives no error and,
under every key, the values of the map in their order. -/
theorem ParseQuery_Encode (v : Values)
    (hb : ∀ k vs, v.get k = some vs → isBytes k ∧ ∀ val ∈ vs, isBytes val) :
    (ParseQuery (Values.Encode v)).2 = none ∧
    ∀ k, ((ParseQuery (Values.Encode v)).1.get k).getD [] = (v.get k).getD [] := by
  have hmem : ∀ k, k ∈ sortStrings v.keys ↔ k ∈ v.keys := fun k =>
    (sortStrings_perm v.keys).mem_iff
  have hnodup : (sortStrings v.keys).Nodup :=
    (sortStrings_perm v.keys).nodup_iff.mpr v.keys_nodup
  have hpairs : ((sortStrings v.keys).flatMap fun k =>
      ((v.get k).getD []).map fun val => QueryEscape k ++ [61] ++ QueryEscape val) =
      ((sortStrings v.keys).flatMap fun k => ((v.get k).getD []).map fun val => (k, val)).map
        fun kv => QueryEscape kv.1 ++ [61] ++ QueryEscape kv.2 := by
    rw [List.map_flatMap]
    simp [Function.comp_def]
  have hbytes : ∀ kv ∈ (sortStrings v.keys).flatMap fun k =>
      ((v.get k).getD []).map fun val => (k, val), isBytes kv.1 ∧ isBytes kv.2 := by
    intro kv hkv
    simp only [List.mem_flatMap, List.mem_map] at hkv
    obtain ⟨k, _, val, hval, rfl⟩ := hkv
    cases hg : v.get k with
    | none => simp [hg] at hval
    | some vs =>
      rw [hg] at hval
      exact ⟨(hb k vs hg).1, (hb k vs hg).2 val hval⟩
  have hfold : ParseQuery (Values.Encode v) =
      (((sortStrings v.keys).flatMap fun k =>
        ((v.get k).getD []).map fun val => (k, val)).foldl
        (fun m kv => m.set kv.1 ((m.get kv.1).getD [] ++ [kv.2])) ∅, none) := by
    rw [Encode_eq_specEncode]
    unfold ParseQuery specEncode
    rw [hpairs]
    cases hl : (sortStrings v.keys).flatMap fun k =>
        ((v.get k).getD []).map fun val => (k, val) with
    | nil => simp [List.intercalate, splitByte, parseQueryStep]
    | cons kv kvs =>
      rw [← hl]
      rw [splitByte_intercalate 38]
      · exact foldl_parseQueryStep _ _ hbytes
      · rw [hl]; simp
      · intro p hp
        simp only [List.mem_map] at hp
        obtain ⟨kv2, _, rfl⟩ := hp
        have h1 := QueryEscape_free kv2.1
        have h2 := QueryEscape_free kv2.2
        simp [h1.1, h2.1]
  rw [hfold]
  refine ⟨rfl, fun k => ?_⟩
  rw [foldl_append_get, filter_pairs _ _ hnodup]
  by_cases hk : k ∈ sortStrings v.keys
  · simp [hk, GoMap.get]
  · have hk2 : k ∉ v.keys := fun h => hk ((hmem k).mpr h)
    have hnone : v.get k = none := by
      unfold GoMap.get
      rw [AList.lookup_eq_none, AList.mem_keys]
      exact hk2
    have hnone2 : AList.lookup k v = none := hnone
    simp [hk, hnone2, GoMap.get]

/-- The query of the URL `NewRequest` builds is the encoding of the merged query
parameters. -/
theorem requestURL_RawQuery (ctx : Context) (e : APIGatewayProxyRequest) (u : URL)
    (h : requestURL ctx e = .ok u) :
    u.RawQuery = Values.Encode
      (mergeValues e.QueryStringParameters e.MultiValueQueryStringParameters) := by
  unfold requestURL at h
  simp only [] at h
  split at h
  · cases h
  · cases h
    rfl

/-! ## Parsing a host that was escaped -/

/-- What `escape` wrote for a byte string, cut before a byte that is not a digit of
`upperhex`, is what `escape` writes for two parts of the byte string. -/
theorem escape_split (h : GoString) (m : encoding) (hb : isBytes h) (a b : GoString)
    (hab : escape h m = a ++ b)
    (hhead : b = [] ∨ ∃ x rest, b = x :: rest ∧ ¬ isUpperHexDigit x) :
    ∃ h1 h2, h = h1 ++ h2 ∧ escape h1 m = a ∧ escape h2 m = b := by
  induction h generalizing a with
  | nil =>
    simp only [escape] at hab
    have ha : a = [] := (List.append_eq_nil.mp hab.symm).1
    have hb2 : b = [] := (List.append_eq_nil.mp hab.symm).2
    exact ⟨[], [], rfl, by simp [escape, ha], by simp [escape, hb2]⟩
  | cons c h ih =>
    have hc : c < 256 := hb c (by simp)
    have hb2 : isBytes h := fun x hx => hb x (by simp [hx])
    cases a with
    | nil => exact ⟨[], c :: h, rfl, rfl, by simpa using hab⟩
    | cons x a =>
      simp only [escape] at hab
      have single : ∀ y, escapeByte m c = [y] → ∃ h1 h2, c :: h = h1 ++ h2 ∧
          escape h1 m = x :: a ∧ escape h2 m = b := by
        intro y hy
        rw [hy] at hab
        simp only [List.singleton_append, List.cons_append, List.cons.injEq] at hab
        obtain ⟨h1, h2, e1, e2, e3⟩ := ih hb2 a hab.2
        refine ⟨c :: h1, h2, by simp [e1], ?_, e3⟩
        simp only [escape, hy, List.singleton_append, e2, hab.1]
      by_cases h1 : c = 32 ∧ m = .encodeQueryComponent
      · exact single 43 (by simp [escapeByte, h1])
      · by_cases h2 : shouldEscape c m = true
        · have hesc : escapeByte m c = [37, upperhex (c / 16), upperhex (c % 16)] := by
            simp [escapeByte, h1, h2]
          rw [hesc] at hab
          simp only [List.cons_append, List.nil_append, List.cons.injEq] at hab
          have hhi := (upperhex_spec (c / 16) (by omega)).1
          have hlo := (upperhex_spec (c % 16) (by omega)).1
          cases a with
          | nil =>
            simp only [List.nil_append] at hab
            rcases hhead with hn | ⟨y, rest, hy, hny⟩
            · rw [hn] at hab; cases hab.2
            · rw [hy] at hab
              simp only [List.cons.injEq] at hab
              exact absurd (hab.2.1 ▸ hhi) hny
          | cons y a =>
            cases a with
            | nil =>
              simp only [List.cons_append, List.nil_append, List.cons.injEq] at hab
              rcases hhead with hn | ⟨z, rest, hz, hnz⟩
              · rw [hn] at hab; cases hab.2.2
              · rw [hz] at hab
                simp only [List.cons.injEq] at hab
                exact absurd (hab.2.2.1 ▸ hlo) hnz
            | cons z a =>
              simp only [List.cons_append, List.cons.injEq] at hab
              obtain ⟨h1', h2', e1, e2, e3⟩ := ih hb2 a hab.2.2.2
              refine ⟨c :: h1', h2', by simp [e1], ?_, e3⟩
              simp only [escape, hesc, List.cons_append, List.nil_append, e2, hab.1,
                hab.2.1, hab.2.2.1]
        · exact single c (by simp [escapeByte, h1, h2])
/-- `parseHost` on an escaped byte string gives the byte string back, when it
succeeds. -/
theorem parseHost_escape (h : GoString) (hb : isBytes h) (host : GoString)
    (hp : parseHost (escape h .encodeHost) = .ok host) : host = h := by
  have hplain : ∀ t, unescape (escape h .encodeHost) .encodeHost = .ok t → t = h :=
    fun t ht => unescape_escape h _ _ hb (by simp) t ht
  unfold parseHost at hp
  split at hp
  · -- an IP-literal
    split at hp
    · cases hp
    · rename_i i hi
      simp only [] at hp
      split at hp
      · cases hp
      · split at hp
        · rename_i zone hz
          -- the three parts of the escaped host
          obtain ⟨t3, ht3⟩ := LastIndexByte_some _ _ _ hi
          obtain ⟨tz, htz⟩ := Index_some _ _ _ hz
          have hsplit1 : escape h .encodeHost =
              (escape h .encodeHost).take i ++ (escape h .encodeHost).drop i :=
            (List.take_append_drop i _).symm
          obtain ⟨hA, hC, hAC, eA, eC⟩ := escape_split h _ hb _ _ hsplit1
            (Or.inr ⟨93, t3, ht3, by unfold isUpperHexDigit; omega⟩)
          have hbA : isBytes hA := fun x hx => hb x (by rw [hAC]; simp [hx])
          have hbC : isBytes hC := fun x hx => hb x (by rw [hAC]; simp [hx])
          have hsplit2 : escape hA .encodeHost =
              ((escape h .encodeHost).take i).take zone ++
                ((escape h .encodeHost).take i).drop zone := by
            rw [eA]; exact (List.take_append_drop zone _).symm
          obtain ⟨h1, h2, h12, e1, e2⟩ := escape_split hA _ hbA _ _ hsplit2
            (Or.inr ⟨37, _, htz, by unfold isUpperHexDigit; omega⟩)
          have hb1 : isBytes h1 := fun x hx => hbA x (by rw [h12]; simp [hx])
          have hb2 : isBytes h2 := fun x hx => hbA x (by rw [h12]; simp [hx])
          have hzi : zone ≤ i := by
            have hlen : zone < ((escape h .encodeHost).take i).length := by
              by_contra hge
              have : ((escape h .encodeHost).take i).drop zone = [] :=
                List.drop_eq_nil_of_le (by omega)
              rw [this] at htz
              simp [str] at htz
            have := List.length_take_le i (escape h .encodeHost)
            omega
          have htake : (escape h .encodeHost).take zone =
              ((escape h .encodeHost).take i).take zone := by
            rw [List.take_take, Nat.min_eq_left hzi]
          rw [htake, ← e1, ← e2, ← eC] at hp
          cases hu1 : unescape (escape h1 .encodeHost) .encodeHost with
          | error err => simp [hu1] at hp
          | ok host1 =>
            cases hu2 : unescape (escape h2 .encodeHost) .encodeZone with
            | error err => simp [hu1, hu2] at hp
            | ok host2 =>
              cases hu3 : unescape (escape hC .encodeHost) .encodeHost with
              | error err => simp [hu1, hu2, hu3] at hp
              | ok host3 =>
                simp [hu1, hu2, hu3] at hp
                rw [← hp, unescape_escape h1 _ _ hb1 (by simp) host1 hu1,
                  unescape_escape h2 _ _ hb2 (by simp) host2 hu2,
                  unescape_escape hC _ _ hbC (by simp) host3 hu3, hAC, h12,
                  List.append_assoc]
        · exact hplain host hp
  · split at hp
    · split at hp
      · cases hp
      · exact hplain host hp
    · exact hplain host hp

/-! ## The string form of a URL and its parts -/

/-- A valid encoding of a path holds no `#` and no `?`. -/
theorem validEncoded_free (s : GoString) (h : validEncoded s .encodePath = true) :
    35 ∉ s ∧ 63 ∉ s := by
  unfold validEncoded at h
  rw [List.all_eq_true] at h
  constructor
  · intro hm
    have := h 35 hm
    revert this
    decide
  · intro hm
    have := h 63 hm
    revert this
    decide

/-- The escaped path of a URL holds no `#` and no `?`. -/
theorem EscapedPath_free (u : URL) : 35 ∉ u.EscapedPath ∧ 63 ∉ u.EscapedPath := by
  unfold URL.EscapedPath
  split
  · rename_i h
    exact validEncoded_free _ h.2.1
  · split
    · simp
    · exact ⟨not_mem_escape _ _ _ (by omega) (by omega) (by omega) (by omega) (by decide),
        not_mem_escape _ _ _ (by omega) (by omega) (by omega) (by omega) (by decide)⟩

/-- An escaped host holds no `#`, `/`, `?` and `@`. -/
theorem escape_host_free (h : GoString) :
    35 ∉ escape h .encodeHost ∧ 47 ∉ escape h .encodeHost ∧ 63 ∉ escape h .encodeHost ∧
      64 ∉ escape h .encodeHost := by
  refine ⟨?_, ?_, ?_, ?_⟩ <;>
    exact not_mem_escape _ _ _ (by omega) (by omega) (by omega) (by omega) (by decide)

/-- What `escape` writes for a non-empty string is not empty. -/
theorem escape_ne_nil (h : GoString) (m : encoding) (hne : h ≠ []) : escape h m ≠ [] := by
  cases h with
  | nil => exact absurd rfl hne
  | cons c h =>
    simp only [escape, escapeByte]
    split
    · simp
    · split <;> simp

/-- The bytes of a scheme name. -/
theorem isSchemeName_bytes (s : GoString) (hs : isSchemeName s = true) (x : Nat) (hx : x ∈ s) :
    (97 ≤ x ∧ x ≤ 122) ∨ (65 ≤ x ∧ x ≤ 90) ∨ (48 ≤ x ∧ x ≤ 57) ∨ x = 43 ∨ x = 45 ∨ x = 46 := by
  cases s with
  | nil => simp at hx
  | cons c s =>
    simp only [isSchemeName, Bool.decide_and, Bool.decide_or, Bool.and_eq_true,
      Bool.or_eq_true, decide_eq_true_eq, List.all_eq_true] at hs
    rcases List.mem_cons.mp hx with h | h
    · subst h
      rcases hs.1 with h1 | h1
      · exact Or.inl h1
      · exact Or.inr (Or.inl h1)
    · exact hs.2 x h

/-- The loop of `getScheme` runs over the bytes of a scheme name up to the colon. -/
theorem getSchemeLoop_scheme (rawURL s rest : GoString) (i : Nat)
    (hs : ∀ x ∈ s, (97 ≤ x ∧ x ≤ 122) ∨ (65 ≤ x ∧ x ≤ 90) ∨ (48 ≤ x ∧ x ≤ 57) ∨ x = 43 ∨
      x = 45 ∨ x = 46)
    (hi : 0 < i ∨ ∃ c t, s = c :: t ∧ ((97 ≤ c ∧ c ≤ 122) ∨ (65 ≤ c ∧ c ≤ 90))) :
    getSchemeLoop rawURL i (s ++ 58 :: rest) = .ok (rawURL.take (i + s.length), rest) := by
  induction s generalizing i with
  | nil =>
    rcases hi with hi | ⟨c, t, h, _⟩
    · have : i ≠ 0 := by omega
      simp [getSchemeLoop, this]
    · cases h
  | cons c s ih =>
    have hc := hs c (by simp)
    have hs2 := fun x hx => hs x (List.mem_cons_of_mem c hx)
    have hrec := ih (i + 1) hs2 (Or.inl (by omega))
    rw [List.cons_append, getSchemeLoop]
    by_cases hletter : (97 ≤ c ∧ c ≤ 122) ∨ (65 ≤ c ∧ c ≤ 90)
    · rw [if_pos hletter, hrec]
      simp only [List.length_cons]
      congr 3
      omega
    · rw [if_neg hletter]
      have hi0 : i ≠ 0 := by
        rcases hi with hi | ⟨c2, t, h, hl⟩
        · omega
        · simp only [List.cons.injEq] at h
          exact absurd (h.1 ▸ hl) hletter
      have hdig : (48 ≤ c ∧ c ≤ 57) ∨ c = 43 ∨ c = 45 ∨ c = 46 := by
        rcases hc with h | h | h | h | h | h
        · exact absurd (Or.inl h) hletter
        · exact absurd (Or.inr h) hletter
        · exact Or.inl h
        · exact Or.inr (Or.inl h)
        · exact Or.inr (Or.inr (Or.inl h))
        · exact Or.inr (Or.inr (Or.inr h))
      rw [if_pos hdig, if_neg hi0, hrec]
      simp only [List.length_cons]
      congr 3
      omega

/-- `getScheme` splits a scheme name off at its colon. -/
theorem getScheme_scheme (s rest : GoString) (hs : isSchemeName s = true) :
    getScheme (s ++ 58 :: rest) = .ok (s, rest) := by
  unfold getScheme
  have hfirst : ∃ c t, s = c :: t ∧ ((97 ≤ c ∧ c ≤ 122) ∨ (65 ≤ c ∧ c ≤ 90)) := by
    cases s with
    | nil => simp [isSchemeName] at hs
    | cons c t =>
      simp only [isSchemeName, Bool.decide_and, Bool.decide_or, Bool.and_eq_true,
        Bool.or_eq_true, decide_eq_true_eq] at hs
      exact ⟨c, t, rfl, hs.1⟩
  rw [getSchemeLoop_scheme _ s rest 0 (isSchemeName_bytes s hs) (Or.inr hfirst)]
  simp

/-- `getScheme` finds no scheme in a text that starts with `/`. -/
theorem getScheme_slash (rest : GoString) : getScheme (47 :: rest) = .ok ([], 47 :: rest) := by
  simp [getScheme, getSchemeLoop]

/-- `setPath` changes nothing but the path. -/
theorem setPath_ok (u u1 : URL) (p : GoString) (h : u.setPath p = .ok u1) :
    u1.Host = u.Host ∧ u1.RawQuery = u.RawQuery ∧ u1.ForceQuery = u.ForceQuery ∧
    u1.Scheme = u.Scheme ∧ u1.User = u.User ∧ u1.Opaque = u.Opaque ∧
    u1.OmitHost = u.OmitHost ∧ u1.Fragment = u.Fragment ∧ u1.RawFragment = u.RawFragment := by
  unfold URL.setPath at h
  split at h
  · cases h
  · split at h <;> (cases h; simp)

/-- `setFragment` changes nothing but the fragment. -/
theorem setFragment_ok (u u1 : URL) (f : GoString) (h : u.setFragment f = .ok u1) :
    u1.Host = u.Host ∧ u1.RawQuery = u.RawQuery ∧ u1.ForceQuery = u.ForceQuery ∧
    u1.Scheme = u.Scheme ∧ u1.User = u.User ∧ u1.Opaque = u.Opaque ∧
    u1.OmitHost = u.OmitHost ∧ u1.Path = u.Path ∧ u1.RawPath = u.RawPath := by
  unfold URL.setFragment at h
  split at h
  · cases h
  · split at h <;> (cases h; simp)

/-- `url.Parse` parses the text before the first `#` and touches only the fragment
afterwards. -/
theorem Parse_ok (rawURL : GoString) (u1 : URL) (h : Gateway.Parse rawURL = .ok u1) :
    ∃ url, parse (Cut rawURL 35).1 false = .ok url ∧
      u1.Host = url.Host ∧ u1.RawQuery = url.RawQuery ∧ u1.ForceQuery = url.ForceQuery ∧
      u1.Scheme = url.Scheme ∧ u1.User = url.User ∧ u1.Opaque = url.Opaque ∧
      u1.OmitHost = url.OmitHost ∧ u1.Path = url.Path ∧ u1.RawPath = url.RawPath := by
  unfold Gateway.Parse at h
  cases hp : parse (Cut rawURL 35).1 false with
  | error err => simp [hp] at h
  | ok url =>
    simp only [hp] at h
    split at h
    · cases h
      exact ⟨u1, rfl, rfl, rfl, rfl, rfl, rfl, rfl, rfl, rfl, rfl⟩
    · cases hf : url.setFragment (Cut rawURL 35).2.1 with
      | error err => simp [hf] at h
      | ok u2 =>
        simp only [hf] at h
        cases h
        exact ⟨url, rfl, setFragment_ok _ _ _ hf⟩

/-- The text before the first `#`, when the byte does not occur before a part that is
empty or starts with it. -/
theorem Cut_fst_append (a f : GoString) (sep : Nat) (ha : sep ∉ a)
    (hf : f = [] ∨ ∃ t, f = sep :: t) : (Cut (a ++ f) sep).1 = a := by
  rcases hf with hf | ⟨t, hf⟩
  · subst hf; simp [Cut_none a sep ha]
  · subst hf; simp [Cut_of_not_mem a t sep ha]

/-- `strings.HasSuffix` for a one-byte suffix. -/
theorem HasSuffix_singleton (s : GoString) (c : Nat) :
    HasSuffix s [c] = true ↔ ∃ t, s = t ++ [c] := by
  unfold HasSuffix
  rw [List.isPrefixOf_iff_prefix]
  simp only [List.reverse_cons, List.reverse_nil, List.nil_append]
  constructor
  · rintro ⟨t, ht⟩
    refine ⟨t.reverse, ?_⟩
    have := congrArg List.reverse ht
    simpa using this.symm
  · rintro ⟨t, ht⟩
    exact ⟨t.reverse, by simp [ht]⟩

/-- The split `url.parse` makes at the query: for a text without `?` followed by the
query part `(*URL).String` writes, the text is what remains and the query is found
again. -/
theorem query_split (core Q : GoString) (fq : Bool) (hc : 63 ∉ core) (hQ : 63 ∉ Q) :
    (if HasSuffix (core ++ (if fq = true ∨ Q ≠ [] then 63 :: Q else [])) [63] = true ∧
        (core ++ (if fq = true ∨ Q ≠ [] then 63 :: Q else [])).count 63 = 1
      then (core ++ (if fq = true ∨ Q ≠ [] then 63 :: Q else [])).dropLast
      else (Cut (core ++ (if fq = true ∨ Q ≠ [] then 63 :: Q else [])) 63).1) = core ∧
    (if HasSuffix (core ++ (if fq = true ∨ Q ≠ [] then 63 :: Q else [])) [63] = true ∧
        (core ++ (if fq = true ∨ Q ≠ [] then 63 :: Q else [])).count 63 = 1
      then ([] : GoString)
      else (Cut (core ++ (if fq = true ∨ Q ≠ [] then 63 :: Q else [])) 63).2.1) = Q := by
  by_cases hq : fq = true ∨ Q ≠ []
  · rw [if_pos hq]
    by_cases hQe : Q = []
    · subst hQe
      have h1 : HasSuffix (core ++ [63]) [63] = true :=
        (HasSuffix_singleton _ _).mpr ⟨core, rfl⟩
      have h2 : (core ++ [63]).count 63 = 1 := by
        rw [List.count_append, List.count_eq_zero_of_not_mem hc]
        simp
      simp [h1, h2]
    · have h1 : ¬ (HasSuffix (core ++ 63 :: Q) [63] = true) := by
        rw [HasSuffix_singleton]
        rintro ⟨t, ht⟩
        have hlast : (core ++ 63 :: Q).getLast? = some 63 := by rw [ht]; simp
        have hQlast : (core ++ 63 :: Q).getLast? = Q.getLast? := by
          rw [List.getLast?_append_of_ne_nil _ (by simp)]
          cases Q with
          | nil => exact absurd rfl hQe
          | cons q Q => simp [List.getLast?_cons_cons]
        rw [hQlast] at hlast
        exact hQ (List.mem_of_getLast?_eq_some hlast)
      simp [h1, Cut_of_not_mem core Q 63 hc]
  · rw [if_neg hq]
    have hQe : Q = [] := by
      by_contra h; exact hq (Or.inr h)
    have h1 : ¬ (HasSuffix (core ++ []) [63] = true) := by
      rw [HasSuffix_singleton]
      rintro ⟨t, ht⟩
      apply hc
      rw [List.append_nil] at ht
      rw [ht]; simp
    simp only [h1, false_and, if_false]
    simp [Cut_none core 63 hc, hQe]
/-- The split `url.parse` makes at the query finds a bare final `?` exactly when the
query part `(*URL).String` wrote is a bare `?`. -/
theorem query_split_force (core Q : GoString) (fq : Bool) (hc : 63 ∉ core) (hQ : 63 ∉ Q) :
    (HasSuffix (core ++ (if fq = true ∨ Q ≠ [] then 63 :: Q else [])) [63] = true ∧
      (core ++ (if fq = true ∨ Q ≠ [] then 63 :: Q else [])).count 63 = 1) ↔
    ((fq = true ∨ Q ≠ []) ∧ Q = []) := by
  by_cases hq : fq = true ∨ Q ≠ []
  · rw [if_pos hq]
    by_cases hQe : Q = []
    · subst hQe
      have h1 : HasSuffix (core ++ [63]) [63] = true :=
        (HasSuffix_singleton _ _).mpr ⟨core, rfl⟩
      have h2 : (core ++ [63]).count 63 = 1 := by
        rw [List.count_append, List.count_eq_zero_of_not_mem hc]
        simp
      simp only [h1, h2, and_self, true_iff]
      exact ⟨hq, trivial⟩
    · have h1 : ¬ (HasSuffix (core ++ 63 :: Q) [63] = true) := by
        rw [HasSuffix_singleton]
        rintro ⟨t, ht⟩
        have hlast : (core ++ 63 :: Q).getLast? = some 63 := by rw [ht]; simp
        have hQlast : (core ++ 63 :: Q).getLast? = Q.getLast? := by
          rw [List.getLast?_append_of_ne_nil _ (by simp)]
          cases Q with
          | nil => exact absurd rfl hQe
          | cons q Q => simp [List.getLast?_cons_cons]
        rw [hQlast] at hlast
        exact hQ (List.mem_of_getLast?_eq_some hlast)
      simp [h1, hQe]
  · rw [if_neg hq]
    have h1 : ¬ (HasSuffix (core ++ []) [63] = true) := by
      rw [HasSuffix_singleton]
      rintro ⟨t, ht⟩
      apply hc
      rw [List.append_nil] at ht
      rw [ht]; simp
    constructor
    · intro h; exact absurd h.1 h1
    · intro h; exact absurd h.1 hq

/-- `url.parse` after the scheme has been split off, for a text that is not `*`. -/
theorem parse_of_getScheme (raw S rest0 : GoString) (url : URL)
    (hscheme : getScheme raw = .ok (S, rest0)) (hstar : raw ≠ [42])
    (hp : parse raw false = .ok url) :
    (if ¬ HasPrefix (if HasSuffix rest0 [63] = true ∧ rest0.count 63 = 1 then rest0.dropLast
          else (Cut rest0 63).1) [47] = true then
        if ToLower S ≠ [] then
          .ok { Scheme := ToLower S,
                ForceQuery := decide (HasSuffix rest0 [63] = true ∧ rest0.count 63 = 1),
                RawQuery := if HasSuffix rest0 [63] = true ∧ rest0.count 63 = 1 then []
                  else (Cut rest0 63).2.1,
                Opaque := if HasSuffix rest0 [63] = true ∧ rest0.count 63 = 1
                  then rest0.dropLast else (Cut rest0 63).1 }
        else if 58 ∈ (Cut (if HasSuffix rest0 [63] = true ∧ rest0.count 63 = 1
            then rest0.dropLast else (Cut rest0 63).1) 47).1 then
          .error (.errorString (str "first path segment in URL cannot contain colon"))
        else parseAuthorityPath
          { Scheme := ToLower S,
            ForceQuery := decide (HasSuffix rest0 [63] = true ∧ rest0.count 63 = 1),
            RawQuery := if HasSuffix rest0 [63] = true ∧ rest0.count 63 = 1 then []
              else (Cut rest0 63).2.1 }
          (if HasSuffix rest0 [63] = true ∧ rest0.count 63 = 1 then rest0.dropLast
            else (Cut rest0 63).1) false
      else parseAuthorityPath
        { Scheme := ToLower S,
          ForceQuery := decide (HasSuffix rest0 [63] = true ∧ rest0.count 63 = 1),
          RawQuery := if HasSuffix rest0 [63] = true ∧ rest0.count 63 = 1 then []
            else (Cut rest0 63).2.1 }
        (if HasSuffix rest0 [63] = true ∧ rest0.count 63 = 1 then rest0.dropLast
          else (Cut rest0 63).1) false) = .ok url := by
  unfold parse at hp
  split at hp
  · cases hp
  · simp only [Bool.false_eq_true, and_false, if_false, hstar, hscheme] at hp
    by_cases hc : HasSuffix rest0 [63] = true ∧ rest0.count 63 = 1
    · simp only [hc, and_self, if_true] at hp ⊢
      simpa using hp
    · simp only [hc, if_false] at hp ⊢
      simpa using hp

/-- `url.parse` on the string form of a URL with a host: the text made of an optional
scheme, `//`, an escaped host `eh`, a path part `tail` that is empty or starts with `/`,
and the query part. The host is parsed from `eh`, the path from `tail`, and the query is
found again. -/
theorem parse_host_form (S eh tail Q : GoString) (fq : Bool) (url : URL)
    (hS : S = [] ∨ isSchemeName S = true) (heh : eh ≠ []) (h47 : 47 ∉ eh) (h63 : 63 ∉ eh)
    (h64 : 64 ∉ eh) (htail : tail = [] ∨ ∃ t, tail = 47 :: t) (ht63 : 63 ∉ tail)
    (hQ63 : 63 ∉ Q)
    (hp : parse ((if S ≠ [] then S ++ [58] else []) ++
      ((47 :: 47 :: (eh ++ tail)) ++ (if fq = true ∨ Q ≠ [] then 63 :: Q else []))) false =
      .ok url) :
    ∃ host url0, parseHost eh = .ok host ∧ URL.setPath url0 tail = .ok url ∧
      url0.Host = host ∧ url0.RawQuery = Q ∧ url0.User = none ∧ url0.Opaque = [] ∧
      url0.Scheme = ToLower S ∧ url.Host = host ∧ url.RawQuery = Q ∧
      (url0.ForceQuery = true ↔ ((fq = true ∨ Q ≠ []) ∧ Q = [])) := by
  have hcore63 : 63 ∉ 47 :: 47 :: (eh ++ tail) := by
    simp only [List.mem_cons, List.mem_append, not_or]
    exact ⟨by omega, by omega, h63, ht63⟩
  have hsplit := query_split (47 :: 47 :: (eh ++ tail)) Q fq hcore63 hQ63
  -- the scheme is split off
  have hscheme : getScheme ((if S ≠ [] then S ++ [58] else []) ++
      ((47 :: 47 :: (eh ++ tail)) ++ (if fq = true ∨ Q ≠ [] then 63 :: Q else []))) =
      .ok (S, (47 :: 47 :: (eh ++ tail)) ++ (if fq = true ∨ Q ≠ [] then 63 :: Q else [])) := by
    rcases hS with hS | hS
    · subst hS
      simp only [ne_eq, not_true_eq_false, if_false, List.nil_append, List.cons_append]
      exact getScheme_slash _
    · have hne : S ≠ [] := by
        intro h; rw [h] at hS; simp [isSchemeName] at hS
      simp only [ne_eq, hne, not_false_eq_true, if_true, List.append_assoc,
        List.singleton_append]
      exact getScheme_scheme S _ hS
  have hstar : (if S ≠ [] then S ++ [58] else []) ++
      ((47 :: 47 :: (eh ++ tail)) ++ (if fq = true ∨ Q ≠ [] then 63 :: Q else [])) ≠ [42] := by
    intro h
    have hm : (47 : Nat) ∈ (if S ≠ [] then S ++ [58] else []) ++
      ((47 :: 47 :: (eh ++ tail)) ++ (if fq = true ∨ Q ≠ [] then 63 :: Q else [])) := by
      simp
    rw [h] at hm
    simp at hm
  have hp := parse_of_getScheme _ S _ url hscheme hstar hp
  rw [hsplit.1, hsplit.2] at hp
  have hpre : HasPrefix (47 :: 47 :: (eh ++ tail)) [47] = true := by
    simp [HasPrefix, List.isPrefixOf]
  simp only [hpre, not_true_eq_false, if_false] at hp
  -- the authority
  unfold parseAuthorityPath at hp
  have hpre2 : HasPrefix (47 :: 47 :: (eh ++ tail)) (str "//") = true := by
    rw [show str "//" = [47, 47] from by decide]
    simp [HasPrefix, List.isPrefixOf]
  have hpre3 : HasPrefix (47 :: 47 :: (eh ++ tail)) (str "///") = false := by
    cases eh with
    | nil => exact absurd rfl heh
    | cons c eh =>
      have hc : c ≠ 47 := fun hc => h47 (by simp [hc])
      rw [show str "///" = [47, 47, 47] from by decide]
      have hc2 : ¬ (47 = c) := fun h => hc h.symm
      simp [HasPrefix, List.isPrefixOf, hc, hc2]
  simp only [hpre2, hpre3, Bool.false_eq_true, not_false_eq_true, and_self, or_true,
    and_true, if_true, List.drop_succ_cons, List.drop_zero] at hp
  have hauth : LastIndexByte eh 64 = none := LastIndexByte_none eh 64 h64
  rcases htail with ht | ⟨t, ht⟩
  · subst ht
    simp only [List.append_nil] at hp
    rw [Index_byte_none eh 47 h47] at hp
    simp only [] at hp
    unfold parseAuthority at hp
    rw [hauth] at hp
    simp only [] at hp
    cases hh : parseHost eh with
    | error err => simp [hh] at hp
    | ok host =>
      simp only [hh] at hp
      have hs := setPath_ok _ _ _ hp
      refine ⟨host, _, rfl, hp, rfl, ?_, rfl, ?_, ?_, hs.1, ?_, ?_⟩
      · rfl
      · rfl
      · rfl
      · rw [hs.2.1]
      · simp only [decide_eq_true_eq]
        have := query_split_force _ Q fq hcore63 hQ63
        simpa using this
  · subst ht
    rw [Index_byte_of_not_mem eh t 47 h47] at hp
    simp only [List.take_left', List.drop_left'] at hp
    unfold parseAuthority at hp
    rw [hauth] at hp
    simp only [] at hp
    cases hh : parseHost eh with
    | error err => simp [hh] at hp
    | ok host =>
      simp only [hh] at hp
      have hs := setPath_ok _ _ _ hp
      refine ⟨host, _, rfl, hp, rfl, ?_, rfl, ?_, ?_, hs.1, ?_, ?_⟩
      · rfl
      · rfl
      · rfl
      · rw [hs.2.1]
      · simp only [decide_eq_true_eq]
        exact query_split_force _ Q fq hcore63 hQ63

/-- The string form of a URL with a host and without opaque part and user information:
the optional scheme, `//`, the escaped host, the escaped path after a `/` of its own if
it does not start with one, the query part and the fragment part. -/
theorem String_of_host (u : URL) (hO : u.Opaque = []) (hU : u.User = none)
    (hOm : u.OmitHost = false) (hH : u.Host ≠ []) :
    ∃ tail, (tail = [] ∨ ∃ t, tail = 47 :: t) ∧ 35 ∉ tail ∧ 63 ∉ tail ∧
      ((u.EscapedPath = [] ∨ ∃ t, u.EscapedPath = 47 :: t) → tail = u.EscapedPath) ∧
      u.String = ((if u.Scheme ≠ [] then u.Scheme ++ [58] else []) ++
        ((47 :: 47 :: (escape u.Host .encodeHost ++ tail)) ++
          (if u.ForceQuery = true ∨ u.RawQuery ≠ [] then 63 :: u.RawQuery else []))) ++
        (if u.Fragment ≠ [] then 35 :: u.EscapedFragment else []) := by
  have hfree := EscapedPath_free u
  have h2 : str "//" = [47, 47] := by decide
  unfold URL.String URL.authorityString
  simp only [hO, hU, hOm, hH, ne_eq, not_true_eq_false, not_false_eq_true, if_false, if_true,
    or_true, true_or, Bool.false_eq_true, false_and, and_true, h2, List.append_nil]
  cases hp : u.EscapedPath with
  | nil =>
    refine ⟨[], Or.inl rfl, by simp, by simp, fun _ => rfl, ?_⟩
    simp
  | cons c p =>
    rw [hp] at hfree
    by_cases hc : c = 47
    · subst hc
      refine ⟨47 :: p, Or.inr ⟨p, rfl⟩, hfree.1, hfree.2, fun _ => rfl, ?_⟩
      simp
    · refine ⟨47 :: c :: p, Or.inr ⟨_, rfl⟩, ?_, ?_, ?_, ?_⟩
      · simp only [List.mem_cons, not_or] at hfree ⊢
        exact ⟨by omega, hfree.1.1, hfree.1.2⟩
      · simp only [List.mem_cons, not_or] at hfree ⊢
        exact ⟨by omega, hfree.2.1, hfree.2.2⟩
      · rintro (h | ⟨t, h⟩)
        · cases h
        · simp only [List.cons.injEq] at h
          exact absurd h.1 hc
      · simp [hc]

/-- Parsing the string form of a URL with a host gives the host and the query back:
for a URL without opaque part and user information, whose scheme is empty or a scheme
name, whose host is a non-empty byte string and whose query holds no `#` and no `?`. -/
theorem Parse_String_host (u u1 : URL) (hO : u.Opaque = []) (hU : u.User = none)
    (hOm : u.OmitHost = false) (hH : u.Host ≠ [])
    (hS : u.Scheme = [] ∨ isSchemeName u.Scheme = true)
    (hQ : 35 ∉ u.RawQuery ∧ 63 ∉ u.RawQuery) (hb : isBytes u.Host)
    (hp : Gateway.Parse u.String = .ok u1) :
    u1.Host = u.Host ∧ u1.RawQuery = u.RawQuery := by
  obtain ⟨tail, htail, ht35, ht63, _, hstr⟩ := String_of_host u hO hU hOm hH
  have heh := escape_host_free u.Host
  have hS35 : 35 ∉ (if u.Scheme ≠ [] then u.Scheme ++ [58] else []) := by
    rcases hS with hS | hS
    · simp [hS]
    · split
      · simp only [List.mem_append, List.mem_singleton, not_or]
        refine ⟨fun hm => ?_, by omega⟩
        have := isSchemeName_bytes _ hS 35 hm
        omega
      · simp
  have hq35 : 35 ∉ (if u.ForceQuery = true ∨ u.RawQuery ≠ [] then 63 :: u.RawQuery else []) := by
    split
    · simp only [List.mem_cons, not_or]
      exact ⟨by omega, hQ.1⟩
    · simp
  have hA : 35 ∉ (if u.Scheme ≠ [] then u.Scheme ++ [58] else []) ++
      ((47 :: 47 :: (escape u.Host .encodeHost ++ tail)) ++
        (if u.ForceQuery = true ∨ u.RawQuery ≠ [] then 63 :: u.RawQuery else [])) := by
    simp only [List.mem_append, List.mem_cons, not_or]
    exact ⟨hS35, ⟨by omega, by omega, heh.1, ht35⟩, hq35⟩
  have hfrag : (if u.Fragment ≠ [] then 35 :: u.EscapedFragment else []) = [] ∨
      ∃ t, (if u.Fragment ≠ [] then 35 :: u.EscapedFragment else []) = 35 :: t := by
    split
    · exact Or.inr ⟨_, rfl⟩
    · exact Or.inl rfl
  obtain ⟨url, hurl, h1, h2, _⟩ := Parse_ok _ _ hp
  rw [hstr, Cut_fst_append _ _ 35 hA hfrag] at hurl
  obtain ⟨host, url0, hhost, _, _, _, _, _, _, h3, h4, _⟩ :=
    parse_host_form u.Scheme (escape u.Host .encodeHost) tail u.RawQuery u.ForceQuery url hS
      (escape_ne_nil _ _ hH) heh.2.1 heh.2.2.1 heh.2.2.2 htail ht63 hQ.2 hurl
  rw [h1, h2, h3, h4]
  exact ⟨parseHost_escape u.Host hb host hhost, rfl⟩

/-! ## The URL `NewRequest` builds -/

/-- `parseAuthorityPath` keeps an empty opaque part, and sets `OmitHost` only for a URL
with a scheme. -/
theorem parseAuthorityPath_noScheme (u0 url : URL) (r : GoString) (h1 : u0.Opaque = [])
    (h2 : u0.OmitHost = false) (hp : parseAuthorityPath u0 r false = .ok url)
    (hs : url.Scheme = []) : url.Opaque = [] ∧ url.OmitHost = false := by
  unfold parseAuthorityPath at hp
  split at hp
  · simp only [] at hp
    split at hp
    · split at hp
      · cases hp
      · have := setPath_ok _ _ _ hp
        exact ⟨by rw [this.2.2.2.2.2.1]; exact h1, by rw [this.2.2.2.2.2.2.1]; exact h2⟩
    · split at hp
      · cases hp
      · have := setPath_ok _ _ _ hp
        exact ⟨by rw [this.2.2.2.2.2.1]; exact h1, by rw [this.2.2.2.2.2.2.1]; exact h2⟩
  · split at hp
    · rename_i hne
      have := setPath_ok _ _ _ hp
      rw [this.2.2.2.1] at hs
      exact absurd hs hne.1
    · have := setPath_ok _ _ _ hp
      exact ⟨by rw [this.2.2.2.2.2.1]; exact h1, by rw [this.2.2.2.2.2.2.1]; exact h2⟩

/-- A parsed URL without scheme has no opaque part and does not omit its host. -/
theorem parse_noScheme (raw : GoString) (url : URL) (h : parse raw false = .ok url)
    (hs : url.Scheme = []) : url.Opaque = [] ∧ url.OmitHost = false := by
  by_cases hstar : raw = [42]
  · subst hstar
    have : parse [42] false = .ok { Path := [42] } := by decide
    rw [this] at h
    cases h
    exact ⟨rfl, rfl⟩
  · cases hg : getScheme raw with
    | error err =>
      unfold parse at h
      split at h
      · cases h
      · simp [hstar, hg] at h
    | ok p =>
      obtain ⟨S, rest0⟩ := p
      have h2 := parse_of_getScheme raw S rest0 url hg hstar h
      generalize (if HasSuffix rest0 [63] = true ∧ rest0.count 63 = 1 then rest0.dropLast
        else (Cut rest0 63).1) = rest at h2
      generalize (if HasSuffix rest0 [63] = true ∧ rest0.count 63 = 1 then ([] : GoString)
        else (Cut rest0 63).2.1) = rq at h2
      generalize decide (HasSuffix rest0 [63] = true ∧ rest0.count 63 = 1) = fqb at h2
      split at h2
      · split at h2
        · rename_i hne
          cases h2
          exact absurd hs hne
        · split at h2
          · cases h2
          · exact parseAuthorityPath_noScheme _ url _ rfl rfl h2 hs
      · exact parseAuthorityPath_noScheme _ url _ rfl rfl h2 hs

/-- A URL reference without scheme, parsed by `url.Parse`, has no opaque part and does
not omit its host. -/
theorem Parse_noScheme (raw : GoString) (ref : URL) (h : Gateway.Parse raw = .ok ref)
    (hs : ref.Scheme = []) : ref.Opaque = [] ∧ ref.OmitHost = false := by
  obtain ⟨url, hurl, _, _, _, h4, _, h6, h7, _⟩ := Parse_ok raw ref h
  rw [h6, h7]
  exact parse_noScheme _ url hurl (h4 ▸ hs)

/-- The assignment of a path whose error is ignored changes nothing but the path. -/
theorem setPathIgnoringError_fields (u : URL) (p : GoString) :
    (u.setPathIgnoringError p).Host = u.Host ∧ (u.setPathIgnoringError p).Scheme = u.Scheme ∧
    (u.setPathIgnoringError p).User = u.User ∧ (u.setPathIgnoringError p).Opaque = u.Opaque ∧
    (u.setPathIgnoringError p).OmitHost = u.OmitHost ∧
    (u.setPathIgnoringError p).RawQuery = u.RawQuery ∧
    (u.setPathIgnoringError p).ForceQuery = u.ForceQuery := by
  unfold URL.setPathIgnoringError
  cases h : u.setPath p with
  | error err => simp
  | ok u1 =>
    have := setPath_ok _ _ _ h
    simp only []
    exact ⟨this.1, this.2.2.2.1, this.2.2.2.2.1, this.2.2.2.2.2.1, this.2.2.2.2.2.2.1, this.2.1,
      this.2.2.1⟩

/-- The host the source computes is the host as the specification words it. -/
theorem specHost_eq (ctx : Context) (e : APIGatewayProxyRequest) :
    specHost ctx e =
      if Header.Get (mergeValues e.Headers e.MultiValueHeaders) (str "Host") = [] then
        getHost ctx
      else Header.Get (mergeValues e.Headers e.MultiValueHeaders) (str "Host") := by
  have hc : CanonicalMIMEHeaderKey (str "Host") = str "Host" := by decide
  unfold specHost Header.Get
  rw [hc]
  cases GoMap.get (mergeValues e.Headers e.MultiValueHeaders) (str "Host") with
  | none => simp
  | some vs =>
    cases vs with
    | nil => simp
    | cons v vs => simp

/-- The URL `NewRequest` builds from an event whose path, parsed as a URL reference, has
no scheme, no host and no user information: its scheme is the `X-Forwarded-Proto`
header, its host the header-supplied or fallback host, and it has no opaque part and no
user information. -/
theorem requestURL_fields (ctx : Context) (e : APIGatewayProxyRequest) (u ref : URL)
    (hu : requestURL ctx e = .ok u) (href : Gateway.Parse e.Path = .ok ref)
    (hs : ref.Scheme = []) (hh : ref.Host = []) (hus : ref.User = none) :
    u.Scheme = Header.Get (mergeValues e.Headers e.MultiValueHeaders)
      (str "X-Forwarded-Proto") ∧
    u.Host = specHost ctx e ∧ u.Opaque = [] ∧ u.User = none ∧ u.OmitHost = false := by
  obtain ⟨hO, hOm⟩ := Parse_noScheme _ _ href hs
  rw [specHost_eq]
  unfold requestURL URL.Parse at hu
  simp only [href] at hu
  cases hu
  unfold URL.ResolveReference
  simp only [hs, hh, hus, hO, ne_eq, not_true_eq_false, or_self, if_false, if_true, and_false]
  have hf := setPathIgnoringError_fields
  refine ⟨?_, ?_, ?_, ?_, ?_⟩
  · simp only [(hf _ _).2.1]; split <;> (try split) <;> rfl
  · simp only [(hf _ _).1]
  · simp only [(hf _ _).2.2.2.1]; split <;> (try split) <;> simp [hO]
  · simp only [(hf _ _).2.2.1]
  · simp only [(hf _ _).2.2.2.2.1]; split <;> (try split) <;> simp [hOm]

/-- A byte of a join is the separator or a byte of a piece. -/
theorem mem_intercalate (l : List GoString) (x : Nat) (hx : x ∈ [38].intercalate l) :
    x = 38 ∨ ∃ p ∈ l, x ∈ p := by
  induction l with
  | nil => simp [List.intercalate] at hx
  | cons a l ih =>
    cases l with
    | nil =>
      simp [List.intercalate] at hx
      exact Or.inr ⟨a, by simp, hx⟩
    | cons b l =>
      have hform : [38].intercalate (a :: b :: l) = a ++ 38 :: [38].intercalate (b :: l) := by
        simp [List.intercalate]
      rw [hform] at hx
      simp only [List.mem_append, List.mem_cons] at hx
      rcases hx with hx | hx | hx
      · exact Or.inr ⟨a, by simp, hx⟩
      · exact Or.inl hx
      · rcases ih hx with h | ⟨p, hp, hxp⟩
        · exact Or.inl h
        · exact Or.inr ⟨p, List.mem_cons_of_mem a hp, hxp⟩

/-- The encoded query holds no `#` and no `?`. -/
theorem Encode_free (v : Values) : 35 ∉ Values.Encode v ∧ 63 ∉ Values.Encode v := by
  rw [Encode_eq_specEncode]
  unfold specEncode
  have key : ∀ x, x ≠ 38 → x ≠ 61 → x ∉ QueryEscape [] → (∀ s, x ∉ QueryEscape s) →
      x ∉ [38].intercalate ((sortStrings v.keys).flatMap fun k =>
        ((v.get k).getD []).map fun val => QueryEscape k ++ [61] ++ QueryEscape val) := by
    intro x h38 h61 _ hfree hx
    rcases mem_intercalate _ x hx with h | ⟨p, hp, hxp⟩
    · exact h38 h
    · simp only [List.mem_flatMap, List.mem_map] at hp
      obtain ⟨k, _, val, _, rfl⟩ := hp
      simp only [List.mem_append, List.mem_singleton] at hxp
      rcases hxp with (h | h) | h
      · exact hfree k h
      · exact h61 h
      · exact hfree val h
  exact ⟨key 35 (by omega) (by omega) (QueryEscape_free []).2.2.2.1
      (fun s => (QueryEscape_free s).2.2.2.1),
    key 63 (by omega) (by omega) (QueryEscape_free []).2.2.2.2
      (fun s => (QueryEscape_free s).2.2.2.2)⟩

/-! ## The request target -/

/-- The escaped path depends on the path fields only. -/
theorem EscapedPath_congr (a b : URL) (h1 : a.Path = b.Path) (h2 : a.RawPath = b.RawPath) :
    a.EscapedPath = b.EscapedPath := by
  unfold URL.EscapedPath
  rw [h1, h2]

/-- A successful `setPath` has unescaped its argument. -/
theorem setPath_unescape (v url : URL) (t : GoString) (h : v.setPath t = .ok url) :
    ∃ p, unescape t .encodePath = .ok p ∧ url.Path = p ∧
      url.RawPath = (if t = escape p .encodePath then [] else t) := by
  unfold URL.setPath at h
  cases hu : unescape t .encodePath with
  | error err => simp [hu] at h
  | ok p =>
    simp only [hu] at h
    refine ⟨p, rfl, ?_, ?_⟩
    · split at h <;> (cases h; rfl)
    · split at h
      · rename_i hc; cases h; simp [hc]
      · rename_i hc; cases h; simp [hc]

/-- A path that was escaped and can be unescaped is a valid encoding. -/
theorem validEncoded_escape (s : GoString) (t : GoString)
    (h : unescape (escape s .encodePath) .encodePath = .ok t) :
    validEncoded (escape s .encodePath) .encodePath = true := by
  induction s generalizing t with
  | nil => simp [escape, validEncoded]
  | cons c s ih =>
    simp only [escape] at h ⊢
    unfold escapeByte at h ⊢
    have hmode : ¬ (c = 32 ∧ encoding.encodePath = encoding.encodeQueryComponent) := by
      simp
    rw [if_neg hmode] at h ⊢
    by_cases hesc : shouldEscape c .encodePath = true
    · rw [if_pos hesc] at h ⊢
      simp only [List.cons_append, List.nil_append, unescape_cons_pct] at h
      split at h
      · cases h
      · rename_i hhex
        simp only [not_not] at hhex
        have hv : ∀ x, ishex x = true → shouldEscape x .encodePath = false := by
          intro x hx
          have ha : isAlnum x = true := by
            simp only [ishex, isAlnum, Bool.decide_or, Bool.decide_and, Bool.or_eq_true,
              Bool.and_eq_true, decide_eq_true_eq] at hx ⊢
            omega
          simp [shouldEscape, ha]
        split at h
        · cases h
        · split at h
          · cases h
          · cases hr : unescape (escape s .encodePath) .encodePath with
            | error err => simp [hr] at h
            | ok t2 =>
              have := ih t2 hr
              simp only [validEncoded, List.all_cons, List.cons_append, List.nil_append,
                Bool.and_eq_true] at this ⊢
              refine ⟨by decide, ?_, ?_, this⟩
              · rw [hv _ hhex.1]; split <;> (try split) <;> (try split) <;> simp
              · rw [hv _ hhex.2]; split <;> (try split) <;> (try split) <;> simp
    · rw [if_neg hesc] at h ⊢
      have hrest : ∃ t2, unescape (escape s .encodePath) .encodePath = .ok t2 := by
        simp only [List.singleton_append] at h
        by_cases h43 : c = 43
        · subst h43
          rw [unescape_cons_plus] at h
          cases hr : unescape (escape s .encodePath) .encodePath with
          | error err => simp [hr] at h
          | ok t2 => exact ⟨t2, rfl⟩
        · have h37 : c ≠ 37 := by
            intro h37
            rw [h37, shouldEscape_percent] at hesc
            exact hesc rfl
          rw [unescape_cons_plain _ _ _ h37 h43] at h
          split at h
          · cases h
          · cases hr : unescape (escape s .encodePath) .encodePath with
            | error err => simp [hr] at h
            | ok t2 => exact ⟨t2, rfl⟩
      obtain ⟨t2, hr⟩ := hrest
      have := ih t2 hr
      simp only [validEncoded, List.all_cons, List.singleton_append, Bool.and_eq_true] at this ⊢
      refine ⟨?_, this⟩
      have : shouldEscape c .encodePath = false := by simpa using hesc
      rw [this]; split <;> (try split) <;> (try split) <;> simp

/-- The escaped path of a URL is a valid encoding, when it can be unescaped. -/
theorem validEncoded_EscapedPath (u : URL) (t : GoString)
    (h : unescape u.EscapedPath .encodePath = .ok t) :
    validEncoded u.EscapedPath .encodePath = true := by
  unfold URL.EscapedPath at h ⊢
  split
  · rename_i hc; exact hc.2.1
  · rename_i hc
    rw [if_neg hc] at h
    split
    · decide
    · rename_i hs
      rw [if_neg hs] at h
      exact validEncoded_escape _ t h

/-- After `setPath` on a valid encoding that is empty or starts with `/`, the escaped
path is that encoding. -/
theorem setPath_EscapedPath (v url : URL) (t : GoString) (h : v.setPath t = .ok url)
    (hv : validEncoded t .encodePath = true) (hshape : t = [] ∨ ∃ r, t = 47 :: r) :
    url.EscapedPath = t := by
  obtain ⟨p, hu, hP, hR⟩ := setPath_unescape v url t h
  unfold URL.EscapedPath
  rw [hP, hR]
  by_cases hc : t = escape p .encodePath
  · have hstar : p ≠ [42] := by
      intro hp
      rw [hp] at hc
      have : escape [42] .encodePath = [37, 50, 65] := by decide
      rw [this] at hc
      rcases hshape with h1 | ⟨r, h1⟩ <;> (rw [h1] at hc; cases hc)
    rw [if_pos hc, if_neg (by simp), if_neg hstar]
    exact hc.symm
  · have hne : t ≠ [] := by
      intro ht
      apply hc
      rw [ht] at hu
      rw [unescape_nil] at hu
      cases hu
      rw [ht]; rfl
    rw [if_neg hc, if_pos ⟨hne, hv, hu⟩]

/-- One turn of the loop of `resolvePath` keeps the initial `/` of the builder. -/
theorem resolveStep_head (st : GoString × Bool) (elem : GoString) (h : ∃ r, st.1 = 47 :: r) :
    ∃ r, (resolveStep st elem).1 = 47 :: r := by
  obtain ⟨dst, first⟩ := st
  obtain ⟨r, hr⟩ := h
  simp only at hr
  subst hr
  unfold resolveStep
  simp only
  split
  · exact ⟨r, rfl⟩
  · split
    · split
      · exact ⟨[], rfl⟩
      · exact ⟨_, rfl⟩
    · cases first
      · exact ⟨_, rfl⟩
      · exact ⟨_, rfl⟩

/-- The loop of `resolvePath` keeps the initial `/` of the builder. -/
theorem foldl_resolveStep_head (elems : List GoString) (st : GoString × Bool)
    (h : ∃ r, st.1 = 47 :: r) : ∃ r, (elems.foldl resolveStep st).1 = 47 :: r := by
  induction elems generalizing st with
  | nil => exact h
  | cons a l ih => exact ih _ (resolveStep_head st a h)

/-- A resolved path is empty or starts with `/`. -/
theorem resolvePath_shape (base ref : GoString) :
    resolvePath base ref = [] ∨ ∃ r, resolvePath base ref = 47 :: r := by
  have key := fun elems => foldl_resolveStep_head elems ([47], true) ⟨[], rfl⟩
  unfold resolvePath
  simp only []
  split
  · exact Or.inl rfl
  · right
    split
    · exact ⟨_, rfl⟩
    · split
      · exact (key _).elim fun r hr => ⟨r ++ [47], by rw [hr]; rfl⟩
      · exact key _

/-- A path resolved against the base path `/` is not empty. -/
theorem resolvePath_ne_nil (ref : GoString) : resolvePath [47] ref ≠ [] := by
  have key := fun elems => foldl_resolveStep_head elems ([47], true) ⟨[], rfl⟩
  intro h
  unfold resolvePath at h
  simp only [] at h
  split at h
  · rename_i hfull
    cases ref with
    | nil => simp at hfull
    | cons c t =>
      have hl : LastIndexByte [47] 47 = some 0 := by decide
      simp only [hl] at hfull
      split at hfull <;> simp at hfull
  · split at h
    · cases h
    · split at h
      · simp at h
      · obtain ⟨r, hr⟩ := key _
        rw [hr] at h
        cases h

/-- A path resolved against the base path `/` starts with `/`. -/
theorem resolvePath_slash (ref : GoString) : ∃ r, resolvePath [47] ref = 47 :: r := by
  rcases resolvePath_shape [47] ref with h | h
  · exact absurd h (resolvePath_ne_nil ref)
  · exact h

/-- Unescaping a path that starts with `/` gives a path that starts with `/`. -/
theorem unescape_slash (r p : GoString) (h : unescape (47 :: r) .encodePath = .ok p) :
    ∃ q, p = 47 :: q := by
  rw [unescape_cons_plain 47 r .encodePath (by decide) (by decide)] at h
  rw [if_neg (by simp)] at h
  cases hr : unescape r .encodePath with
  | error err => simp [hr] at h
  | ok q =>
    simp only [hr] at h
    cases h
    exact ⟨q, rfl⟩

/-- After `setPath` on a text that starts with `/`, the escaped path starts with `/`. -/
theorem setPath_slash (v url : URL) (t : GoString) (h : v.setPath (47 :: t) = .ok url) :
    ∃ r, url.EscapedPath = 47 :: r := by
  obtain ⟨p, hu, hP, hR⟩ := setPath_unescape v url _ h
  obtain ⟨q, hq⟩ := unescape_slash t p hu
  subst hq
  have hesc : escape (47 :: q) .encodePath = 47 :: escape q .encodePath := rfl
  unfold URL.EscapedPath
  rw [hP, hR]
  by_cases hc : 47 :: t = escape (47 :: q) .encodePath
  · rw [if_pos hc, if_neg (by simp), if_neg (by simp), hesc]
    exact ⟨_, rfl⟩
  · rw [if_neg hc]
    split
    · exact ⟨_, rfl⟩
    · rw [if_neg (by simp), hesc]
      exact ⟨_, rfl⟩

/-- `strings.HasPrefix` for a one-byte prefix. -/
theorem HasPrefix_singleton (s : GoString) (c : Nat) :
    HasPrefix s [c] = true ↔ ∃ t, s = c :: t := by
  cases s with
  | nil => simp [HasPrefix, List.isPrefixOf]
  | cons a t =>
    simp only [HasPrefix, List.isPrefixOf, Bool.and_true, beq_iff_eq, List.cons.injEq,
      exists_eq_right']
    exact eq_comm

/-- The path of the URL `NewRequest` builds from an event whose path, parsed as a URL
reference, has no scheme, no host, no user information and an escaped path that is
empty or starts with `/`: the escaped path starts with `/`, and a final bare `?` of the
event path is kept. -/
theorem requestURL_path (ctx : Context) (e : APIGatewayProxyRequest) (u ref : URL)
    (hu : requestURL ctx e = .ok u) (href : Gateway.Parse e.Path = .ok ref)
    (hs : ref.Scheme = []) (hh : ref.Host = []) (hus : ref.User = none)
    (hpath : ref.EscapedPath = [] ∨ HasPrefix ref.EscapedPath [47] = true) :
    (∃ t, u.EscapedPath = 47 :: t) ∧ u.ForceQuery = ref.ForceQuery := by
  obtain ⟨hO, hOm⟩ := Parse_noScheme _ _ href hs
  have hbase : ∀ s h : GoString,
      URL.EscapedPath { Scheme := s, Host := h, Path := str "/" } = [47] := by
    intro s h
    rfl
  unfold requestURL URL.Parse at hu
  simp only [href] at hu
  cases hu
  unfold URL.ResolveReference
  simp only [hs, hh, hus, hO, ne_eq, not_true_eq_false, or_self, if_false, if_true, and_false,
    hbase]
  have hf := setPathIgnoringError_fields
  refine ⟨?_, ?_⟩
  · obtain ⟨r, hr⟩ := resolvePath_slash ref.EscapedPath
    rw [hr]
    unfold URL.setPathIgnoringError
    split
    · rename_i url hsp
      obtain ⟨t, ht⟩ := setPath_slash _ _ _ hsp
      exact ⟨t, by rw [← ht]; exact EscapedPath_congr _ _ rfl rfl⟩
    · rename_i err hsp
      rcases hpath with hp | hp
      · exfalso
        rw [hp] at hr
        have h1 : resolvePath [47] [] = [47] := by decide
        rw [h1] at hr
        cases hr
        unfold URL.setPath at hsp
        have h2 : unescape [47] .encodePath = .ok [47] := by decide
        simp only [h2] at hsp
        split at hsp <;> cases hsp
      · obtain ⟨t, ht⟩ := (HasPrefix_singleton _ _).1 hp
        refine ⟨t, ?_⟩
        rw [← ht]
        apply EscapedPath_congr
        · split <;> (try split) <;> rfl
        · split <;> (try split) <;> rfl
  · simp only [(hf _ _).2.2.2.2.2.2]
    split <;> (try split) <;> rfl

/-- Reading back the text of a URL with a host, without user information and with an
escaped path that is empty or starts with `/` gives a URL with the same path+query
form. -/
theorem Parse_String_requestURI (u u1 : URL) (hO : u.Opaque = []) (hU : u.User = none)
    (hOm : u.OmitHost = false) (hH : u.Host ≠ [])
    (hS : u.Scheme = [] ∨ isSchemeName u.Scheme = true)
    (hQ : 35 ∉ u.RawQuery ∧ 63 ∉ u.RawQuery)
    (hpath : u.EscapedPath = [] ∨ ∃ t, u.EscapedPath = 47 :: t)
    (hp : Gateway.Parse u.String = .ok u1) :
    u1.Opaque = [] ∧ u1.EscapedPath = u.EscapedPath ∧ u1.RawQuery = u.RawQuery ∧
      (u1.ForceQuery = true ↔ u.ForceQuery = true ∧ u.RawQuery = []) ∧
      u1.RequestURI = u.RequestURI := by
  obtain ⟨tail, htail, ht35, ht63, hte, hstr⟩ := String_of_host u hO hU hOm hH
  have hte := hte hpath
  subst hte
  have heh := escape_host_free u.Host
  have hS35 : 35 ∉ (if u.Scheme ≠ [] then u.Scheme ++ [58] else []) := by
    rcases hS with hS | hS
    · simp [hS]
    · split
      · simp only [List.mem_append, List.mem_singleton, not_or]
        refine ⟨fun hm => ?_, by omega⟩
        have := isSchemeName_bytes _ hS 35 hm
        omega
      · simp
  have hq35 : 35 ∉ (if u.ForceQuery = true ∨ u.RawQuery ≠ [] then 63 :: u.RawQuery else []) := by
    split
    · simp only [List.mem_cons, not_or]
      exact ⟨by omega, hQ.1⟩
    · simp
  have hA : 35 ∉ (if u.Scheme ≠ [] then u.Scheme ++ [58] else []) ++
      ((47 :: 47 :: (escape u.Host .encodeHost ++ u.EscapedPath)) ++
        (if u.ForceQuery = true ∨ u.RawQuery ≠ [] then 63 :: u.RawQuery else [])) := by
    simp only [List.mem_append, List.mem_cons, not_or]
    exact ⟨hS35, ⟨by omega, by omega, heh.1, ht35⟩, hq35⟩
  have hfrag : (if u.Fragment ≠ [] then 35 :: u.EscapedFragment else []) = [] ∨
      ∃ t, (if u.Fragment ≠ [] then 35 :: u.EscapedFragment else []) = 35 :: t := by
    split
    · exact Or.inr ⟨_, rfl⟩
    · exact Or.inl rfl
  obtain ⟨url, hurl, h1, h2, h3, _, _, h6, _, h8, h9⟩ := Parse_ok _ _ hp
  rw [hstr, Cut_fst_append _ _ 35 hA hfrag] at hurl
  obtain ⟨host, url0, hhost, hset, _, hq0, _, ho0, _, _, h4, hfq⟩ :=
    parse_host_form u.Scheme (escape u.Host .encodeHost) u.EscapedPath u.RawQuery u.ForceQuery
      url hS (escape_ne_nil _ _ hH) heh.2.1 heh.2.2.1 heh.2.2.2 htail ht63 hQ.2 hurl
  obtain ⟨p, hun, _, _⟩ := setPath_unescape _ _ _ hset
  have hval := validEncoded_EscapedPath u p hun
  have hesc := setPath_EscapedPath _ _ _ hset hval hpath
  have hsok := setPath_ok _ _ _ hset
  have hE : u1.EscapedPath = u.EscapedPath := by
    rw [← hesc]
    exact EscapedPath_congr _ _ h8 h9
  have hOp : u1.Opaque = [] := by rw [h6, hsok.2.2.2.2.2.1, ho0]
  have hRQ : u1.RawQuery = u.RawQuery := by rw [h2, h4]
  have hFQ : u1.ForceQuery = true ↔ u.ForceQuery = true ∧ u.RawQuery = [] := by
    rw [h3, hsok.2.2.1, hfq]
    constructor
    · rintro ⟨ha, hb⟩
      rcases ha with ha | ha
      · exact ⟨ha, hb⟩
      · exact absurd hb ha
    · rintro ⟨ha, hb⟩
      exact ⟨Or.inl ha, hb⟩
  refine ⟨hOp, hE, hRQ, hFQ, ?_⟩
  unfold URL.RequestURI
  simp only [hOp, hO, hE, hRQ, if_true]
  by_cases hq : u.RawQuery = []
  · have : u1.ForceQuery = u.ForceQuery := by
      cases h : u.ForceQuery
      · cases h' : u1.ForceQuery
        · rfl
        · have := (hFQ.1 h').1
          rw [h] at this
          cases this
      · exact hFQ.2 ⟨h, hq⟩
    rw [this]
  · simp [hq]

/-- `url.parse` on the string form of a URL without host whose path starts with `/`:
the text made of an optional scheme with `//`, a path part `tail` that starts with `/`,
and the query part, where without scheme the path part does not start with `//`. No
host is found, the path is parsed from `tail`, and the query is found again. -/
theorem parse_path_form (S tail t Q : GoString) (fq : Bool) (url : URL)
    (hS : S = [] ∨ isSchemeName S = true) (htail : tail = 47 :: t) (ht63 : 63 ∉ tail)
    (hQ63 : 63 ∉ Q) (hC : S ≠ [] ∨ HasPrefix tail (str "//") = false)
    (hp : parse ((if S ≠ [] then S ++ 58 :: [47, 47] else []) ++
      (tail ++ (if fq = true ∨ Q ≠ [] then 63 :: Q else []))) false = .ok url) :
    ∃ url0, URL.setPath url0 tail = .ok url ∧ url0.Host = [] ∧ url0.RawQuery = Q ∧
      url0.Opaque = [] ∧ (url0.ForceQuery = true ↔ ((fq = true ∨ Q ≠ []) ∧ Q = [])) := by
  subst htail
  have h2 : str "//" = [47, 47] := by decide
  by_cases hne : S = []
  · subst hne
    have hC : HasPrefix (47 :: t) (str "//") = false := by
      rcases hC with h | h
      · exact absurd rfl h
      · exact h
    simp only [ne_eq, not_true_eq_false, if_false, List.nil_append, List.cons_append] at hp
    have hsplit := query_split (47 :: t) Q fq ht63 hQ63
    have hstar : 47 :: (t ++ if fq = true ∨ Q ≠ [] then 63 :: Q else []) ≠ [42] := by
      intro h
      cases h
    have hp := parse_of_getScheme _ [] _ url (getScheme_slash _) hstar hp
    rw [← List.cons_append] at hp
    rw [hsplit.1, hsplit.2] at hp
    have hpre : HasPrefix (47 :: t) [47] = true := by
      simp [HasPrefix, List.isPrefixOf]
    simp only [hpre, not_true_eq_false, if_false] at hp
    unfold parseAuthorityPath at hp
    have hl : ToLower [] = [] := rfl
    simp only [hC, hl, ne_eq, not_true_eq_false, Bool.false_eq_true, and_false, false_and,
      if_false] at hp
    refine ⟨_, hp, rfl, rfl, rfl, ?_⟩
    simp only [decide_eq_true_eq]
    exact query_split_force _ Q fq ht63 hQ63
  · have hS : isSchemeName S = true := by
      rcases hS with h | h
      · exact absurd h hne
      · exact h
    have hcore63 : 63 ∉ 47 :: 47 :: 47 :: t := by
      simp only [List.mem_cons, not_or] at ht63 ⊢
      exact ⟨by omega, by omega, ht63⟩
    have hsplit := query_split (47 :: 47 :: 47 :: t) Q fq hcore63 hQ63
    have hraw : (if S ≠ [] then S ++ 58 :: [47, 47] else []) ++
        (47 :: t ++ if fq = true ∨ Q ≠ [] then 63 :: Q else []) =
        S ++ 58 :: ((47 :: 47 :: 47 :: t) ++ if fq = true ∨ Q ≠ [] then 63 :: Q else []) := by
      simp [hne]
    rw [hraw] at hp
    have hstar : S ++ 58 :: ((47 :: 47 :: 47 :: t) ++
        if fq = true ∨ Q ≠ [] then 63 :: Q else []) ≠ [42] := by
      intro h
      have hm : (47 : Nat) ∈ S ++ 58 :: ((47 :: 47 :: 47 :: t) ++
          if fq = true ∨ Q ≠ [] then 63 :: Q else []) := by
        simp
      rw [h] at hm
      simp at hm
    have hp := parse_of_getScheme _ S _ url (getScheme_scheme S _ hS) hstar hp
    rw [hsplit.1, hsplit.2] at hp
    have hpre : HasPrefix (47 :: 47 :: 47 :: t) [47] = true := by
      simp [HasPrefix, List.isPrefixOf]
    simp only [hpre, not_true_eq_false, if_false] at hp
    unfold parseAuthorityPath at hp
    have hpre2 : HasPrefix (47 :: 47 :: 47 :: t) (str "//") = true := by
      rw [h2]
      simp [HasPrefix, List.isPrefixOf]
    have hl : ToLower S ≠ [] := by
      unfold ToLower
      simpa using hne
    have hidx : Index (47 :: t) [47] = some 0 := by
      simp [Index, List.isPrefixOf]
    have hauth : parseAuthority [] = .ok (none, []) := by decide
    simp only [hpre2, hl, ne_eq, not_false_eq_true, true_or, and_self, if_true,
      List.drop_succ_cons, List.drop_zero, hidx, List.take_zero, hauth] at hp
    refine ⟨_, hp, rfl, rfl, rfl, ?_⟩
    simp only [decide_eq_true_eq]
    exact query_split_force _ Q fq hcore63 hQ63

/-- Unescaping gives the empty string only for the empty string. -/
theorem unescape_eq_nil (s : GoString) (m : encoding) (h : unescape s m = .ok []) : s = [] := by
  cases s with
  | nil => rfl
  | cons c rest =>
    exfalso
    by_cases h37 : c = 37
    · subst h37
      match rest, h with
      | [], h => simp [unescape] at h
      | [a], h => simp [unescape] at h
      | a :: b :: rest2, h =>
        rw [unescape_cons_pct] at h
        split at h
        · cases h
        · split at h
          · cases h
          · split at h
            · cases h
            · split at h <;> cases h
    · by_cases h43 : c = 43
      · subst h43
        rw [unescape_cons_plus] at h
        split at h <;> cases h
      · rw [unescape_cons_plain c rest m h37 h43] at h
        split at h
        · cases h
        · split at h <;> cases h

/-- A URL whose escaped path is not empty has a path. -/
theorem Path_ne_nil (u : URL) (h : u.EscapedPath ≠ []) : u.Path ≠ [] := by
  intro hp
  apply h
  unfold URL.EscapedPath
  rw [hp]
  split
  · rename_i hc
    exact absurd (unescape_eq_nil _ _ hc.2.2) hc.1
  · rfl

/-- The string form of a URL without host, opaque part and user information whose
escaped path starts with `/`: the optional scheme with `//`, the escaped path, the
query part and the fragment part. -/
theorem String_of_path (u : URL) (t : GoString) (hO : u.Opaque = []) (hU : u.User = none)
    (hOm : u.OmitHost = false) (hH : u.Host = []) (hpath : u.EscapedPath = 47 :: t) :
    u.String = ((if u.Scheme ≠ [] then u.Scheme ++ 58 :: [47, 47] else []) ++
        (u.EscapedPath ++
          (if u.ForceQuery = true ∨ u.RawQuery ≠ [] then 63 :: u.RawQuery else []))) ++
        (if u.Fragment ≠ [] then 35 :: u.EscapedFragment else []) := by
  have hP : u.Path ≠ [] := Path_ne_nil u (by rw [hpath]; simp)
  have h2 : str "//" = [47, 47] := by decide
  have hcut : (Cut (47 :: t) 47).1 = [] := by simp [Cut]
  unfold URL.String URL.authorityString
  simp only [hO, hU, hOm, hH, hP, hpath, hcut, h2, ne_eq, not_true_eq_false, not_false_eq_true,
    if_false, if_true, or_true, true_or, or_false, false_or, Bool.false_eq_true, false_and,
    and_false, and_true, List.append_nil, List.head?_cons, List.not_mem_nil]
  by_cases hs : u.Scheme = []
  · simp [hs]
  · simp [hs]

/-- Reading back the text of a URL without host and user information whose escaped path
starts with `/`, and not with `//` when there is no scheme, gives a URL with the same
path+query form. -/
theorem Parse_String_requestURI_path (u u1 : URL) (t : GoString) (hO : u.Opaque = [])
    (hU : u.User = none) (hOm : u.OmitHost = false) (hH : u.Host = [])
    (hS : u.Scheme = [] ∨ isSchemeName u.Scheme = true)
    (hQ : 35 ∉ u.RawQuery ∧ 63 ∉ u.RawQuery) (hpath : u.EscapedPath = 47 :: t)
    (hC : u.Scheme ≠ [] ∨ HasPrefix u.EscapedPath (str "//") = false)
    (hp : Gateway.Parse u.String = .ok u1) :
    u1.Opaque = [] ∧ u1.EscapedPath = u.EscapedPath ∧ u1.RawQuery = u.RawQuery ∧
      (u1.ForceQuery = true ↔ u.ForceQuery = true ∧ u.RawQuery = []) ∧
      u1.RequestURI = u.RequestURI := by
  have hstr := String_of_path u t hO hU hOm hH hpath
  have hfree := EscapedPath_free u
  have hS35 : 35 ∉ (if u.Scheme ≠ [] then u.Scheme ++ 58 :: [47, 47] else []) := by
    rcases hS with hS | hS
    · simp [hS]
    · split
      · simp only [List.mem_append, List.mem_cons, List.not_mem_nil, not_or]
        refine ⟨fun hm => ?_, by omega, by omega, by omega, by simp⟩
        have := isSchemeName_bytes _ hS 35 hm
        omega
      · simp
  have hq35 : 35 ∉ (if u.ForceQuery = true ∨ u.RawQuery ≠ [] then 63 :: u.RawQuery else []) := by
    split
    · simp only [List.mem_cons, not_or]
      exact ⟨by omega, hQ.1⟩
    · simp
  have hA : 35 ∉ (if u.Scheme ≠ [] then u.Scheme ++ 58 :: [47, 47] else []) ++
      (u.EscapedPath ++
        (if u.ForceQuery = true ∨ u.RawQuery ≠ [] then 63 :: u.RawQuery else [])) := by
    simp only [List.mem_append, not_or]
    exact ⟨hS35, hfree.1, hq35⟩
  have hfrag : (if u.Fragment ≠ [] then 35 :: u.EscapedFragment else []) = [] ∨
      ∃ t, (if u.Fragment ≠ [] then 35 :: u.EscapedFragment else []) = 35 :: t := by
    split
    · exact Or.inr ⟨_, rfl⟩
    · exact Or.inl rfl
  obtain ⟨url, hurl, h1, h2, h3, _, _, h6, _, h8, h9⟩ := Parse_ok _ _ hp
  rw [hstr, Cut_fst_append _ _ 35 hA hfrag] at hurl
  obtain ⟨url0, hset, _, hq0, ho0, hfq⟩ :=
    parse_path_form u.Scheme u.EscapedPath t u.RawQuery u.ForceQuery url hS hpath hfree.2 hQ.2
      hC hurl
  obtain ⟨p, hun, _, _⟩ := setPath_unescape _ _ _ hset
  have hval := validEncoded_EscapedPath u p hun
  have hesc := setPath_EscapedPath _ _ _ hset hval (Or.inr ⟨t, hpath⟩)
  have hsok := setPath_ok _ _ _ hset
  have hE : u1.EscapedPath = u.EscapedPath := by
    rw [← hesc]
    exact EscapedPath_congr _ _ h8 h9
  have hOp : u1.Opaque = [] := by rw [h6, hsok.2.2.2.2.2.1, ho0]
  have hRQ : u1.RawQuery = u.RawQuery := by rw [h2, hsok.2.1, hq0]
  have hFQ : u1.ForceQuery = true ↔ u.ForceQuery = true ∧ u.RawQuery = [] := by
    rw [h3, hsok.2.2.1, hfq]
    constructor
    · rintro ⟨ha, hb⟩
      rcases ha with ha | ha
      · exact ⟨ha, hb⟩
      · exact absurd hb ha
    · rintro ⟨ha, hb⟩
      exact ⟨Or.inl ha, hb⟩
  refine ⟨hOp, hE, hRQ, hFQ, ?_⟩
  unfold URL.RequestURI
  simp only [hOp, hO, hE, hRQ, if_true]
  by_cases hq : u.RawQuery = []
  · have : u1.ForceQuery = u.ForceQuery := by
      cases h : u.ForceQuery
      · cases h' : u1.ForceQuery
        · rfl
        · have := (hFQ.1 h').1
          rw [h] at this
          cases this
      · exact hFQ.2 ⟨h, hq⟩
    rw [this]
  · simp [hq]

/-- The path+query form of a URL does not depend on its host. -/
theorem RequestURI_host (u : URL) (h : GoString) :
    URL.RequestURI { u with Host := h } = u.RequestURI := rfl

/-- C8, counterexample. On the event with the path `/pets?` `NewRequest` succeeds. The
escaped path of the built request's URL is `/pets` and its raw query is empty, so the
escaped path followed by `?` and the raw query when the query is non-empty is `/pets`;
the `RequestURI` of the built request is `/pets?`. -/
theorem requestURI_counterexample :
    (NewRequest {} forceQueryEvent).2 = none ∧
    (NewRequest {} forceQueryEvent).1.map
        (fun r => (r.URL.EscapedPath, r.URL.RawQuery, specRequestURI r.URL, r.RequestURI)) =
      some (str "/pets", [], str "/pets", str "/pets?") ∧
    (NewRequest {} forceQueryEvent).1.map
        (fun r => decide (r.RequestURI = specRequestURI r.URL)) = some false := by
  decide!

/-- C8, amended. For every context and every event on which `NewRequest` succeeds, the
`RequestURI` of the built request is the path+query form `RequestURI()` of the URL `u`
that `NewRequest` builds from the event. When moreover the event path, parsed as a URL
reference, has no scheme, no host, no user information and an escaped path that is empty
or starts with `/`, the `X-Forwarded-Proto` header is absent, empty or a scheme name, and
the host of the specification is non-empty or the `X-Forwarded-Proto` header is non-empty
or the escaped path of `u` does not start with `//`, then `RequestURI` is also the
path+query form `RequestURI()` of the built request's own URL, and it is the escaped
path of that URL, followed by `?` and the raw query when the query is non-empty, and
followed by a bare `?` when the query is empty and the event path ended in a bare
`?`. -/
theorem requestURI_form (ctx : Context) (e : APIGatewayProxyRequest)
    (hok : (NewRequest ctx e).2 = none) :
    ∃ u r, requestURL ctx e = .ok u ∧ NewRequest ctx e = (some r, none) ∧
      r.RequestURI = u.RequestURI ∧
      ∀ ref : URL, Gateway.Parse e.Path = .ok ref → ref.Scheme = [] → ref.Host = [] →
        ref.User = none →
        (ref.EscapedPath = [] ∨ HasPrefix ref.EscapedPath [47] = true) →
        (Header.Get (mergeValues e.Headers e.MultiValueHeaders)
            (str "X-Forwarded-Proto") = [] ∨
          isSchemeName (Header.Get (mergeValues e.Headers e.MultiValueHeaders)
            (str "X-Forwarded-Proto")) = true) →
        (specHost ctx e ≠ [] ∨
          Header.Get (mergeValues e.Headers e.MultiValueHeaders)
            (str "X-Forwarded-Proto") ≠ [] ∨
          HasPrefix u.EscapedPath (str "//") = false) →
        r.RequestURI = r.URL.RequestURI ∧
        r.RequestURI = specRequestURI r.URL ++
          (if ref.ForceQuery = true ∧ r.URL.RawQuery = [] then [63] else []) := by
  obtain ⟨u, body, req, hu, _, hreq, hr⟩ := NewRequest_ok ctx e hok
  have hfin := finishRequest_fields ctx e u body req
  refine ⟨u, _, hu, hr, hfin.2.2.2.2.1, ?_⟩
  intro ref href hs hh hus hpath hproto hhost
  obtain ⟨hS, hH, hO, hU, hOm⟩ := requestURL_fields ctx e u ref hu href hs hh hus
  obtain ⟨⟨t, ht⟩, hfq⟩ := requestURL_path ctx e u ref hu href hs hh hus hpath
  obtain ⟨u1, hparse, _, _, hurl, _, _⟩ := httpNewRequest_ok _ _ _ _ hreq
  have hq := requestURL_RawQuery ctx e u hu
  have hfree := Encode_free
    (mergeValues e.QueryStringParameters e.MultiValueQueryStringParameters)
  have key : u1.Opaque = [] ∧ u1.EscapedPath = u.EscapedPath ∧ u1.RawQuery = u.RawQuery ∧
      (u1.ForceQuery = true ↔ u.ForceQuery = true ∧ u.RawQuery = []) ∧
      u1.RequestURI = u.RequestURI := by
    by_cases hne : u.Host = []
    · refine Parse_String_requestURI_path u u1 t hO hU hOm hne (by rw [hS]; exact hproto)
        (by rw [hq]; exact hfree) ht ?_ hparse
      rcases hhost with h | h | h
      · rw [hH] at hne
        exact absurd hne h
      · exact Or.inl (by rw [hS]; exact h)
      · exact Or.inr h
    · exact Parse_String_requestURI u u1 hO hU hOm hne (by rw [hS]; exact hproto)
        (by rw [hq]; exact hfree) (Or.inr ⟨t, ht⟩) hparse
  obtain ⟨_, h2, h3, _, h5⟩ := key
  rw [hfin.2.2.2.2.1, hfin.2.2.2.1, hurl, RequestURI_host]
  refine ⟨h5.symm, ?_⟩
  have hE : URL.EscapedPath { u1 with Host := removeEmptyPort u1.Host } = u.EscapedPath := by
    rw [← h2]
    exact EscapedPath_congr _ _ rfl rfl
  unfold specRequestURI URL.RequestURI
  rw [hE]
  simp only [hO, ht, h3, hfq, if_true]
  by_cases hQ : u.RawQuery = []
  · cases hf : ref.ForceQuery <;> simp [hQ]
  · simp [hQ]

/-- Witness of C8, amended: the event of `TestNewRequest_multiValueQueryString`, with
the context of the test, which has no fallback host. -/
theorem requestURI_form_witness :
    (NewRequest {} multiValueQueryStringEvent).2 = none ∧
    Gateway.Parse multiValueQueryStringEvent.Path = .ok { Path := str "/pets" } ∧
    ∃ u r, requestURL {} multiValueQueryStringEvent = .ok u ∧
      NewRequest {} multiValueQueryStringEvent = (some r, none) ∧
      HasPrefix u.EscapedPath (str "//") = false ∧
      r.RequestURI = u.RequestURI ∧ r.RequestURI = r.URL.RequestURI ∧
      r.RequestURI = specRequestURI r.URL ++
        (if ({ Path := str "/pets" } : URL).ForceQuery = true ∧ r.URL.RawQuery = [] then [63]
          else []) := by
  obtain ⟨u, r, hu, hr, h1, h2⟩ := requestURI_form {} multiValueQueryStringEvent (by decide!)
  have hpath : HasPrefix u.EscapedPath (str "//") = false := by
    have hp : (requestURL {} multiValueQueryStringEvent).toOption.map
        (fun v => HasPrefix v.EscapedPath (str "//")) = some false := by decide!
    rw [hu] at hp
    exact Option.some.inj hp
  obtain ⟨h3, h4⟩ := h2 { Path := str "/pets" } (by decide!) rfl rfl rfl (by decide!)
    (by decide!) (Or.inr (Or.inr hpath))
  exact ⟨by decide!, by decide!, u, r, hu, hr, hpath, h1, h3, h4⟩

/-- The request target on events of the test suite and on events outside the conditions
of `requestURI_form`: `TestNewRequest_path` and `TestNewRequest_multiValueQueryString`
give the same text for `RequestURI` and for the built request's URL; the path `/.//x`
without host, and the `X-Forwarded-Proto` header `a?b`, give a built request whose URL
has another path+query form than `RequestURI`. -/
theorem requestURI_examples :
    (NewRequest {} pathEvent).1.map (fun r => (r.RequestURI, r.URL.String)) =
      some (str "/pets/luna", str "/pets/luna") ∧
    (NewRequest {} multiValueQueryStringEvent).1.map
        (fun r => decide (r.RequestURI = r.URL.String) && decide (r.RequestURI =
          str "/pets?fields=name%2Cspecies&multi_arr%5B%5D=arr1&multi_arr%5B%5D=arr2&multi_fields=name&multi_fields=species&order=desc")) =
      some true ∧
    (NewRequest {} dotPathEvent).1.map (fun r => (r.RequestURI, r.URL.RequestURI)) =
      some (str "//x", str "/") ∧
    (NewRequest {} protoEvent).1.map (fun r => (r.RequestURI, r.URL.RequestURI)) =
      some (str "/pets", str "a?b:///pets") := by
  decide!

/-! ## The injected headers -/

/-- `Header.Values` in terms of the stored entry. -/
theorem Header.Values_of_get (h : Header) (k : GoString) (vs : List GoString)
    (hk : GoMap.get h (CanonicalMIMEHeaderKey k) = some vs) : h.Values k = vs := by
  unfold Header.Values
  rw [hk]
  rfl

/-- C11. For every context and every event on which `NewRequest` succeeds, the header of
the built request stores under `X-Request-Id` exactly one value, the `RequestID` of the
request context of the event, and under `X-Stage` exactly one value, its `Stage`,
whatever the header maps of the event hold; `Header.Values` and `Header.Get` return
these values for every spelling of the two names. -/
theorem requestId_stage_injected (ctx : Context) (e : APIGatewayProxyRequest)
    (hok : (NewRequest ctx e).2 = none) :
    ∃ r, NewRequest ctx e = (some r, none) ∧
      GoMap.get r.Header (str "X-Request-Id") = some [e.RequestContext.RequestID] ∧
      GoMap.get r.Header (str "X-Stage") = some [e.RequestContext.Stage] ∧
      (∀ k, CanonicalMIMEHeaderKey k = str "X-Request-Id" →
        r.Header.Values k = [e.RequestContext.RequestID] ∧
        r.Header.Get k = e.RequestContext.RequestID) ∧
      (∀ k, CanonicalMIMEHeaderKey k = str "X-Stage" →
        r.Header.Values k = [e.RequestContext.Stage] ∧
        r.Header.Get k = e.RequestContext.Stage) := by
  obtain ⟨u, body, req, _, _, _, hr⟩ := NewRequest_ok ctx e hok
  have hid : GoMap.get (finishRequest ctx e u body req).Header (str "X-Request-Id") =
      some [e.RequestContext.RequestID] := by
    rw [finishRequest_header_get]
    have h1 : str "X-Request-Id" ≠ str "X-Amzn-Trace-Id" := by decide
    have h2 : str "X-Request-Id" ≠ str "X-Stage" := by decide
    simp [h1, h2]
  have hst : GoMap.get (finishRequest ctx e u body req).Header (str "X-Stage") =
      some [e.RequestContext.Stage] := by
    rw [finishRequest_header_get]
    have h1 : str "X-Stage" ≠ str "X-Amzn-Trace-Id" := by decide
    simp [h1]
  refine ⟨_, hr, hid, hst, ?_, ?_⟩
  · intro k hk
    exact ⟨Header.Values_of_get _ _ _ (by rw [hk]; exact hid),
      Header.Get_of_get _ _ [e.RequestContext.RequestID] (by rw [hk]; exact hid)⟩
  · intro k hk
    exact ⟨Header.Values_of_get _ _ _ (by rw [hk]; exact hst),
      Header.Get_of_get _ _ [e.RequestContext.Stage] (by rw [hk]; exact hst)⟩

/-- Witness of C11: an event that carries `X-Request-Id: mine` and `X-Stage` values of
its own, with `RequestID` `1234` and `Stage` `prod`. -/
theorem requestId_stage_injected_witness :
    (NewRequest {} ownIdEvent).2 = none ∧
    GoMap.get (mergeValues ownIdEvent.Headers ownIdEvent.MultiValueHeaders)
      (str "X-Request-Id") = some [str "mine"] ∧
    GoMap.get (mergeValues ownIdEvent.Headers ownIdEvent.MultiValueHeaders)
      (str "X-Stage") = some [str "a", str "b"] ∧
    ownIdEvent.RequestContext.RequestID = str "1234" ∧
    ownIdEvent.RequestContext.Stage = str "prod" ∧
    ∃ r, NewRequest {} ownIdEvent = (some r, none) ∧
      GoMap.get r.Header (str "X-Request-Id") = some [ownIdEvent.RequestContext.RequestID] ∧
      GoMap.get r.Header (str "X-Stage") = some [ownIdEvent.RequestContext.Stage] ∧
      (∀ k, CanonicalMIMEHeaderKey k = str "X-Request-Id" →
        r.Header.Values k = [ownIdEvent.RequestContext.RequestID] ∧
        r.Header.Get k = ownIdEvent.RequestContext.RequestID) ∧
      (∀ k, CanonicalMIMEHeaderKey k = str "X-Stage" →
        r.Header.Values k = [ownIdEvent.RequestContext.Stage] ∧
        r.Header.Get k = ownIdEvent.RequestContext.Stage) :=
  ⟨by decide!, by decide!, by decide!, by decide!, by decide!,
    requestId_stage_injected {} ownIdEvent (by decide!)⟩

/-- The injected headers on the event of `TestNewRequest_header`: `X-Request-Id` reads
`1234` and `X-Stage` reads `prod`. A header the event stores under the spelling
`x-request-id` stays in the map under that key, next to the injected entry, and is not
what `Header.Values` reads. -/
theorem requestId_stage_examples :
    (NewRequest (setHost {} (str "xxx")) headerEvent).1.map
        (fun r => (r.Header.Get (str "X-Request-Id"), r.Header.Get (str "X-Stage"))) =
      some (str "1234", str "prod") ∧
    (NewRequest {} ownIdEvent).1.map
        (fun r => (r.Header.Values (str "x-request-id"), r.Header.Values (str "x-stage"))) =
      some ([str "1234"], [str "prod"]) ∧
    (NewRequest {} lowerIdEvent).1.map
        (fun r => (GoMap.get r.Header (str "x-request-id"),
          GoMap.get r.Header (str "X-Request-Id"), r.Header.Values (str "x-request-id"))) =
      some (some [str "mine"], some [str "1234"], [str "1234"]) := by
  decide!

/-! ## The header collection of the built request -/

/-- C13. For every context and every event on which `NewRequest` succeeds, and every
key `k` other than the four keys the builder sets (`Content-Length`, `X-Request-Id`,
`X-Stage`, `X-Amzn-Trace-Id`): the header of the built request stores under `k` exactly
what the merged header map `mergeValues(Headers, MultiValueHeaders)` stores under `k`,
the same values in the same order, and nothing when the merged map has no such key. In
particular the entry under `Host` is the merged one: the values of the multi-value map
when it has the key, the one value of the single-value map otherwise. -/
theorem header_is_merged (ctx : Context) (e : APIGatewayProxyRequest)
    (hok : (NewRequest ctx e).2 = none) :
    ∃ r, NewRequest ctx e = (some r, none) ∧
      (∀ k, k ≠ str "Content-Length" → k ≠ str "X-Request-Id" → k ≠ str "X-Stage" →
        k ≠ str "X-Amzn-Trace-Id" →
        GoMap.get r.Header k = GoMap.get (mergeValues e.Headers e.MultiValueHeaders) k) ∧
      (∀ vs, e.MultiValueHeaders.get (str "Host") = some vs →
        GoMap.get r.Header (str "Host") = some vs) ∧
      (∀ v, e.MultiValueHeaders.get (str "Host") = none →
        e.Headers.get (str "Host") = some v → GoMap.get r.Header (str "Host") = some [v]) := by
  obtain ⟨u, body, req, _, _, _, hr⟩ := NewRequest_ok ctx e hok
  have hk : ∀ k, k ≠ str "Content-Length" → k ≠ str "X-Request-Id" → k ≠ str "X-Stage" →
      k ≠ str "X-Amzn-Trace-Id" →
      GoMap.get (finishRequest ctx e u body req).Header k =
        GoMap.get (mergeValues e.Headers e.MultiValueHeaders) k := by
    intro k h1 h2 h3 h4
    rw [finishRequest_header_get]
    simp [h1, h2, h3, h4]
  have hhost := hk (str "Host") (by decide) (by decide) (by decide) (by decide)
  refine ⟨_, hr, hk, ?_, ?_⟩
  · intro vs hvs
    rw [hhost, mergeValues_get, hvs]
  · intro v hM hH
    rw [hhost, mergeValues_get, hM, hH]
    rfl

/-- Witness of C13: the event of `TestNewRequest_multiHeader`, whose multi-value header
`X-APEX` with the values `apex1`, `apex2` is stored as it is, next to its `Host`. -/
theorem header_is_merged_witness :
    (NewRequest {} multiHeaderEvent).2 = none ∧
    (NewRequest {} multiHeaderEvent).1.map
        (fun r => (GoMap.get r.Header (str "X-APEX"), GoMap.get r.Header (str "X-APEX-2"),
          GoMap.get r.Header (str "Host"))) =
      some (some [str "apex1", str "apex2"], some [str "apex-1", str "apex-2"],
        some [str "example.com"]) ∧
    ∃ r, NewRequest {} multiHeaderEvent = (some r, none) ∧
      (∀ k, k ≠ str "Content-Length" → k ≠ str "X-Request-Id" → k ≠ str "X-Stage" →
        k ≠ str "X-Amzn-Trace-Id" →
        GoMap.get r.Header k =
          GoMap.get (mergeValues multiHeaderEvent.Headers multiHeaderEvent.MultiValueHeaders)
            k) ∧
      (∀ vs, multiHeaderEvent.MultiValueHeaders.get (str "Host") = some vs →
        GoMap.get r.Header (str "Host") = some vs) ∧
      (∀ v, multiHeaderEvent.MultiValueHeaders.get (str "Host") = none →
        multiHeaderEvent.Headers.get (str "Host") = some v →
        GoMap.get r.Header (str "Host") = some [v]) :=
  ⟨by decide!, by decide!, header_is_merged {} multiHeaderEvent (by decide!)⟩

/-! ## The method of the built request -/

/-- C16. For every context and every event on which `NewRequest` succeeds, the method of
the built request is the `HTTPMethod` of the event when that is not empty, and `GET`
when it is empty. -/
theorem request_method (ctx : Context) (e : APIGatewayProxyRequest)
    (hok : (NewRequest ctx e).2 = none) :
    ∃ r, NewRequest ctx e = (some r, none) ∧
      (e.HTTPMethod ≠ [] → r.Method = e.HTTPMethod) ∧
      (e.HTTPMethod = [] → r.Method = str "GET") := by
  obtain ⟨u, body, req, _, _, hreq, hr⟩ := NewRequest_ok ctx e hok
  obtain ⟨u1, _, _, hm, _⟩ := httpNewRequest_ok _ _ _ _ hreq
  refine ⟨_, hr, ?_, ?_⟩
  · intro hne
    rw [(finishRequest_fields ctx e u body req).2.2.1, hm, if_neg hne]
  · intro he
    rw [(finishRequest_fields ctx e u body req).2.2.1, hm, if_pos he]

/-- Witness of C16: the event of `TestNewRequest_method` gives the method `DELETE`, and
the event of `TestNewRequest_path`, which sets the path only, gives `GET`. -/
theorem request_method_witness :
    ((NewRequest {} methodEvent).2 = none ∧ methodEvent.HTTPMethod = str "DELETE" ∧
      ∃ r, NewRequest {} methodEvent = (some r, none) ∧
        (methodEvent.HTTPMethod ≠ [] → r.Method = methodEvent.HTTPMethod) ∧
        (methodEvent.HTTPMethod = [] → r.Method = str "GET")) ∧
    ((NewRequest {} pathEvent).2 = none ∧ pathEvent.HTTPMethod = [] ∧
      ∃ r, NewRequest {} pathEvent = (some r, none) ∧
        (pathEvent.HTTPMethod ≠ [] → r.Method = pathEvent.HTTPMethod) ∧
        (pathEvent.HTTPMethod = [] → r.Method = str "GET")) ∧
    (NewRequest {} methodEvent).1.map (fun r => r.Method) = some (str "DELETE") ∧
    (NewRequest {} pathEvent).1.map (fun r => r.Method) = some (str "GET") :=
  ⟨⟨by decide!, by decide!, request_method {} methodEvent (by decide!)⟩,
    ⟨by decide!, by decide!, request_method {} pathEvent (by decide!)⟩,
    by decide!, by decide!⟩

/-! ## The URL of the built request on plain events -/

/-- On a plain event the URL of the request `http.NewRequest` returns has the raw query
and the escaped path of the URL `u` that `NewRequest` built. -/
theorem httpNewRequest_URL_query (ctx : Context) (e : APIGatewayProxyRequest) (u : URL)
    (body : GoString) (req : Request) (hu : requestURL ctx e = .ok u)
    (hreq : httpNewRequest e.HTTPMethod u.String body = .ok req)
    (hplain : plainEvent ctx e u) :
    req.URL.RawQuery = u.RawQuery ∧ req.URL.EscapedPath = u.EscapedPath := by
  obtain ⟨⟨ref, href, hs, hh, hus, hpath⟩, hproto, hhost⟩ := hplain
  obtain ⟨hS, hH, hO, hU, hOm⟩ := requestURL_fields ctx e u ref hu href hs hh hus
  obtain ⟨⟨t, ht⟩, _⟩ := requestURL_path ctx e u ref hu href hs hh hus hpath
  obtain ⟨u1, hparse, _, _, hurl, _, _⟩ := httpNewRequest_ok _ _ _ _ hreq
  have hq := requestURL_RawQuery ctx e u hu
  have hfree := Encode_free
    (mergeValues e.QueryStringParameters e.MultiValueQueryStringParameters)
  have key : u1.Opaque = [] ∧ u1.EscapedPath = u.EscapedPath ∧ u1.RawQuery = u.RawQuery ∧
      (u1.ForceQuery = true ↔ u.ForceQuery = true ∧ u.RawQuery = []) ∧
      u1.RequestURI = u.RequestURI := by
    by_cases hne : u.Host = []
    · refine Parse_String_requestURI_path u u1 t hO hU hOm hne (by rw [hS]; exact hproto)
        (by rw [hq]; exact hfree) ht ?_ hparse
      rcases hhost with h | h | h
      · rw [hH] at hne
        exact absurd hne h
      · exact Or.inl (by rw [hS]; exact h)
      · exact Or.inr h
    · exact Parse_String_requestURI u u1 hO hU hOm hne (by rw [hS]; exact hproto)
        (by rw [hq]; exact hfree) (Or.inr ⟨t, ht⟩) hparse
  rw [hurl]
  refine ⟨key.2.2.1, ?_⟩
  rw [← key.2.1]
  exact EscapedPath_congr _ _ rfl rfl

/-! ## The invocation adapter -/

/-- C12. For every host, every handler (`http.DefaultServeMux` standing in for a `nil`
one), every context, every event and every state of the program: if `NewRequest` fails
on the event, with the host set in the context, the function `ListenAndServe` registers
returns the zero-valued response together with that error and leaves the state as it
was, and the instrumented handler records no call; otherwise `NewRequest` returns a
request `r`, the result is the `End()` value of the recorder as one call
`ServeHTTP(NewResponse(), r)` leaves it, with no error, the state is the one that call
leaves, and the instrumented handler records exactly that one call. -/
theorem invocation_adapter {σ : Type} (DefaultServeMux : Handler σ) (host : GoString)
    (h : Option (Handler σ)) (ctx : Context) (e : APIGatewayProxyRequest) (s : σ) :
    (∀ err, (NewRequest (setHost ctx host) e).2 = some err →
      ListenAndServe.func DefaultServeMux host h ctx e s = (({}, some err), s) ∧
      ListenAndServe.func DefaultServeMux.logged host (h.map Handler.logged) ctx e (s, []) =
        (({}, some err), (s, []))) ∧
    ((NewRequest (setHost ctx host) e).2 = none →
      ∃ r, NewRequest (setHost ctx host) e = (some r, none) ∧
        ListenAndServe.func DefaultServeMux host h ctx e s =
          ((((h.getD DefaultServeMux).ServeHTTP NewResponse (some r) s).1.End, none),
            ((h.getD DefaultServeMux).ServeHTTP NewResponse (some r) s).2) ∧
        ListenAndServe.func DefaultServeMux.logged host (h.map Handler.logged) ctx e (s, []) =
          ((((h.getD DefaultServeMux).ServeHTTP NewResponse (some r) s).1.End, none),
            (((h.getD DefaultServeMux).ServeHTTP NewResponse (some r) s).2,
              [(NewResponse, some r)]))) := by
  constructor
  · intro err herr
    unfold ListenAndServe.func
    simp only []
    cases hN : NewRequest (setHost ctx host) e with
    | mk r err2 =>
      rw [hN] at herr
      simp only [] at herr
      subst herr
      exact ⟨rfl, rfl⟩
  · intro hok
    obtain ⟨u, body, req, _, _, _, hr⟩ := NewRequest_ok _ e hok
    refine ⟨_, hr, ?_, ?_⟩
    · unfold ListenAndServe.func
      simp only [hr]
      cases h <;> rfl
    · unfold ListenAndServe.func
      simp only [hr]
      cases h <;> rfl

/-- The adapter on two events, with a sample handler that counts its calls: on the event
of `TestNewRequest_path` the handler runs once and its answer is returned with status
200; on an event whose base64 body is corrupt the handler does not run and an empty
response comes with the wrapped error. -/
theorem invocation_adapter_examples :
    (echoPathRun.1.1.StatusCode, echoPathRun.1.1.Body, echoPathRun.1.1.IsBase64Encoded,
      echoPathRun.2) = (200, str "/pets/luna", false, 1) ∧
    echoPathRun.1.1.Headers.get (str "Content-Type") = some (str "text/plain") ∧
    echoPathRun.1.2 = none ∧
    (echoNilRun.1.1.StatusCode, echoNilRun.1.1.Body, echoNilRun.1.1.IsBase64Encoded,
      echoNilRun.2) = (200, str "/pets/luna", false, 1) ∧
    (echoBadBodyRun.1.1.StatusCode, echoBadBodyRun.1.1.Body,
      echoBadBodyRun.1.1.IsBase64Encoded, echoBadBodyRun.2) = (0, [], false, 0) ∧
    echoBadBodyRun.1.1.Headers.entries = [] ∧
    echoBadBodyRun.1.1.MultiValueHeaders.entries = [] ∧
    echoBadBodyRun.1.2 =
      some (.wrapped (str "decoding base64 body") (.corruptInputError 0)) := by
  decide!

/-! ## The response recorder: the header maps -/

/-- Storing the last value of every entry of a list with distinct keys: the stored value
under `k` is the last value of the entry of `k`, or what was there before. -/
theorem lookup_foldl_last (l : List (Sigma fun _ : GoString => List GoString))
    (hl : l.NodupKeys) (m : GoMap GoString) (k : GoString) :
    AList.lookup k (l.foldl (fun r a =>
        match a.2.getLast? with
        | some v => GoMap.set r a.1 v
        | none => r) m) =
      match (List.dlookup k l).bind List.getLast? with
      | some v => some v
      | none => AList.lookup k m := by
  induction l generalizing m with
  | nil => simp
  | cons a l ih =>
    obtain ⟨a1, a2⟩ := a
    rw [List.nodupKeys_cons] at hl
    rw [List.foldl_cons, ih hl.2]
    by_cases hk : k = a1
    · subst hk
      have hnone : List.dlookup k l = none := by
        rw [List.dlookup_eq_none]; exact hl.1
      simp only [hnone, List.dlookup_cons_eq, Option.none_bind, Option.some_bind]
      cases a2.getLast? <;> simp [GoMap.set, AList.lookup_insert]
    · rw [List.dlookup_cons_ne l (a := k) ⟨a1, a2⟩ hk]
      cases hd : (List.dlookup k l).bind List.getLast? with
      | some v => rfl
      | none =>
        simp only []
        cases a2.getLast? <;> simp [GoMap.set, AList.lookup_insert_ne hk]

/-- The single-value header map, entry by entry: the last value of the entry of the
header map. -/
theorem singleValueHeaders_get (h : Header) (k : GoString) :
    (singleValueHeaders h).get k = (GoMap.get h k).bind List.getLast? := by
  unfold singleValueHeaders GoMap.get AList.foldl
  have := lookup_foldl_last h.entries h.nodupKeys ∅ k
  simp only [] at this ⊢
  rw [this]
  simp only [AList.lookup, AList.empty_entries, List.dlookup_nil]
  cases (List.dlookup k h.entries).bind List.getLast? <;> rfl

/-- The header map at finalization keeps every entry of the header map that has a
value. -/
theorem finalHeader_get (w : ResponseWriter) (k : GoString) (vs : List GoString)
    (hk : GoMap.get w.header k = some vs) : GoMap.get w.finalHeader k = some vs := by
  unfold ResponseWriter.finalHeader
  split
  · rename_i hct
    rw [Header.get_Set]
    have hc : CanonicalMIMEHeaderKey (str "Content-Type") = str "Content-Type" := by decide
    rw [hc]
    split
    · rename_i hkc
      rw [hkc, hct] at hk
      cases hk
    · exact hk
  · exact hk

/-- The entry `h[canonical key]` after `h.Add(key, value)`: the value is appended. -/
theorem Header.get_Add (h : Header) (key value : GoString) :
    GoMap.get (h.Add key value) (CanonicalMIMEHeaderKey key) =
      some ((GoMap.get h (CanonicalMIMEHeaderKey key)).getD [] ++ [value]) := by
  unfold Header.Add GoMap.get GoMap.set
  simp [AList.lookup_insert]

/-- C14. For every response recorder and every header key `k` under which its header
map holds a non-empty list `vs` of values when `End()` is called: the multi-value header
map of the returned event holds `vs` under `k`, all values in their order, and its
single-value header map holds the last value of `vs` under `k`; this covers the keys
with one value. The order of `vs` is the order of insertion, `Header.Add` appending to
the list. -/
theorem End_header_maps (w : ResponseWriter) (k : GoString) (vs : List GoString)
    (hk : GoMap.get w.header k = some vs) (hne : vs ≠ []) :
    GoMap.get w.End.MultiValueHeaders k = some vs ∧
    GoMap.get w.End.Headers k = some (vs.getLast hne) ∧
    (∀ v, vs = [v] → GoMap.get w.End.Headers k = some v ∧
      GoMap.get w.End.MultiValueHeaders k = some [v]) ∧
    (∀ key value, GoMap.get (Header.Add w.header key value) (CanonicalMIMEHeaderKey key) =
      some ((GoMap.get w.header (CanonicalMIMEHeaderKey key)).getD [] ++ [value])) := by
  have hf := finalHeader_get w k vs hk
  have h1 : GoMap.get w.End.MultiValueHeaders k = some vs := hf
  have h2 : GoMap.get w.End.Headers k = some (vs.getLast hne) := by
    show GoMap.get (singleValueHeaders w.finalHeader) k = _
    rw [singleValueHeaders_get, hf]
    simp [List.getLast?_eq_getLast _ hne]
  refine ⟨h1, h2, ?_, fun key value => Header.get_Add _ _ _⟩
  intro v hv
  subst hv
  exact ⟨h2, h1⟩

/-- Witness of C14: the recorder of `TestResponseWriter_Write_text`, after
`Set("Double-Header", "1")` and `Add("double-header", "2")`: the multi-value map holds
`1`, `2` under `Double-Header`, and the single-value map holds `2`. -/
theorem End_header_maps_witness :
    GoMap.get doubleHeaderRecorder.header (str "Double-Header") = some [str "1", str "2"] ∧
    GoMap.get doubleHeaderRecorder.End.MultiValueHeaders (str "Double-Header") =
      some [str "1", str "2"] ∧
    GoMap.get doubleHeaderRecorder.End.Headers (str "Double-Header") =
      some ([str "1", str "2"].getLast (by simp)) ∧
    [str "1", str "2"].getLast (by simp) = str "2" :=
  ⟨by decide!,
    (End_header_maps doubleHeaderRecorder (str "Double-Header") [str "1", str "2"]
      (by decide!) (by simp)).1,
    (End_header_maps doubleHeaderRecorder (str "Double-Header") [str "1", str "2"]
      (by decide!) (by simp)).2.1, rfl⟩

/-- The header maps on the cases of response_test.go: the `Content-Type` the handler set
is in the single-value map, also in the multi-value map, and the default `Content-Type`
is in both maps when the handler set none. -/
theorem End_header_examples :
    GoMap.get doubleHeaderRecorder.End.Headers (str "Content-Type") =
      some (str "text/plain; charset=utf-8") ∧
    GoMap.get doubleHeaderRecorder.End.MultiValueHeaders (str "Content-Type") =
      some [str "text/plain; charset=utf-8"] ∧
    GoMap.get binaryRecorder.End.Headers (str "Content-Type") = some (str "image/png") ∧
    GoMap.get (ResponseWriter.Write (ResponseWriter.WriteHeader NewResponse 404)
      (str "Not Found\n")).End.Headers (str "Content-Type") =
      some (str "text/plain; charset=utf8") ∧
    GoMap.get (ResponseWriter.Write (ResponseWriter.WriteHeader NewResponse 404)
      (str "Not Found\n")).End.MultiValueHeaders (str "Content-Type") =
      some [str "text/plain; charset=utf8"] := by
  decide!

/-! ## The response recorder: status and body -/

/-- Once the first write has frozen the status, no call changes it, and every call
leaves it frozen. -/
theorem calls_frozen (cs : List Call) (w : ResponseWriter) (hw : w.wroteHeader = true) :
    (w.calls cs).status = w.status ∧ (w.calls cs).wroteHeader = true := by
  induction cs generalizing w with
  | nil => exact ⟨rfl, hw⟩
  | cons c cs ih =>
    have hstep : (w.call c).status = w.status ∧ (w.call c).wroteHeader = true := by
      cases c with
      | WriteHeader status => simp [ResponseWriter.call, ResponseWriter.WriteHeader, hw]
      | Write b => simp [ResponseWriter.call, ResponseWriter.Write]
    have := ih (w.call c) hstep.2
    exact ⟨by rw [← hstep.1]; exact this.1, this.2⟩

/-- Calls that do not write leave the status unfrozen. -/
theorem calls_unfrozen (cs : List Call) (w : ResponseWriter) (hw : w.wroteHeader = false)
    (hcs : ∀ x ∈ cs, x.isWrite = false) : (w.calls cs).wroteHeader = false := by
  induction cs generalizing w with
  | nil => exact hw
  | cons c cs ih =>
    have hc := hcs c (by simp)
    cases c with
    | WriteHeader status =>
      apply ih (w.call (.WriteHeader status))
      · show (w.WriteHeader status).wroteHeader = false
        unfold ResponseWriter.WriteHeader
        simp [hw]
      · intro x hx
        exact hcs x (by simp [hx])
    | Write b => simp [Call.isWrite] at hc

/-- After a sequence of calls with a `Write` among them the status is frozen. -/
theorem calls_wrote (cs : List Call) (w : ResponseWriter) (hcs : ∃ x ∈ cs, x.isWrite = true) :
    (w.calls cs).wroteHeader = true := by
  induction cs generalizing w with
  | nil =>
    obtain ⟨x, hx, _⟩ := hcs
    simp at hx
  | cons c cs ih =>
    cases c with
    | WriteHeader status =>
      apply ih (w.call (.WriteHeader status))
      obtain ⟨x, hx, hxw⟩ := hcs
      rcases List.mem_cons.1 hx with h | h
      · subst h
        simp [Call.isWrite] at hxw
      · exact ⟨x, h, hxw⟩
    | Write b => exact (calls_frozen cs (w.call (.Write b)) rfl).2

/-- The calls append what they write to the accumulated body and leave the header map
alone. -/
theorem calls_buf (cs : List Call) (w : ResponseWriter) :
    (w.calls cs).buf = w.buf ++ (cs.map Call.written).flatten ∧
    (w.calls cs).header = w.header := by
  induction cs generalizing w with
  | nil => simp [ResponseWriter.calls]
  | cons c cs ih =>
    have hstep : (w.call c).buf = w.buf ++ c.written ∧ (w.call c).header = w.header := by
      cases c with
      | WriteHeader status =>
        show (w.WriteHeader status).buf = w.buf ++ [] ∧ (w.WriteHeader status).header = w.header
        unfold ResponseWriter.WriteHeader
        split <;> simp
      | Write b => simp [ResponseWriter.call, ResponseWriter.Write, Call.written]
    have := ih (w.call c)
    unfold ResponseWriter.calls at this ⊢
    rw [List.foldl_cons, this.1, this.2, hstep.1, hstep.2]
    simp

/-- A `WriteHeader` call on a recorder whose status is frozen changes nothing. -/
theorem WriteHeader_frozen (w : ResponseWriter) (status : Nat) (hw : w.wroteHeader = true) :
    w.WriteHeader status = w := by
  unfold ResponseWriter.WriteHeader
  rw [if_pos hw]

/-- The calls of a sequence in two parts. -/
theorem calls_append (w : ResponseWriter) (pre post : List Call) :
    w.calls (pre ++ post) = (w.calls pre).calls post := by
  unfold ResponseWriter.calls
  rw [List.foldl_append]

/-- The status after a sequence of calls that is empty or starts with a `Write`, on a
recorder whose status is not frozen: the status the recorder had. -/
theorem calls_status_write (w : ResponseWriter) (post : List Call)
    (hpost : post = [] ∨ ∃ b rest, post = Call.Write b :: rest) :
    (w.calls post).status = w.status := by
  rcases hpost with h | ⟨b, rest, h⟩
  · subst h
    rfl
  · subst h
    exact (calls_frozen rest (w.call (.Write b)) rfl).1

/-- The flag of the returned event is the encoding decision. -/
theorem End_IsBase64Encoded (w : ResponseWriter) :
    w.End.IsBase64Encoded = isBinary w.finalHeader := rfl

/-- The body of the returned event follows the encoding decision. -/
theorem End_Body (w : ResponseWriter) :
    w.End.Body = if isBinary w.finalHeader = true then EncodeToString w.buf else w.buf := rfl

/-- The status code of the returned event is the set status, or 200. -/
theorem End_StatusCode (w : ResponseWriter) : w.End.StatusCode = w.status.getD 200 := rfl

/-- C15, counterexample. Two `WriteHeader` calls on a fresh recorder, 404 and then 500,
followed or not by a `Write`: the first `WriteHeader` call precedes every `Write`, and
the returned status code is 500, the code of the second call, not 404. -/
theorem End_status_counterexample :
    (NewResponse.calls [.WriteHeader 404, .WriteHeader 500]).End.StatusCode = 500 ∧
    (NewResponse.calls
      [.WriteHeader 404, .WriteHeader 500, .Write (str "x")]).End.StatusCode = 500 := by
  decide!

/-- C15, amended. For every sequence `cs` of `WriteHeader` and `Write` calls on a fresh
response recorder, followed by `End()`: the returned status code is the code of the last
`WriteHeader` call made before the first `Write` (so the code of the first `WriteHeader`
call when it is the only one before the first `Write`), and 200 when no `WriteHeader`
call is made before the first `Write`; a `WriteHeader` call made after the first `Write`
changes nothing; and the returned body is the concatenation of the written byte slices
in call order, not base64-encoded. -/
theorem End_status_body (cs : List Call) :
    (∀ pre c post, cs = pre ++ Call.WriteHeader c :: post →
      (∀ x ∈ pre, x.isWrite = false) →
      (post = [] ∨ ∃ b rest, post = Call.Write b :: rest) →
      (NewResponse.calls cs).End.StatusCode = c) ∧
    ((cs = [] ∨ ∃ b rest, cs = Call.Write b :: rest) →
      (NewResponse.calls cs).End.StatusCode = 200) ∧
    ((∀ x ∈ cs, x.isWriteHeader = false) → (NewResponse.calls cs).End.StatusCode = 200) ∧
    (∀ pre c post, cs = pre ++ Call.WriteHeader c :: post → (∃ x ∈ pre, x.isWrite = true) →
      NewResponse.calls cs = NewResponse.calls (pre ++ post)) ∧
    (NewResponse.calls cs).End.Body = (cs.map Call.written).flatten ∧
    (NewResponse.calls cs).End.IsBase64Encoded = false := by
  have hb := calls_buf cs NewResponse
  have hbin : isBinary (NewResponse.calls cs).finalHeader = false := by
    unfold ResponseWriter.finalHeader
    rw [hb.2]
    decide!
  have h200 : (cs = [] ∨ ∃ b rest, cs = Call.Write b :: rest) →
      (NewResponse.calls cs).End.StatusCode = 200 := by
    intro hcs
    rw [End_StatusCode, calls_status_write NewResponse cs hcs]
    rfl
  refine ⟨?_, h200, ?_, ?_, ?_, ?_⟩
  · intro pre c post hcs hpre hpost
    have hun := calls_unfrozen pre NewResponse rfl hpre
    have hc : (NewResponse.calls pre).call (.WriteHeader c) =
        { NewResponse.calls pre with status := some c } := by
      show (NewResponse.calls pre).WriteHeader c = _
      unfold ResponseWriter.WriteHeader
      simp [hun]
    have hsplit : NewResponse.calls cs =
        (((NewResponse.calls pre).call (.WriteHeader c)).calls post) := by
      rw [hcs, calls_append]
      rfl
    rw [End_StatusCode, hsplit, calls_status_write _ post hpost, hc]
    rfl
  · intro hno
    apply h200
    cases cs with
    | nil => exact Or.inl rfl
    | cons y cs =>
      have h1 := hno y (by simp)
      cases y with
      | WriteHeader st => simp [Call.isWriteHeader] at h1
      | Write b => exact Or.inr ⟨b, cs, rfl⟩
  · intro pre c post hcs hw
    have hfrozen := calls_wrote pre NewResponse hw
    rw [hcs, calls_append, calls_append]
    have : (NewResponse.calls pre).calls (Call.WriteHeader c :: post) =
        ((NewResponse.calls pre).WriteHeader c).calls post := rfl
    rw [this, WriteHeader_frozen _ c hfrozen]
  · rw [End_Body, hbin, hb.1]
    rfl
  · rw [End_IsBase64Encoded, hbin]

/-- Witness of C15, amended: the calls of `TestResponseWriter_WriteHeader`,
`WriteHeader(404)` then `Write("Not Found\n")`, give status 404 and the body
`Not Found\n`. -/
theorem End_status_body_witness :
    (NewResponse.calls [.WriteHeader 404, .Write (str "Not Found\n")]).End.StatusCode = 404 ∧
    (NewResponse.calls [.WriteHeader 404, .Write (str "Not Found\n")]).End.Body =
      ([Call.WriteHeader 404, Call.Write (str "Not Found\n")].map Call.written).flatten ∧
    ([Call.WriteHeader 404, Call.Write (str "Not Found\n")].map Call.written).flatten =
      str "Not Found\n" :=
  ⟨(End_status_body [.WriteHeader 404, .Write (str "Not Found\n")]).1 [] 404
      [.Write (str "Not Found\n")] rfl (by simp) (Or.inr ⟨_, _, rfl⟩),
    (End_status_body [.WriteHeader 404, .Write (str "Not Found\n")]).2.2.2.2.1, by decide!⟩

/-- Status and body on the cases of response_test.go: `WriteHeader(404)` then
`Write("Not Found\n")` gives status 404 and the body `Not Found\n`; a `Write` alone
gives status 200; a `WriteHeader(404)` after a `Write` leaves status 200. -/
theorem End_status_examples :
    (NewResponse.calls [.WriteHeader 404, .Write (str "Not Found\n")]).End.StatusCode = 404 ∧
    (NewResponse.calls [.WriteHeader 404, .Write (str "Not Found\n")]).End.Body =
      str "Not Found\n" ∧
    (NewResponse.calls [.Write (str "data")]).End.StatusCode = 200 ∧
    binaryRecorder.End.StatusCode = 200 ∧
    (NewResponse.calls [.Write (str "a"), .WriteHeader 404, .Write (str "b")]).End.StatusCode =
      200 ∧
    (NewResponse.calls [.Write (str "a"), .WriteHeader 404, .Write (str "b")]).End.Body =
      str "ab" := by
  decide!

/-! ## The host of the built request -/

/-- Reading back the text of a URL without host and user information whose escaped path
starts with `/`, and not with `//` when there is no scheme, gives a URL without host. -/
theorem Parse_String_nohost (u u1 : URL) (t : GoString) (hO : u.Opaque = [])
    (hU : u.User = none) (hOm : u.OmitHost = false) (hH : u.Host = [])
    (hS : u.Scheme = [] ∨ isSchemeName u.Scheme = true)
    (hQ : 35 ∉ u.RawQuery ∧ 63 ∉ u.RawQuery) (hpath : u.EscapedPath = 47 :: t)
    (hC : u.Scheme ≠ [] ∨ HasPrefix u.EscapedPath (str "//") = false)
    (hp : Gateway.Parse u.String = .ok u1) : u1.Host = [] := by
  have hstr := String_of_path u t hO hU hOm hH hpath
  have hfree := EscapedPath_free u
  have hS35 : 35 ∉ (if u.Scheme ≠ [] then u.Scheme ++ 58 :: [47, 47] else []) := by
    rcases hS with hS | hS
    · simp [hS]
    · split
      · simp only [List.mem_append, List.mem_cons, List.not_mem_nil, not_or]
        refine ⟨fun hm => ?_, by omega, by omega, by omega, by simp⟩
        have := isSchemeName_bytes _ hS 35 hm
        omega
      · simp
  have hq35 : 35 ∉ (if u.ForceQuery = true ∨ u.RawQuery ≠ [] then 63 :: u.RawQuery else []) := by
    split
    · simp only [List.mem_cons, not_or]
      exact ⟨by omega, hQ.1⟩
    · simp
  have hA : 35 ∉ (if u.Scheme ≠ [] then u.Scheme ++ 58 :: [47, 47] else []) ++
      (u.EscapedPath ++
        (if u.ForceQuery = true ∨ u.RawQuery ≠ [] then 63 :: u.RawQuery else [])) := by
    simp only [List.mem_append, not_or]
    exact ⟨hS35, hfree.1, hq35⟩
  have hfrag : (if u.Fragment ≠ [] then 35 :: u.EscapedFragment else []) = [] ∨
      ∃ t, (if u.Fragment ≠ [] then 35 :: u.EscapedFragment else []) = 35 :: t := by
    split
    · exact Or.inr ⟨_, rfl⟩
    · exact Or.inl rfl
  obtain ⟨url, hurl, h1, _⟩ := Parse_ok _ _ hp
  rw [hstr, Cut_fst_append _ _ 35 hA hfrag] at hurl
  obtain ⟨url0, hset, hh0, _⟩ :=
    parse_path_form u.Scheme u.EscapedPath t u.RawQuery u.ForceQuery url hS hpath hfree.2 hQ.2
      hC hurl
  rw [h1, (setPath_ok _ _ _ hset).1, hh0]

/-- Counterexample to C2 as stated. The event carries the header `Host: example.com` and
the path `//other.example/pets`; `NewRequest` succeeds and the host of the built request
is `other.example`, neither the header value nor the fallback. And an event that spells
its host header `host`, with the value `example.com`, gives with the fallback `xxx` a
built request whose host is `xxx`. -/
theorem request_host_counterexample :
    GoMap.get (mergeValues authorityPathEvent.Headers authorityPathEvent.MultiValueHeaders)
      (str "Host") = some [str "example.com"] ∧
    specHost (setHost {} (str "xxx")) authorityPathEvent = str "example.com" ∧
    (NewRequest (setHost {} (str "xxx")) authorityPathEvent).2 = none ∧
    (NewRequest (setHost {} (str "xxx")) authorityPathEvent).1.map (fun r => r.Host) =
      some (str "other.example") ∧
    GoMap.get (mergeValues lowerHostEvent.Headers lowerHostEvent.MultiValueHeaders)
      (str "host") = some [str "example.com"] ∧
    (NewRequest (setHost {} (str "xxx")) lowerHostEvent).2 = none ∧
    (NewRequest (setHost {} (str "xxx")) lowerHostEvent).1.map (fun r => r.Host) =
      some (str "xxx") := by
  decide!

/-- C2, amended. Let `h` be the first value the merged header map stores under the key
`Host`, spelled exactly so, when that value exists and is not empty, and the fallback
host of the context otherwise; a host header under another spelling, as `host`, is not
read. For every context and every event on which `NewRequest` succeeds, whose path,
parsed as a URL reference, has no scheme, no host and no user information, whose
`X-Forwarded-Proto` header is absent, empty or a scheme name, with `h` a byte string,
and such that `h` is not empty, or the escaped path of the parsed event path is empty
or starts with `/` and either `X-Forwarded-Proto` is not empty or the escaped path of
the built URL `u` does not start with `//`: the host of the built request is `h`, with
an empty port (a final `:`) removed. -/
theorem request_host (ctx : Context) (e : APIGatewayProxyRequest)
    (hok : (NewRequest ctx e).2 = none) :
    ∃ u r, requestURL ctx e = .ok u ∧ NewRequest ctx e = (some r, none) ∧
      (∀ v vs, GoMap.get (mergeValues e.Headers e.MultiValueHeaders) (str "Host") =
        some (v :: vs) → v ≠ [] → specHost ctx e = v) ∧
      (GoMap.get (mergeValues e.Headers e.MultiValueHeaders) (str "Host") = none →
        specHost ctx e = getHost ctx) ∧
      ∀ ref : URL, Gateway.Parse e.Path = .ok ref → ref.Scheme = [] → ref.Host = [] →
        ref.User = none →
        (Header.Get (mergeValues e.Headers e.MultiValueHeaders)
            (str "X-Forwarded-Proto") = [] ∨
          isSchemeName (Header.Get (mergeValues e.Headers e.MultiValueHeaders)
            (str "X-Forwarded-Proto")) = true) →
        isBytes (specHost ctx e) →
        (specHost ctx e ≠ [] ∨
          ((ref.EscapedPath = [] ∨ HasPrefix ref.EscapedPath [47] = true) ∧
            (Header.Get (mergeValues e.Headers e.MultiValueHeaders)
                (str "X-Forwarded-Proto") ≠ [] ∨
              HasPrefix u.EscapedPath (str "//") = false))) →
        r.Host = removeEmptyPort (specHost ctx e) := by
  obtain ⟨u, body, req, hu, _, hreq, hr⟩ := NewRequest_ok ctx e hok
  refine ⟨u, _, hu, hr, ?_, ?_, ?_⟩
  · intro v vs hget hv
    unfold specHost
    rw [hget]
    simp [hv]
  · intro hget
    unfold specHost
    rw [hget]
  · intro ref href hs hh hus hproto hb hhost
    obtain ⟨hS, hH, hO, hU, hOm⟩ := requestURL_fields ctx e u ref hu href hs hh hus
    obtain ⟨u1, hparse, _, _, _, hreqhost, _⟩ := httpNewRequest_ok _ _ _ _ hreq
    have hq := requestURL_RawQuery ctx e u hu
    have hfree := Encode_free
      (mergeValues e.QueryStringParameters e.MultiValueQueryStringParameters)
    rw [(finishRequest_fields ctx e u body req).2.1, hreqhost]
    by_cases hne : specHost ctx e = []
    · have hrest : (ref.EscapedPath = [] ∨ HasPrefix ref.EscapedPath [47] = true) ∧
          (Header.Get (mergeValues e.Headers e.MultiValueHeaders)
              (str "X-Forwarded-Proto") ≠ [] ∨
            HasPrefix u.EscapedPath (str "//") = false) := by
        rcases hhost with h | h
        · exact absurd hne h
        · exact h
      obtain ⟨⟨t, ht⟩, _⟩ := requestURL_path ctx e u ref hu href hs hh hus hrest.1
      have h1 := Parse_String_nohost u u1 t hO hU hOm (by rw [hH]; exact hne)
        (by rw [hS]; exact hproto) (by rw [hq]; exact hfree) ht
        (by rw [hS]; exact hrest.2) hparse
      rw [h1, hne]
    · have h1 := Parse_String_host u u1 hO hU hOm (by rw [hH]; exact hne)
        (by rw [hS]; exact hproto) (by rw [hq]; exact hfree) (by rw [hH]; exact hb) hparse
      rw [h1.1, hH]

/-- The event of `TestNewRequest_header` has a plain path: the text of its built URL
does not start its path with `//`. -/
theorem headerEvent_path (u : URL)
    (hu : requestURL (setHost {} (str "xxx")) headerEvent = .ok u) :
    HasPrefix u.EscapedPath (str "//") = false := by
  have hp : (requestURL (setHost {} (str "xxx")) headerEvent).toOption.map
      (fun v => HasPrefix v.EscapedPath (str "//")) = some false := by decide!
  rw [hu] at hp
  exact Option.some.inj hp

/-- The event of `TestNewRequest_path` has a plain path. -/
theorem pathEvent_path (u : URL) (hu : requestURL {} pathEvent = .ok u) :
    HasPrefix u.EscapedPath (str "//") = false := by
  have hp : (requestURL {} pathEvent).toOption.map
      (fun v => HasPrefix v.EscapedPath (str "//")) = some false := by decide!
  rw [hu] at hp
  exact Option.some.inj hp

/-- Witness of C2, amended: the event of `TestNewRequest_header` with the fallback
`xxx` gives the host `example.com` of its `Host` header, and the event of
`TestNewRequest_path`, without `Host` header and without fallback, gives the empty
host. -/
theorem request_host_witness :
    ((NewRequest (setHost {} (str "xxx")) headerEvent).2 = none ∧
      specHost (setHost {} (str "xxx")) headerEvent = str "example.com" ∧
      removeEmptyPort (str "example.com") = str "example.com" ∧
      ∃ r, NewRequest (setHost {} (str "xxx")) headerEvent = (some r, none) ∧
        r.Host = removeEmptyPort (specHost (setHost {} (str "xxx")) headerEvent)) ∧
    ((NewRequest {} pathEvent).2 = none ∧ specHost {} pathEvent = [] ∧
      removeEmptyPort [] = [] ∧
      ∃ r, NewRequest {} pathEvent = (some r, none) ∧
        r.Host = removeEmptyPort (specHost {} pathEvent)) := by
  obtain ⟨u, r, hu, hr, _, _, h⟩ := request_host (setHost {} (str "xxx")) headerEvent
    (by decide!)
  obtain ⟨u2, r2, hu2, hr2, _, _, h2⟩ := request_host {} pathEvent (by decide!)
  exact ⟨⟨by decide!, by decide!, by decide!, r, hr,
      h { Path := str "/pets" } (by decide!) rfl rfl rfl (by decide!) (by decide!)
        (Or.inl (by decide!))⟩,
    ⟨by decide!, by decide!, by decide!, r2, hr2,
      h2 { Path := str "/pets/luna" } (by decide!) rfl rfl rfl (by decide!) (by decide!)
        (Or.inr ⟨Or.inr (by decide!), Or.inr (pathEvent_path u2 hu2)⟩)⟩⟩

/-- The host of the built request on the two events of the test suite: the `Host`
header `example.com` overrides the fallback `xxx`, and without `Host` header the host is
the fallback `example.com`. -/
theorem request_host_examples :
    (NewRequest (setHost {} (str "xxx")) headerEvent).1.map (fun r => r.Host) =
      some (str "example.com") ∧
    (NewRequest (setHost {} (str "example.com")) hostEvent).1.map (fun r => r.Host) =
      some (str "example.com") ∧
    (NewRequest {} emptyPortEvent).1.map (fun r => r.Host) = some (str "example.com") ∧
    (NewRequest {} pathEvent).1.map (fun r => r.Host) = some [] := by
  decide!

/-! ## The query of the built request -/

/-- The event of `TestNewRequest_queryString` is a plain event. -/
theorem plainEvent_queryStringEvent (u : URL) (hu : requestURL {} queryStringEvent = .ok u) :
    plainEvent {} queryStringEvent u := by
  have hp : (requestURL {} queryStringEvent).toOption.map
      (fun v => HasPrefix v.EscapedPath (str "//")) = some false := by decide!
  rw [hu] at hp
  exact ⟨⟨{ Path := str "/pets" }, by decide!, rfl, rfl, rfl, Or.inr (by decide!)⟩,
    Or.inl (by decide!), Or.inr (Or.inr (Option.some.inj hp))⟩

/-- The event with the path `/pets?x=1` is a plain event. -/
theorem plainEvent_pathQueryEvent (u : URL) (hu : requestURL {} pathQueryEvent = .ok u) :
    plainEvent {} pathQueryEvent u := by
  have hp : (requestURL {} pathQueryEvent).toOption.map
      (fun v => HasPrefix v.EscapedPath (str "//")) = some false := by decide!
  rw [hu] at hp
  exact ⟨⟨{ Path := str "/pets", RawQuery := str "x=1" }, by decide!, rfl, rfl, rfl,
    Or.inr (by decide!)⟩, Or.inl (by decide!), Or.inr (Or.inr (Option.some.inj hp))⟩

/-- The same event with the path `/pets` is a plain event. -/
theorem plainEvent_petsEvent (u : URL)
    (hu : requestURL {} { pathQueryEvent with Path := str "/pets" } = .ok u) :
    plainEvent {} { pathQueryEvent with Path := str "/pets" } u := by
  have hp : (requestURL {} { pathQueryEvent with Path := str "/pets" }).toOption.map
      (fun v => HasPrefix v.EscapedPath (str "//")) = some false := by decide!
  rw [hu] at hp
  exact ⟨⟨{ Path := str "/pets" }, by decide!, rfl, rfl, rfl, Or.inr (by decide!)⟩,
    Or.inl (by decide!), Or.inr (Or.inr (Option.some.inj hp))⟩

/-- Counterexample to C6 as stated. The event carries `Host: example.com`, the query
parameter `order=desc` and the header `X-Forwarded-Proto: a?b`; `NewRequest` succeeds,
the canonical encoding of the merged query parameters is `order=desc`, and the raw query
of the URL of the built request is `b://example.com/pets?order=desc`: the text
`a?b://example.com/pets?order=desc` of the URL built from the event is read back by
`http.NewRequest` as the path `a` with what follows the first `?` as the query. -/
theorem query_canonical_counterexample :
    (NewRequest {} protoQueryEvent).2 = none ∧
    specEncode (mergeValues protoQueryEvent.QueryStringParameters
      protoQueryEvent.MultiValueQueryStringParameters) = str "order=desc" ∧
    (requestURL {} protoQueryEvent).toOption.map (fun u => (u.RawQuery, u.String)) =
      some (str "order=desc", str "a?b://example.com/pets?order=desc") ∧
    (NewRequest {} protoQueryEvent).1.map (fun r => (r.URL.Path, r.URL.RawQuery)) =
      some (str "a", str "b://example.com/pets?order=desc") := by
  decide!

/-- C6, amended. For every event on which `NewRequest` succeeds, with `q` the merged query
parameters `mergeValues(QueryStringParameters, MultiValueQueryStringParameters)`: the
query string of the URL `u` that `NewRequest` builds (and hands to the request as the
query of `RequestURI`) is the canonical encoding of `q`: one escaped `key=value` pair per
value, joined by `&`, keys in ascending order and, within a key, values in their merged
order. The encoding is the same for every map with the same entries, whatever its
iteration order, and decoding it with `url.ParseQuery` gives no error and, under every
key, the values of `q` (keys and values being byte strings). On a plain event (the event
path, parsed as a URL reference, has no scheme, no host, no user information and an
escaped path that is empty or starts with `/`; `X-Forwarded-Proto` is absent, empty or a
scheme name; the host or `X-Forwarded-Proto` is non-empty or the escaped path of `u`
does not start with `//`) the raw query of the URL of the built request is that
canonical encoding too. -/
theorem query_canonical (ctx : Context) (e : APIGatewayProxyRequest)
    (hok : (NewRequest ctx e).2 = none) :
    ∃ u r, requestURL ctx e = .ok u ∧ NewRequest ctx e = (some r, none) ∧
      r.RequestURI = u.RequestURI ∧
      u.RawQuery = specEncode
        (mergeValues e.QueryStringParameters e.MultiValueQueryStringParameters) ∧
      (sortStrings (mergeValues e.QueryStringParameters
        e.MultiValueQueryStringParameters).keys).Sorted (fun a b => strLe a b = true) ∧
      (∀ q2 : Values,
        (∀ k, q2.get k = GoMap.get (mergeValues e.QueryStringParameters
          e.MultiValueQueryStringParameters) k) → Values.Encode q2 = u.RawQuery) ∧
      ((∀ k vs, GoMap.get (mergeValues e.QueryStringParameters
          e.MultiValueQueryStringParameters) k = some vs →
          isBytes k ∧ ∀ val ∈ vs, isBytes val) →
        (ParseQuery u.RawQuery).2 = none ∧
        ∀ k, ((ParseQuery u.RawQuery).1.get k).getD [] =
          (GoMap.get (mergeValues e.QueryStringParameters
            e.MultiValueQueryStringParameters) k).getD []) ∧
      (plainEvent ctx e u →
        r.URL.RawQuery = specEncode
          (mergeValues e.QueryStringParameters e.MultiValueQueryStringParameters) ∧
        r.URL.RawQuery = u.RawQuery ∧ r.URL.EscapedPath = u.EscapedPath) := by
  obtain ⟨u, body, req, hu, _, hreq, hr⟩ := NewRequest_ok ctx e hok
  have hq := requestURL_RawQuery ctx e u hu
  refine ⟨u, _, hu, hr, (finishRequest_fields ctx e u body req).2.2.2.2.1, ?_, ?_, ?_, ?_, ?_⟩
  · rw [hq, Encode_eq_specEncode]
  · exact sortStrings_sorted _
  · intro q2 h2
    rw [hq]
    exact Encode_eq_of_get_eq _ _ h2
  · intro hb
    rw [hq]
    exact ParseQuery_Encode _ hb
  · intro hplain
    have h := httpNewRequest_URL_query ctx e u body req hu hreq hplain
    rw [(finishRequest_fields ctx e u body req).2.2.2.1]
    exact ⟨by rw [h.1, hq, Encode_eq_specEncode], h.1, h.2⟩

/-- Witness of C6, amended: the event of `TestNewRequest_queryString`, whose parameters
`order=desc` and `fields=name,species` give `fields=name%2Cspecies&order=desc`, in the
URL built from the event and in the URL of the built request. -/
theorem query_canonical_witness :
    (NewRequest {} queryStringEvent).2 = none ∧
    specEncode (mergeValues queryStringEvent.QueryStringParameters
      queryStringEvent.MultiValueQueryStringParameters) =
      str "fields=name%2Cspecies&order=desc" ∧
    (NewRequest {} queryStringEvent).1.map (fun r => (r.RequestURI, r.URL.String)) =
      some (str "/pets?fields=name%2Cspecies&order=desc",
        str "/pets?fields=name%2Cspecies&order=desc") ∧
    ∃ u r, requestURL {} queryStringEvent = .ok u ∧
      NewRequest {} queryStringEvent = (some r, none) ∧
      r.RequestURI = u.RequestURI ∧
      u.RawQuery = specEncode
        (mergeValues queryStringEvent.QueryStringParameters
          queryStringEvent.MultiValueQueryStringParameters) ∧
      r.URL.RawQuery = specEncode
        (mergeValues queryStringEvent.QueryStringParameters
          queryStringEvent.MultiValueQueryStringParameters) := by
  obtain ⟨u, r, hu, hr, h1, h2, _, _, _, h6⟩ := query_canonical {} queryStringEvent (by decide!)
  exact ⟨by decide!, by decide!, by decide!, u, r, hu, hr, h1, h2,
    (h6 (plainEvent_queryStringEvent u hu)).1⟩

/-! ## The query of the built request and the event path -/

/-- Counterexample to C17 as stated. Two events with the header `X-Forwarded-Proto: a?b`
and no query parameters, one with the path `/pets?` and one with the path `/pets`:
`NewRequest` succeeds on both, the canonical encoding of the merged query parameters is
empty, and the URLs of the built requests have the raw queries `b:///pets?` and
`b:///pets`. -/
theorem query_from_maps_only_counterexample :
    (NewRequest {} { protoEvent with Path := str "/pets?" }).2 = none ∧
    (NewRequest {} protoEvent).2 = none ∧
    protoEvent.Path = str "/pets" ∧
    specEncode (mergeValues protoEvent.QueryStringParameters
      protoEvent.MultiValueQueryStringParameters) = [] ∧
    (NewRequest {} { protoEvent with Path := str "/pets?" }).1.map
      (fun r => r.URL.RawQuery) = some (str "b:///pets?") ∧
    (NewRequest {} protoEvent).1.map (fun r => r.URL.RawQuery) = some (str "b:///pets") := by
  decide!

/-- C17, amended. For every context, every event `e` and every path `p`, if `NewRequest`
succeeds on `e` and on `e` with its path replaced by `p` (so the two events have the
same query parameter maps and may differ in a query written inside the path): the URLs
`u`, `u2` that `NewRequest` builds from the two events have the same raw query, which is
the canonical encoding of the merged query maps; what the path holds after a `?` is not
in it. On plain events (the event path, parsed as a URL reference, has no scheme, no
host, no user information and an escaped path that is empty or starts with `/`;
`X-Forwarded-Proto` is absent, empty or a scheme name; the host or `X-Forwarded-Proto`
is non-empty or the escaped path of the built URL does not start with `//`) this is also
the raw query of the URL of the built request. -/
theorem query_from_maps_only (ctx : Context) (e : APIGatewayProxyRequest) (p : GoString)
    (hok : (NewRequest ctx e).2 = none)
    (hok2 : (NewRequest ctx { e with Path := p }).2 = none) :
    ∃ u u2 r r2, requestURL ctx e = .ok u ∧ requestURL ctx { e with Path := p } = .ok u2 ∧
      NewRequest ctx e = (some r, none) ∧ NewRequest ctx { e with Path := p } = (some r2, none) ∧
      u.RawQuery = u2.RawQuery ∧
      u.RawQuery = specEncode
        (mergeValues e.QueryStringParameters e.MultiValueQueryStringParameters) ∧
      (plainEvent ctx e u →
        r.URL.RawQuery = specEncode
          (mergeValues e.QueryStringParameters e.MultiValueQueryStringParameters)) ∧
      (plainEvent ctx { e with Path := p } u2 →
        r2.URL.RawQuery = specEncode
          (mergeValues e.QueryStringParameters e.MultiValueQueryStringParameters)) ∧
      (plainEvent ctx e u → plainEvent ctx { e with Path := p } u2 →
        r.URL.RawQuery = r2.URL.RawQuery) := by
  obtain ⟨u, body, req, hu, _, hreq, hr⟩ := NewRequest_ok ctx e hok
  obtain ⟨u2, body2, req2, hu2, _, hreq2, hr2⟩ := NewRequest_ok ctx _ hok2
  have hq := requestURL_RawQuery ctx e u hu
  have hq2 := requestURL_RawQuery ctx _ u2 hu2
  have h1 : plainEvent ctx e u →
      (finishRequest ctx e u body req).URL.RawQuery = specEncode
        (mergeValues e.QueryStringParameters e.MultiValueQueryStringParameters) := by
    intro hplain
    rw [(finishRequest_fields ctx e u body req).2.2.2.1,
      (httpNewRequest_URL_query ctx e u body req hu hreq hplain).1, hq, Encode_eq_specEncode]
  have h2 : plainEvent ctx { e with Path := p } u2 →
      (finishRequest ctx { e with Path := p } u2 body2 req2).URL.RawQuery = specEncode
        (mergeValues e.QueryStringParameters e.MultiValueQueryStringParameters) := by
    intro hplain
    rw [(finishRequest_fields ctx _ u2 body2 req2).2.2.2.1,
      (httpNewRequest_URL_query ctx _ u2 body2 req2 hu2 hreq2 hplain).1, hq2,
      Encode_eq_specEncode]
  refine ⟨u, u2, _, _, hu, hu2, hr, hr2, ?_, ?_, h1, h2, ?_⟩
  · rw [hq, hq2]
  · rw [hq, Encode_eq_specEncode]
  · intro hp1 hp2
    rw [h1 hp1, h2 hp2]

/-- Witness of C17, amended: the path `/pets?x=1` and the path `/pets`, with the query
parameters of `TestNewRequest_queryString`: both built URLs have the raw query
`fields=name%2Cspecies&order=desc`, and so have the URLs of the built requests. -/
theorem query_from_maps_only_witness :
    (NewRequest {} pathQueryEvent).2 = none ∧
    (NewRequest {} { pathQueryEvent with Path := str "/pets" }).2 = none ∧
    specEncode (mergeValues pathQueryEvent.QueryStringParameters
      pathQueryEvent.MultiValueQueryStringParameters) =
      str "fields=name%2Cspecies&order=desc" ∧
    (NewRequest {} pathQueryEvent).1.map (fun r => (r.URL.RawQuery, r.RequestURI)) =
      some (str "fields=name%2Cspecies&order=desc",
        str "/pets?fields=name%2Cspecies&order=desc") ∧
    ∃ u u2 r r2, requestURL {} pathQueryEvent = .ok u ∧
      requestURL {} { pathQueryEvent with Path := str "/pets" } = .ok u2 ∧
      NewRequest {} pathQueryEvent = (some r, none) ∧
      NewRequest {} { pathQueryEvent with Path := str "/pets" } = (some r2, none) ∧
      u.RawQuery = u2.RawQuery ∧
      u.RawQuery = specEncode (mergeValues pathQueryEvent.QueryStringParameters
        pathQueryEvent.MultiValueQueryStringParameters) ∧
      r.URL.RawQuery = specEncode (mergeValues pathQueryEvent.QueryStringParameters
        pathQueryEvent.MultiValueQueryStringParameters) ∧
      r2.URL.RawQuery = specEncode (mergeValues pathQueryEvent.QueryStringParameters
        pathQueryEvent.MultiValueQueryStringParameters) ∧
      r.URL.RawQuery = r2.URL.RawQuery := by
  obtain ⟨u, u2, r, r2, hu, hu2, hr, hr2, h1, h2, h3, h4, h5⟩ :=
    query_from_maps_only {} pathQueryEvent (str "/pets") (by decide!) (by decide!)
  exact ⟨by decide!, by decide!, by decide!, by decide!, u, u2, r, r2, hu, hu2, hr, hr2, h1, h2,
    h3 (plainEvent_pathQueryEvent u hu), h4 (plainEvent_petsEvent u2 hu2),
    h5 (plainEvent_pathQueryEvent u hu) (plainEvent_petsEvent u2 hu2)⟩

end Gateway
